import Mathlib

/-!
Verification development for the own-lang compiler (lexer, recursive-descent
parser, scoped semantic analyzer, x86-64 code generator).  Every definition is
a shallow embedding of the corresponding Rust item in `src/`; Rust strings are
modelled byte-wise as `List Char` / `String` over ASCII text, loops are given
explicit fuel so that all definitions stay executable, and `i64`/`usize`
arithmetic that only ever renders values is carried on `Int`/`Nat`.
-/

set_option maxHeartbeats 4000000
set_option maxRecDepth 8000

namespace OwnLang

/-- Token kinds, from `lex/models/token_type` (the closed set listed in the
spec data model and matched throughout the lexer and parser). -/
inductive TokenType where
  | Keyword | Type | Identifier | Int | Float | String | Bool
  | Operator | Semicolon | Colon | Comma | Equals
  | LeftParen | RightParen | LeftBracket | RightBracket | EOF
deriving DecidableEq, Repr

/-- A token, from `lex/models/token.rs`: a kind plus the lexeme text. -/
structure Token where
  token_type : TokenType
  value : String
deriving DecidableEq, Repr

/-- ASCII reading of Rust `char::is_whitespace` for byte-level input. -/
def rust_is_whitespace (c : Char) : Bool :=
  c = ' ' ∨ c = '\t' ∨ c = '\n' ∨ c = '\r' ∨ c = '\x0b' ∨ c = '\x0c'

/-- ASCII reading of Rust `char::is_alphabetic`. -/
def rust_is_alphabetic (c : Char) : Bool :=
  ('A' ≤ c ∧ c ≤ 'Z') ∨ ('a' ≤ c ∧ c ≤ 'z')

/-- ASCII reading of Rust `char::is_numeric`. -/
def rust_is_numeric (c : Char) : Bool :=
  '0' ≤ c ∧ c ≤ '9'

/-- ASCII reading of Rust `char::is_alphanumeric`. -/
def rust_is_alphanumeric (c : Char) : Bool :=
  rust_is_alphabetic c || rust_is_numeric c

/-- ASCII digit test used by the numeric-literal parsing model. -/
def is_ascii_digit (c : Char) : Bool :=
  '0' ≤ c ∧ c ≤ '9'

/-- Value of a list of decimal digit characters, most significant first. -/
def dec_val (cs : List Char) : Nat :=
  cs.foldl (fun a c => 10 * a + (c.toNat - 48)) 0

/-- The decimal digit character for a value below ten. -/
def digit_char (n : Nat) : Char := Char.ofNat (48 + n)

/-- Decimal digit characters of `n`, most significant first (fuelled). -/
def dec_chars : Nat → Nat → List Char
  | 0, _ => []
  | fuel + 1, n =>
    if n < 10 then [digit_char n] else dec_chars fuel (n / 10) ++ [digit_char (n % 10)]

/-- Decimal rendering of a `usize`, as produced by Rust `format!("{}", n)`. -/
def nat_dec (n : Nat) : String := String.mk (dec_chars (n + 1) n)

/-- Decimal rendering of a signed integer, as produced by Rust `format!`. -/
def int_dec (i : Int) : String :=
  if i < 0 then "-" ++ nat_dec i.natAbs else nat_dec i.toNat

/-- Core of `str::parse::<i64>` on an unsigned digit run. -/
def parse_i64_core (cs : List Char) (neg : Bool) : Option Int :=
  if cs = [] ∨ ¬ cs.all is_ascii_digit then none
  else
    let v : Nat := dec_val cs
    if neg then (if v ≤ 2 ^ 63 then some (-(v : Int)) else none)
    else (if v ≤ 2 ^ 63 - 1 then some (v : Int) else none)

/-- Model of Rust `str::parse::<i64>`: optional sign, decimal digits, checked
against the `i64` range. -/
def rust_parse_i64 (s : String) : Option Int :=
  match s.data with
  | '+' :: rest => parse_i64_core rest false
  | '-' :: rest => parse_i64_core rest true
  | cs => parse_i64_core cs false

/-- Nonempty all-digit test for the exponent part of a float literal. -/
def digits1 (cs : List Char) : Bool := cs ≠ [] && cs.all is_ascii_digit

/-- Acceptance of the optional exponent suffix of a Rust float literal. -/
def f64_exp_ok : List Char → Bool
  | [] => true
  | c :: r =>
    if c = 'e' ∨ c = 'E' then
      match r with
      | '+' :: r1 => digits1 r1
      | '-' :: r1 => digits1 r1
      | r1 => digits1 r1
    else false

/-- Acceptance of the mantissa-plus-exponent body of a Rust float literal. -/
def f64_mantissa_exp (cs : List Char) : Bool :=
  let intPart := cs.takeWhile is_ascii_digit
  let rest1 := cs.dropWhile is_ascii_digit
  match rest1 with
  | '.' :: r2 =>
    let frac := r2.takeWhile is_ascii_digit
    let rest2 := r2.dropWhile is_ascii_digit
    (intPart ≠ [] ∨ frac ≠ []) && f64_exp_ok rest2
  | _ => intPart ≠ [] && f64_exp_ok rest1

/-- Model of `str::parse::<f64>().is_ok()`: optional sign, then an
infinity/NaN word or a decimal mantissa with optional exponent. -/
def rust_parse_f64_ok (s : String) : Bool :=
  let cs := match s.data with
    | '+' :: r => r
    | '-' :: r => r
    | cs => cs
  let low := cs.map Char.toLower
  low = "inf".data ∨ low = "infinity".data ∨ low = "nan".data ∨ f64_mantissa_exp cs

/-- Lexer state, from `lex/lexer.rs`: the input (byte-wise), the position of
the current character, the read cursor, and the current character. -/
structure LexState where
  input : List Char
  position : Nat
  read_position : Nat
  ch : Char
deriving DecidableEq, Repr

/-- Byte access `input.as_bytes()[i]`; out-of-range reads never occur on the
guarded paths of the source and default to NUL here. -/
def charAt (l : List Char) (i : Nat) : Char := l.getD i '\x00'

/-- Cursor after the `//`-comment scan loop of `read_char`: the first index at
or after `rp` that is past the end or holds a newline. -/
def scan_to_newline : Nat → List Char → Nat → Nat
  | 0, _, rp => rp
  | fuel + 1, input, rp =>
    if rp < input.length ∧ charAt input rp ≠ '\n' then
      scan_to_newline fuel input (rp + 1)
    else rp

/-- `Lexer::read_char`, including its inline `//` line-comment skipping. -/
def read_char (st : LexState) : LexState :=
  let len := st.input.length
  let c := if st.read_position ≥ len then '\x00' else charAt st.input st.read_position
  let st1 : LexState :=
    { st with ch := c, position := st.read_position, read_position := st.read_position + 1 }
  if st1.ch = '/' then
    let next := if st1.read_position < len then charAt st.input st1.read_position else '\x00'
    if next = '/' then
      let rp2 := scan_to_newline len st.input (st1.read_position + 1)
      let c2 := if rp2 < len then charAt st.input rp2 else '\x00'
      { st with ch := c2, position := rp2 + 1, read_position := rp2 + 1 }
    else st1
  else st1

/-- `Lexer::new`: zeroed cursors followed by one `read_char`. -/
def lexer_new (input : List Char) : LexState :=
  read_char { input := input, position := 0, read_position := 0, ch := '\x00' }

/-- Fuelled loop body of `skip_whitespace`. -/
def skip_ws : Nat → LexState → LexState
  | 0, st => st
  | fuel + 1, st =>
    if rust_is_whitespace st.ch then skip_ws fuel (read_char st) else st

/-- `Lexer::skip_whitespace`; the fuel dominates every reachable iteration
count, making the definition executable. -/
def skip_whitespace (st : LexState) : LexState :=
  skip_ws (st.input.length + 2) st

/-- Fuelled loop body of `read_identifier`. -/
def read_ident_loop : Nat → LexState → LexState
  | 0, st => st
  | fuel + 1, st =>
    if rust_is_alphanumeric st.ch then read_ident_loop fuel (read_char st) else st

/-- `TokenReader::read_identifier`: scan an alphanumeric run and slice the
input between the start and end positions. -/
def read_identifier (st : LexState) : String × LexState :=
  let start := st.position
  let st1 := read_ident_loop (st.input.length + 2) st
  (String.mk ((st1.input.drop start).take (st1.position - start)), st1)

/-- Fuelled loop body of `read_number`, threading the `has_dot` flag. -/
def read_num_loop : Nat → Bool → LexState → LexState
  | 0, _, st => st
  | fuel + 1, has_dot, st =>
    if rust_is_numeric st.ch ∨ (st.ch = '.' ∧ has_dot = false) then
      read_num_loop fuel (has_dot || decide (st.ch = '.')) (read_char st)
    else st

/-- `TokenReader::read_number`: digits with at most one dot, sliced from the
input between the start and end positions. -/
def read_number (st : LexState) : String × LexState :=
  let start := st.position
  let st1 := read_num_loop (st.input.length + 2) false st
  (String.mk ((st1.input.drop start).take (st1.position - start)), st1)

/-- Fuelled loop body of `read_string`, accumulating the inner characters. -/
def read_str_loop : Nat → Char → List Char → LexState → List Char × LexState
  | 0, _, acc, st => (acc, st)
  | fuel + 1, delim, acc, st =>
    if st.ch ≠ delim ∧ st.ch ≠ '\x00' then
      read_str_loop fuel delim (acc ++ [st.ch]) (read_char st)
    else (acc, st)

/-- `TokenReader::read_string`: remember the delimiter, consume it, collect
characters until the delimiter or NUL, then step past the delimiter. -/
def read_string (st : LexState) : String × LexState :=
  let delim := st.ch
  let st1 := read_char st
  let p := read_str_loop (st.input.length + 2) delim [] st1
  (String.mk p.1, read_char p.2)

/-- `Lexer::read_operator`: a maximal two-character operator among
`!= == <= >=`, else the single current character. -/
def read_operator (st : LexState) : String × LexState :=
  let c1 := st.ch
  let c2 := if st.read_position < st.input.length then charAt st.input st.read_position
    else '\x00'
  if c1 = '!' ∧ c2 = '=' then ("!=", read_char (read_char st))
  else if c1 = '=' ∧ c2 = '=' then ("==", read_char (read_char st))
  else if c1 = '<' ∧ c2 = '=' then ("<=", read_char (read_char st))
  else if c1 = '>' ∧ c2 = '=' then (">=", read_char (read_char st))
  else (String.mk [c1], read_char st)

/-- `Lexer::get_token_type`: classify a scanned word or operator text. -/
def get_token_type (word : String) : TokenType :=
  if word = "let" ∨ word = "if" ∨ word = "else" ∨ word = "return" ∨ word = "function"
      ∨ word = "switch" ∨ word = "case" ∨ word = "default" ∨ word = "while" ∨ word = "for" then
    .Keyword
  else if word = "int" ∨ word = "float" ∨ word = "bool" ∨ word = "string" ∨ word = "void" then
    .Type
  else if word = "true" ∨ word = "false" then .Bool
  else if word = ";" then .Semicolon
  else if word = ":" then .Colon
  else if word = "," then .Comma
  else if word = "=" then .Equals
  else if word = "+" ∨ word = "-" ∨ word = "*" ∨ word = "/" ∨ word = "==" ∨ word = "<="
      ∨ word = ">=" ∨ word = ">" ∨ word = "<" ∨ word = "%" ∨ word = "!=" then
    .Operator
  else if word = "(" then .LeftParen
  else if word = ")" then .RightParen
  else if word = "\x7b" then .LeftBracket
  else if word = "\x7d" then .RightBracket
  else if (rust_parse_i64 word).isSome then .Int
  else if rust_parse_f64_ok word then .Float
  else .Identifier

/-- `Lexer::next_token`: skip whitespace, then dispatch on the current
character class exactly as the source does. -/
def next_token (st0 : LexState) : Token × LexState :=
  let st := skip_whitespace st0
  if st.ch = '\x00' then (⟨.EOF, ""⟩, st)
  else if rust_is_alphabetic st.ch then
    let p := read_identifier st
    (⟨get_token_type p.1, p.1⟩, p.2)
  else if rust_is_numeric st.ch then
    let p := read_number st
    (⟨if '.' ∈ p.1.data then .Float else .Int, p.1⟩, p.2)
  else if st.ch = '"' ∨ st.ch = '\'' then
    let p := read_string st
    (⟨.String, p.1⟩, p.2)
  else
    let p := read_operator st
    (⟨get_token_type p.1, p.1⟩, p.2)

/-- The cursor invariant of every state the lexer reaches: a non-NUL current
character was read in bounds, so the read cursor is at most the length. -/
def lex_inv (st : LexState) : Prop :=
  st.ch ≠ '\x00' → st.read_position ≤ st.input.length

/-- The termination measure of the token loop: how far the read cursor is
from one past the end. -/
def lex_mu (st : LexState) : Nat :=
  st.input.length + 1 - st.read_position

/-- No two consecutive `/` characters (the pattern that triggers the
comment skipping of `read_char`). -/
def no_double_slash : List Char → Bool
  | c1 :: c2 :: rest => !(c1 = '/' && c2 = '/') && no_double_slash (c2 :: rest)
  | _ => true

/-- The lexer state after `n` calls to `next_token`. -/
def lex_iter : Nat → LexState → LexState
  | 0, st => st
  | n + 1, st => lex_iter n (next_token st).2

/-- The lexer state after `n` tokens have been read from fresh input. -/
def lex_state_at (input : List Char) (n : Nat) : LexState :=
  lex_iter n (lexer_new input)

/-- The `(n+1)`-st token read from fresh input. -/
def lex_token_at (input : List Char) (n : Nat) : Token :=
  (next_token (lex_state_at input n)).1

/-- Expressions, from `parser/models/expression.rs`, with the `Binary` and
`FunctionCall` boxes flattened into constructor fields.  Float literals carry
their lexeme text instead of an `f64`; no analyzed or generated behaviour in
this development depends on the numeric value of a float. -/
inductive Expression where
  | ident (name : String)
  | int (val : Int)
  | float (text : String)
  | str (text : String)
  | bool (val : Bool)
  | binary (left : Expression) (op : String) (right : Expression)
  | functionCall (name : String) (arguments : List Expression)
deriving Repr

/-- Statements, from `parser/models/statement.rs`, with each payload struct
flattened into constructor fields (`SwitchCase` and `Parameter` become
pairs).  Modelled from the spec: the `ForStatement` payload
`{init, cond, incr, body}` of the `For` variant is constructed and consumed
by the parser, analyzer and code generator but its definition is absent from
the provided model files, so its fields follow the spec data model. -/
inductive Statement where
  | varDeclaration (name : String) (type_name : String) (init : Option Expression)
  | varAffection (name : String) (value : Expression)
  | ret (value : Option Expression)
  | ifS (condition : Expression) (then_branch : List Statement)
      (else_branch : Option (List Statement))
  | switchS (condition : Expression) (cases : List (Expression × List Statement))
      (dfault : Option (List Statement))
  | whileS (condition : Expression) (body : List Statement)
  | forS (finit : Statement) (fcond : Statement) (fincr : Statement)
      (body : List Statement)
  | functionDeclaration (name : String) (parameters : List (String × String))
      (return_type : String) (body : List Statement)
  | expressionStatement (expr : Expression)
deriving Repr

/-- Parser state, from `parser/parser.rs`: the materialized token vector and
the monotone cursor. -/
structure Parser where
  tokens : List Token
  position : Nat
deriving DecidableEq, Repr

/-- `Parser::is_at_end`. -/
def Parser.is_at_end (p : Parser) : Bool :=
  p.position ≥ p.tokens.length
    || (p.tokens.getD p.position ⟨.EOF, ""⟩).token_type = .EOF

/-- `Parser::peek`; the out-of-range default is unreachable on the guarded
paths of the source, which would panic there. -/
def Parser.peek (p : Parser) : Token :=
  p.tokens.getD p.position ⟨.EOF, ""⟩

/-- `Parser::advance`: return the current token and step the cursor. -/
def Parser.advance (p : Parser) : Token × Parser :=
  (p.peek, { p with position := p.position + 1 })

/-- `Parser::check`. -/
def Parser.check (p : Parser) (tt : TokenType) : Bool :=
  if p.is_at_end then false else p.peek.token_type = tt

/-- `Parser::check_operator`. -/
def Parser.check_operator (p : Parser) (ops : List String) : Bool :=
  if p.is_at_end then false
  else p.peek.token_type = .Operator && ops.contains p.peek.value

/-- `Parser::consume`: take a token of the expected kind or fail in place
(the diagnostic written to stderr is not modelled). -/
def Parser.consume (p : Parser) (tt : TokenType) : Option Token × Parser :=
  if p.check tt then (some p.peek, (p.advance).2) else (none, p)

/-- `Parser::is_keyword`. -/
def Parser.is_keyword (p : Parser) (kw : String) : Bool :=
  if p.is_at_end then false
  else p.peek.token_type = .Keyword && p.peek.value = kw

/-- `Parser::consume_keyword`. -/
def Parser.consume_keyword (p : Parser) (kw : String) : Option Token × Parser :=
  if p.is_keyword kw then (some p.peek, (p.advance).2) else (none, p)

/-- `is_var_affection` from `parser/statement_parser.rs`: an identifier whose
successor token is `=`. -/
def is_var_affection (p : Parser) : Bool :=
  if p.is_at_end then false
  else if ¬ p.check .Identifier then false
  else if p.position + 1 ≥ p.tokens.length then false
  else (p.tokens.getD (p.position + 1) ⟨.EOF, ""⟩).token_type = .Equals

mutual

/-- `parse_expression` from `parser/expression_parser.rs` (fuelled). -/
def parse_expression : Nat → Parser → Option Expression × Parser
  | 0, st => (none, st)
  | fuel + 1, st => parse_equality fuel st

/-- `parse_equality`: a comparison followed by the `== !=` chain loop. -/
def parse_equality : Nat → Parser → Option Expression × Parser
  | 0, st => (none, st)
  | fuel + 1, st =>
    match parse_comparison fuel st with
    | (none, st1) => (none, st1)
    | (some e, st1) => equality_loop fuel e st1

/-- The `while check_operator(["==","!="])` loop of `parse_equality`. -/
def equality_loop : Nat → Expression → Parser → Option Expression × Parser
  | 0, _, st => (none, st)
  | fuel + 1, e, st =>
    if st.check_operator ["==", "!="] then
      let a := st.advance
      match parse_comparison fuel a.2 with
      | (none, st2) => (none, st2)
      | (some r, st2) => equality_loop fuel (.binary e a.1.value r) st2
    else (some e, st)

/-- `parse_comparison`: a term followed by the `< <= > >=` chain loop. -/
def parse_comparison : Nat → Parser → Option Expression × Parser
  | 0, st => (none, st)
  | fuel + 1, st =>
    match parse_term fuel st with
    | (none, st1) => (none, st1)
    | (some e, st1) => comparison_loop fuel e st1

/-- The comparison-operator chain loop of `parse_comparison`. -/
def comparison_loop : Nat → Expression → Parser → Option Expression × Parser
  | 0, _, st => (none, st)
  | fuel + 1, e, st =>
    if st.check_operator ["<", "<=", ">", ">="] then
      let a := st.advance
      match parse_term fuel a.2 with
      | (none, st2) => (none, st2)
      | (some r, st2) => comparison_loop fuel (.binary e a.1.value r) st2
    else (some e, st)

/-- `parse_term`: a factor followed by the `+ -` chain loop. -/
def parse_term : Nat → Parser → Option Expression × Parser
  | 0, st => (none, st)
  | fuel + 1, st =>
    match parse_factor fuel st with
    | (none, st1) => (none, st1)
    | (some e, st1) => term_loop fuel e st1

/-- The additive-operator chain loop of `parse_term`. -/
def term_loop : Nat → Expression → Parser → Option Expression × Parser
  | 0, _, st => (none, st)
  | fuel + 1, e, st =>
    if st.check_operator ["+", "-"] then
      let a := st.advance
      match parse_factor fuel a.2 with
      | (none, st2) => (none, st2)
      | (some r, st2) => term_loop fuel (.binary e a.1.value r) st2
    else (some e, st)

/-- `parse_factor`: a unary followed by the `* / %` chain loop. -/
def parse_factor : Nat → Parser → Option Expression × Parser
  | 0, st => (none, st)
  | fuel + 1, st =>
    match parse_unary fuel st with
    | (none, st1) => (none, st1)
    | (some e, st1) => factor_loop fuel e st1

/-- The multiplicative-operator chain loop of `parse_factor`. -/
def factor_loop : Nat → Expression → Parser → Option Expression × Parser
  | 0, _, st => (none, st)
  | fuel + 1, e, st =>
    if st.check_operator ["*", "/", "%"] then
      let a := st.advance
      match parse_unary fuel a.2 with
      | (none, st2) => (none, st2)
      | (some r, st2) => factor_loop fuel (.binary e a.1.value r) st2
    else (some e, st)

/-- `parse_unary`: prefix `- !` encoded as a binary with left `Int(0)`. -/
def parse_unary : Nat → Parser → Option Expression × Parser
  | 0, st => (none, st)
  | fuel + 1, st =>
    if st.check_operator ["-", "!"] then
      let a := st.advance
      match parse_unary fuel a.2 with
      | (none, st1) => (none, st1)
      | (some r, st1) => (some (.binary (.int 0) a.1.value r), st1)
    else parse_primary fuel st

/-- `parse_primary`: parenthesized expression, literal, identifier, or call. -/
def parse_primary : Nat → Parser → Option Expression × Parser
  | 0, st => (none, st)
  | fuel + 1, st =>
    if st.check .LeftParen then
      let a := st.advance
      match parse_expression fuel a.2 with
      | (none, st1) => (none, st1)
      | (some e, st1) =>
        match st1.consume .RightParen with
        | (none, st2) => (none, st2)
        | (some _, st2) => (some e, st2)
    else
      let a := st.advance
      let tok := a.1
      let st1 := a.2
      match tok.token_type with
      | .Int =>
        match rust_parse_i64 tok.value with
        | some v => (some (.int v), st1)
        | none => (none, st1)
      | .Float =>
        if rust_parse_f64_ok tok.value then (some (.float tok.value), st1)
        else (none, st1)
      | .Identifier =>
        if st1.check .LeftParen then
          let b := st1.advance
          match parse_call_args fuel b.2 with
          | (none, st2) => (none, st2)
          | (some args, st2) =>
            match st2.consume .RightParen with
            | (none, st3) => (none, st3)
            | (some _, st3) => (some (.functionCall tok.value args), st3)
        else (some (.ident tok.value), st1)
      | .Bool => (some (.bool (tok.value = "true")), st1)
      | .String => (some (.str tok.value), st1)
      | _ => (none, st1)

/-- The argument loop of a call in `parse_primary`: expressions until `)`,
with an optional comma consumed after each. -/
def parse_call_args : Nat → Parser → Option (List Expression) × Parser
  | 0, st => (none, st)
  | fuel + 1, st =>
    if ¬ st.check .RightParen ∧ ¬ st.is_at_end then
      match parse_expression fuel st with
      | (none, st1) => (none, st1)
      | (some e, st1) =>
        let st2 := if st1.check .Comma then (st1.advance).2 else st1
        match parse_call_args fuel st2 with
        | (none, st3) => (none, st3)
        | (some rest, st3) => (some (e :: rest), st3)
    else (some [], st)

/-- `parse_statement` from `parser/statement_parser.rs`: the statement
dispatcher, including the trailing-semicolon consumption after the
if/switch/while/for forms. -/
def parse_statement : Nat → Parser → Option Statement × Parser
  | 0, st => (none, st)
  | fuel + 1, st =>
    if st.is_keyword "let" then
      match parse_var_decl fuel st with
      | (none, st1) => (none, st1)
      | (some vd, st1) => (some (.varDeclaration vd.1 vd.2.1 vd.2.2), st1)
    else if st.is_keyword "return" then
      parse_return_stmt fuel st
    else if is_var_affection st then
      match parse_var_affection fuel st with
      | (none, st1) => (none, st1)
      | (some va, st1) => (some (.varAffection va.1 va.2), st1)
    else if st.is_keyword "if" then
      match parse_if_stmt fuel st with
      | (none, st1) => (none, st1)
      | (some d, st1) =>
        match st1.consume .Semicolon with
        | (none, st2) => (none, st2)
        | (some _, st2) => (some (.ifS d.1 d.2.1 d.2.2), st2)
    else if st.is_keyword "switch" then
      match parse_switch_stmt fuel st with
      | (none, st1) => (none, st1)
      | (some d, st1) =>
        match st1.consume .Semicolon with
        | (none, st2) => (none, st2)
        | (some _, st2) => (some (.switchS d.1 d.2.1 d.2.2), st2)
    else if st.is_keyword "while" then
      match parse_while_stmt fuel st with
      | (none, st1) => (none, st1)
      | (some d, st1) =>
        match st1.consume .Semicolon with
        | (none, st2) => (none, st2)
        | (some _, st2) => (some (.whileS d.1 d.2), st2)
    else if st.is_keyword "for" then
      match parse_for_stmt fuel st with
      | (none, st1) => (none, st1)
      | (some d, st1) =>
        match st1.consume .Semicolon with
        | (none, st2) => (none, st2)
        | (some _, st2) => (some (.forS d.1 d.2.1 d.2.2.1 d.2.2.2), st2)
    else if st.is_keyword "function" then
      match parser_function_decl fuel st with
      | (none, st1) => (none, st1)
      | (some d, st1) =>
        (some (.functionDeclaration d.1 d.2.1 d.2.2.1 d.2.2.2), st1)
    else if st.check .Identifier then
      match parse_expression fuel st with
      | (none, st1) => (none, st1)
      | (some e, st1) =>
        match st1.consume .Semicolon with
        | (none, st2) => (none, st2)
        | (some _, st2) => (some (.expressionStatement e), st2)
    else (none, (st.advance).2)

/-- `parse_var_decl`: `let Ident : Type (= Expr)? ;`, yielding the
`VarDeclaration` fields; a failing initializer parse leaves `init` empty. -/
def parse_var_decl : Nat → Parser → Option (String × String × Option Expression) × Parser
  | 0, st => (none, st)
  | fuel + 1, st =>
    match st.consume_keyword "let" with
    | (none, st1) => (none, st1)
    | (some _, st1) =>
    match st1.consume .Identifier with
    | (none, st2) => (none, st2)
    | (some nameTok, st2) =>
    match st2.consume .Colon with
    | (none, st3) => (none, st3)
    | (some _, st3) =>
    match st3.consume .Type with
    | (none, st4) => (none, st4)
    | (some typeTok, st4) =>
      let pr :=
        if st4.check .Equals then parse_expression fuel ((st4.advance).2)
        else (none, st4)
      match pr.2.consume .Semicolon with
      | (none, st6) => (none, st6)
      | (some _, st6) => (some (nameTok.value, typeTok.value, pr.1), st6)

/-- `parse_return_stmt`: `return Expr? ;`. -/
def parse_return_stmt : Nat → Parser → Option Statement × Parser
  | 0, st => (none, st)
  | fuel + 1, st =>
    match st.consume_keyword "return" with
    | (none, st1) => (none, st1)
    | (some _, st1) =>
      let pr : Option (Option Expression) × Parser :=
        if st1.check .Semicolon then (some none, st1)
        else
          match parse_expression fuel st1 with
          | (none, st2) => (none, st2)
          | (some e, st2) => (some (some e), st2)
      match pr with
      | (none, st2) => (none, st2)
      | (some oe, st2) =>
        match st2.consume .Semicolon with
        | (none, st3) => (none, st3)
        | (some _, st3) => (some (.ret oe), st3)

/-- `parse_var_affection`: `Ident = Expr ;`, yielding the fields. -/
def parse_var_affection : Nat → Parser → Option (String × Expression) × Parser
  | 0, st => (none, st)
  | fuel + 1, st =>
    match st.consume .Identifier with
    | (none, st1) => (none, st1)
    | (some nameTok, st1) =>
    match st1.consume .Equals with
    | (none, st2) => (none, st2)
    | (some _, st2) =>
    match parse_expression fuel st2 with
    | (none, st3) => (none, st3)
    | (some e, st3) =>
    match st3.consume .Semicolon with
    | (none, st4) => (none, st4)
    | (some _, st4) => (some (nameTok.value, e), st4)

/-- `parse_if_stmt`: condition, then block, optional else block, yielding the
`IfStatement` fields (the trailing semicolon is the dispatcher's). -/
def parse_if_stmt : Nat → Parser →
    Option (Expression × List Statement × Option (List Statement)) × Parser
  | 0, st => (none, st)
  | fuel + 1, st =>
    match st.consume_keyword "if" with
    | (none, st1) => (none, st1)
    | (some _, st1) =>
    match st1.consume .LeftParen with
    | (none, st2) => (none, st2)
    | (some _, st2) =>
    match parse_expression fuel st2 with
    | (none, st3) => (none, st3)
    | (some cond, st3) =>
    match st3.consume .RightParen with
    | (none, st4) => (none, st4)
    | (some _, st4) =>
    match st4.consume .LeftBracket with
    | (none, st5) => (none, st5)
    | (some _, st5) =>
    match parse_block_like fuel st5 with
    | (none, st6) => (none, st6)
    | (some thn, st6) =>
    match st6.consume .RightBracket with
    | (none, st7) => (none, st7)
    | (some _, st7) =>
      if st7.is_keyword "else" then
        let a := st7.advance
        match a.2.consume .LeftBracket with
        | (none, st8) => (none, st8)
        | (some _, st8) =>
        match parse_block_like fuel st8 with
        | (none, st9) => (none, st9)
        | (some els, st9) =>
        match st9.consume .RightBracket with
        | (none, st10) => (none, st10)
        | (some _, st10) => (some (cond, thn, some els), st10)
      else (some (cond, thn, none), st7)

/-- `parse_while_stmt`: condition and body, yielding the fields. -/
def parse_while_stmt : Nat → Parser → Option (Expression × List Statement) × Parser
  | 0, st => (none, st)
  | fuel + 1, st =>
    match st.consume_keyword "while" with
    | (none, st1) => (none, st1)
    | (some _, st1) =>
    match st1.consume .LeftParen with
    | (none, st2) => (none, st2)
    | (some _, st2) =>
    match parse_expression fuel st2 with
    | (none, st3) => (none, st3)
    | (some cond, st3) =>
    match st3.consume .RightParen with
    | (none, st4) => (none, st4)
    | (some _, st4) =>
    match st4.consume .LeftBracket with
    | (none, st5) => (none, st5)
    | (some _, st5) =>
    match parse_block_like fuel st5 with
    | (none, st6) => (none, st6)
    | (some body, st6) =>
    match st6.consume .RightBracket with
    | (none, st7) => (none, st7)
    | (some _, st7) => (some (cond, body), st7)

/-- `parse_for_stmt`: three statements in the header, then the body. -/
def parse_for_stmt : Nat → Parser →
    Option (Statement × Statement × Statement × List Statement) × Parser
  | 0, st => (none, st)
  | fuel + 1, st =>
    match st.consume_keyword "for" with
    | (none, st1) => (none, st1)
    | (some _, st1) =>
    match st1.consume .LeftParen with
    | (none, st2) => (none, st2)
    | (some _, st2) =>
    match parse_statement fuel st2 with
    | (none, st3) => (none, st3)
    | (some s1, st3) =>
    match parse_statement fuel st3 with
    | (none, st4) => (none, st4)
    | (some s2, st4) =>
    match parse_statement fuel st4 with
    | (none, st5) => (none, st5)
    | (some s3, st5) =>
    match st5.consume .RightParen with
    | (none, st6) => (none, st6)
    | (some _, st6) =>
    match st6.consume .LeftBracket with
    | (none, st7) => (none, st7)
    | (some _, st7) =>
    match parse_block_like fuel st7 with
    | (none, st8) => (none, st8)
    | (some body, st8) =>
    match st8.consume .RightBracket with
    | (none, st9) => (none, st9)
    | (some _, st9) => (some (s1, s2, s3, body), st9)

/-- `parse_switch_stmt`: discriminant, case/default items, closing brace. -/
def parse_switch_stmt : Nat → Parser →
    Option (Expression × List (Expression × List Statement) × Option (List Statement)) × Parser
  | 0, st => (none, st)
  | fuel + 1, st =>
    match st.consume_keyword "switch" with
    | (none, st1) => (none, st1)
    | (some _, st1) =>
    match st1.consume .LeftParen with
    | (none, st2) => (none, st2)
    | (some _, st2) =>
    match parse_expression fuel st2 with
    | (none, st3) => (none, st3)
    | (some cond, st3) =>
    match st3.consume .RightParen with
    | (none, st4) => (none, st4)
    | (some _, st4) =>
    match st4.consume .LeftBracket with
    | (none, st5) => (none, st5)
    | (some _, st5) =>
    match parse_switch_items fuel st5 [] none with
    | (none, st6) => (none, st6)
    | (some acc, st6) =>
    match st6.consume .RightBracket with
    | (none, st7) => (none, st7)
    | (some _, st7) => (some (cond, acc.1, acc.2), st7)

/-- The case/default item loop of `parse_switch_stmt`; an unexpected token
consumes one token and breaks, keeping the items collected so far, and a
later `default` overwrites an earlier one. -/
def parse_switch_items : Nat → Parser → List (Expression × List Statement) →
    Option (List Statement) →
    Option (List (Expression × List Statement) × Option (List Statement)) × Parser
  | 0, st, _, _ => (none, st)
  | fuel + 1, st, cases, dflt =>
    if ¬ st.check .RightBracket ∧ ¬ st.is_at_end then
      if st.is_keyword "case" then
        let a := st.advance
        match parse_expression fuel a.2 with
        | (none, st1) => (none, st1)
        | (some v, st1) =>
        match st1.consume .LeftBracket with
        | (none, st2) => (none, st2)
        | (some _, st2) =>
        match parse_block_like fuel st2 with
        | (none, st3) => (none, st3)
        | (some body, st3) =>
        match st3.consume .RightBracket with
        | (none, st4) => (none, st4)
        | (some _, st4) =>
          let st5 := if st4.check .Comma then (st4.advance).2 else st4
          parse_switch_items fuel st5 (cases ++ [(v, body)]) dflt
      else if st.is_keyword "default" then
        let a := st.advance
        match a.2.consume .LeftBracket with
        | (none, st1) => (none, st1)
        | (some _, st1) =>
        match parse_block_like fuel st1 with
        | (none, st2) => (none, st2)
        | (some body, st2) =>
        match st2.consume .RightBracket with
        | (none, st3) => (none, st3)
        | (some _, st3) =>
          let st4 := if st3.check .Comma then (st3.advance).2 else st3
          parse_switch_items fuel st4 cases (some body)
      else (some (cases, dflt), (st.advance).2)
    else (some (cases, dflt), st)

/-- `parser_function_decl`: name, parameter list, return type, body. -/
def parser_function_decl : Nat → Parser →
    Option (String × List (String × String) × String × List Statement) × Parser
  | 0, st => (none, st)
  | fuel + 1, st =>
    match st.consume_keyword "function" with
    | (none, st1) => (none, st1)
    | (some _, st1) =>
    match st1.consume .Identifier with
    | (none, st2) => (none, st2)
    | (some nameTok, st2) =>
    match st2.consume .LeftParen with
    | (none, st3) => (none, st3)
    | (some _, st3) =>
    match parse_params fuel st3 with
    | (none, st4) => (none, st4)
    | (some params, st4) =>
    match st4.consume .RightParen with
    | (none, st5) => (none, st5)
    | (some _, st5) =>
    match st5.consume .Colon with
    | (none, st6) => (none, st6)
    | (some _, st6) =>
    match st6.consume .Type with
    | (none, st7) => (none, st7)
    | (some retTok, st7) =>
    match st7.consume .LeftBracket with
    | (none, st8) => (none, st8)
    | (some _, st8) =>
    match parse_block_like fuel st8 with
    | (none, st9) => (none, st9)
    | (some body, st9) =>
    match st9.consume .RightBracket with
    | (none, st10) => (none, st10)
    | (some _, st10) => (some (nameTok.value, params, retTok.value, body), st10)

/-- The parameter loop of `parser_function_decl`: `Ident : Type` runs until
`)`, with an optional comma consumed after each parameter. -/
def parse_params : Nat → Parser → Option (List (String × String)) × Parser
  | 0, st => (none, st)
  | fuel + 1, st =>
    if ¬ st.check .RightParen then
      match st.consume .Identifier with
      | (none, st1) => (none, st1)
      | (some nameTok, st1) =>
      match st1.consume .Colon with
      | (none, st2) => (none, st2)
      | (some _, st2) =>
      match st2.consume .Type with
      | (none, st3) => (none, st3)
      | (some typeTok, st3) =>
        let st4 := if st3.check .Comma then (st3.advance).2 else st3
        match parse_params fuel st4 with
        | (none, st5) => (none, st5)
        | (some rest, st5) => (some ((nameTok.value, typeTok.value) :: rest), st5)
    else (some [], st)

/-- `parse_block_like`: statements until `}` or end of input; a failing
statement breaks and keeps the statements collected so far. -/
def parse_block_like : Nat → Parser → Option (List Statement) × Parser
  | 0, st => (none, st)
  | fuel + 1, st =>
    if ¬ st.check .RightBracket ∧ ¬ st.is_at_end then
      match parse_statement fuel st with
      | (some s, st1) =>
        match parse_block_like fuel st1 with
        | (some rest, st2) => (some (s :: rest), st2)
        | (none, st2) => (none, st2)
      | (none, st1) => (some [], st1)
    else (some [], st)

end

/-- The `parse_file` loop of `parser/parser.rs`: statements until the end of
the tokens, stopping at the first failed statement. -/
def parse_file_loop : Nat → Nat → Parser → List Statement × Parser
  | 0, _, st => ([], st)
  | fuel + 1, pfuel, st =>
    if ¬ st.is_at_end then
      match parse_statement pfuel st with
      | (some s, st1) =>
        let r := parse_file_loop fuel pfuel st1
        (s :: r.1, r.2)
      | (none, st1) => ([], st1)
    else ([], st)

/-- One step of token materialization: `next_token` repeatedly until EOF. -/
def tokenize_loop : Nat → LexState → List Token
  | 0, _ => []
  | fuel + 1, st =>
    let p := next_token st
    if p.1.token_type = .EOF then [p.1]
    else p.1 :: tokenize_loop fuel p.2

/-- Modelled from the spec: the driver glue that feeds the lexer's token
stream to the parser (spec §2, lexer «source text → token stream») is absent
from the provided sources — `SemanticAnalyzer::new` hands the raw source
string to a parser that consumes a token vector — so the vector is
materialized here by calling `next_token` until EOF, inclusive. -/
def tokenize (src : String) : List Token :=
  tokenize_loop (src.data.length + 2) (lexer_new src.data)

/-- `Parser::parse_file` applied to the tokens of a source string, with fuel
ample for the token count. -/
def parse_program (src : String) : List Statement :=
  let toks := tokenize src
  (parse_file_loop (toks.length + 1) (8 * toks.length + 64) ⟨toks, 0⟩).1

/-- A token does not carry an operator from the given list. -/
def tok_not_op (t : Token) (ops : List String) : Prop :=
  t.token_type = .Operator → ¬ t.value ∈ ops

/-- Follow-set condition under which a parsed primary is not extended. -/
def follow_primary (t : Token) : Prop := t.token_type ≠ .LeftParen

/-- Follow-set condition under which a parsed factor chain stops. -/
def follow_factor (t : Token) : Prop :=
  follow_primary t ∧ tok_not_op t ["*", "/", "%"]

/-- Follow-set condition under which a parsed term chain stops. -/
def follow_term (t : Token) : Prop :=
  follow_factor t ∧ tok_not_op t ["+", "-"]

/-- Follow-set condition under which a parsed comparison chain stops. -/
def follow_comparison (t : Token) : Prop :=
  follow_term t ∧ tok_not_op t ["<", "<=", ">", ">="]

/-- Follow-set condition under which a parsed expression is not extended. -/
def follow_expression (t : Token) : Prop :=
  follow_comparison t ∧ tok_not_op t ["==", "!="]


mutual

/-- Derivations of the `Primary` production of the spec grammar, amended to
what the code accepts: literal tokens must carry parseable text, and a call
is an identifier followed by a parenthesized argument list. -/
inductive DPrim : List Token → Expression → Prop where
  | int (v : String) (n : Int) (h : rust_parse_i64 v = some n) :
      DPrim [⟨.Int, v⟩] (.int n)
  | float (v : String) (h : rust_parse_f64_ok v = true) :
      DPrim [⟨.Float, v⟩] (.float v)
  | bool (v : String) : DPrim [⟨.Bool, v⟩] (.bool (v = "true"))
  | str (v : String) : DPrim [⟨.String, v⟩] (.str v)
  | ident (x : String) : DPrim [⟨.Identifier, x⟩] (.ident x)
  | call (x : String) (ts : List Token) (args : List Expression) (h : DArgs ts args) :
      DPrim (⟨.Identifier, x⟩ :: ⟨.LeftParen, "("⟩ :: ts ++ [⟨.RightParen, ")"⟩])
        (.functionCall x args)
  | paren (ts : List Token) (e : Expression) (h : DExpr ts e) :
      DPrim (⟨.LeftParen, "("⟩ :: ts ++ [⟨.RightParen, ")"⟩]) e

/-- Derivations of the `Unary` production: prefix `-`/`!` or a primary. -/
inductive DUnary : List Token → Expression → Prop where
  | lift (ts : List Token) (e : Expression) (h : DPrim ts e) : DUnary ts e
  | neg (op : String) (hop : op = "-" ∨ op = "!") (ts : List Token) (r : Expression)
      (h : DUnary ts r) : DUnary (⟨.Operator, op⟩ :: ts) (.binary (.int 0) op r)

/-- Left-associated multiplicative chains continuing an already parsed
factor. -/
inductive DFacChain : Expression → List Token → Expression → Prop where
  | done (e : Expression) : DFacChain e [] e
  | step (e : Expression) (op : String) (hop : op = "*" ∨ op = "/" ∨ op = "%")
      (ts1 ts2 : List Token) (r res : Expression)
      (h1 : DUnary ts1 r) (h2 : DFacChain (.binary e op r) ts2 res) :
      DFacChain e (⟨.Operator, op⟩ :: ts1 ++ ts2) res

/-- Derivations of the `Factor` production. -/
inductive DFactor : List Token → Expression → Prop where
  | mk (ts1 ts2 : List Token) (e res : Expression)
      (h1 : DUnary ts1 e) (h2 : DFacChain e ts2 res) : DFactor (ts1 ++ ts2) res

/-- Left-associated additive chains continuing an already parsed term. -/
inductive DTermChain : Expression → List Token → Expression → Prop where
  | done (e : Expression) : DTermChain e [] e
  | step (e : Expression) (op : String) (hop : op = "+" ∨ op = "-")
      (ts1 ts2 : List Token) (r res : Expression)
      (h1 : DFactor ts1 r) (h2 : DTermChain (.binary e op r) ts2 res) :
      DTermChain e (⟨.Operator, op⟩ :: ts1 ++ ts2) res

/-- Derivations of the `Term` production. -/
inductive DTerm : List Token → Expression → Prop where
  | mk (ts1 ts2 : List Token) (e res : Expression)
      (h1 : DFactor ts1 e) (h2 : DTermChain e ts2 res) : DTerm (ts1 ++ ts2) res

/-- Left-associated relational chains continuing an already parsed
comparison. -/
inductive DCompChain : Expression → List Token → Expression → Prop where
  | done (e : Expression) : DCompChain e [] e
  | step (e : Expression) (op : String)
      (hop : op = "<" ∨ op = "<=" ∨ op = ">" ∨ op = ">=")
      (ts1 ts2 : List Token) (r res : Expression)
      (h1 : DTerm ts1 r) (h2 : DCompChain (.binary e op r) ts2 res) :
      DCompChain e (⟨.Operator, op⟩ :: ts1 ++ ts2) res

/-- Derivations of the `Comparison` production. -/
inductive DComp : List Token → Expression → Prop where
  | mk (ts1 ts2 : List Token) (e res : Expression)
      (h1 : DTerm ts1 e) (h2 : DCompChain e ts2 res) : DComp (ts1 ++ ts2) res

/-- Left-associated equality chains continuing an already parsed
equality. -/
inductive DEqChain : Expression → List Token → Expression → Prop where
  | done (e : Expression) : DEqChain e [] e
  | step (e : Expression) (op : String) (hop : op = "==" ∨ op = "!=")
      (ts1 ts2 : List Token) (r res : Expression)
      (h1 : DComp ts1 r) (h2 : DEqChain (.binary e op r) ts2 res) :
      DEqChain e (⟨.Operator, op⟩ :: ts1 ++ ts2) res

/-- Derivations of the `Expr` production (`Expr := Equality`). -/
inductive DExpr : List Token → Expression → Prop where
  | mk (ts1 ts2 : List Token) (e res : Expression)
      (h1 : DComp ts1 e) (h2 : DEqChain e ts2 res) : DExpr (ts1 ++ ts2) res

/-- Nonempty comma-separated argument lists (`Expr (',' Expr)*`). -/
inductive DArgs1 : List Token → List Expression → Prop where
  | single (ts : List Token) (e : Expression) (h : DExpr ts e) : DArgs1 ts [e]
  | cons (ts1 ts2 : List Token) (e : Expression) (es : List Expression)
      (h1 : DExpr ts1 e) (h2 : DArgs1 ts2 es) :
      DArgs1 (ts1 ++ ⟨.Comma, ","⟩ :: ts2) (e :: es)

/-- Possibly empty argument lists. -/
inductive DArgs : List Token → List Expression → Prop where
  | nil : DArgs [] []
  | of (ts : List Token) (es : List Expression) (h : DArgs1 ts es) : DArgs ts es

end

/-- Nonempty comma-separated parameter lists (`Ident ':' Type` runs). -/
inductive DParams1 : List Token → List (String × String) → Prop where
  | single (x ty : String) :
      DParams1 [⟨.Identifier, x⟩, ⟨.Colon, ":"⟩, ⟨.Type, ty⟩] [(x, ty)]
  | cons (x ty : String) (ts : List Token) (ps : List (String × String))
      (h : DParams1 ts ps) :
      DParams1 (⟨.Identifier, x⟩ :: ⟨.Colon, ":"⟩ :: ⟨.Type, ty⟩ :: ⟨.Comma, ","⟩ :: ts)
        ((x, ty) :: ps)

/-- Possibly empty parameter lists. -/
inductive DParams : List Token → List (String × String) → Prop where
  | nil : DParams [] []
  | of (ts : List Token) (ps : List (String × String)) (h : DParams1 ts ps) :
      DParams ts ps

mutual

/-- Derivations of the `Stmt` production of the spec grammar, amended to
what the code accepts: a trailing `;` after the if, switch, while and for
forms, and an expression statement must start with an identifier not
followed by `=`. -/
inductive DStmt : List Token → Statement → Prop where
  | varDeclNone (x ty : String) :
      DStmt [⟨.Keyword, "let"⟩, ⟨.Identifier, x⟩, ⟨.Colon, ":"⟩, ⟨.Type, ty⟩,
        ⟨.Semicolon, ";"⟩] (.varDeclaration x ty none)
  | varDeclInit (x ty : String) (ts : List Token) (e : Expression) (h : DExpr ts e) :
      DStmt (⟨.Keyword, "let"⟩ :: ⟨.Identifier, x⟩ :: ⟨.Colon, ":"⟩ :: ⟨.Type, ty⟩ ::
        ⟨.Equals, "="⟩ :: ts ++ [⟨.Semicolon, ";"⟩]) (.varDeclaration x ty (some e))
  | retNone : DStmt [⟨.Keyword, "return"⟩, ⟨.Semicolon, ";"⟩] (.ret none)
  | retSome (ts : List Token) (e : Expression) (h : DExpr ts e) :
      DStmt (⟨.Keyword, "return"⟩ :: ts ++ [⟨.Semicolon, ";"⟩]) (.ret (some e))
  | varAff (x : String) (ts : List Token) (e : Expression) (h : DExpr ts e) :
      DStmt (⟨.Identifier, x⟩ :: ⟨.Equals, "="⟩ :: ts ++ [⟨.Semicolon, ";"⟩])
        (.varAffection x e)
  | ifNoElse (tsC tsB : List Token) (cond : Expression) (thn : List Statement)
      (hc : DExpr tsC cond) (hb : DBlock tsB thn) :
      DStmt (⟨.Keyword, "if"⟩ :: ⟨.LeftParen, "("⟩ :: tsC ++ ⟨.RightParen, ")"⟩ ::
        ⟨.LeftBracket, "\x7b"⟩ :: tsB ++ [⟨.RightBracket, "\x7d"⟩, ⟨.Semicolon, ";"⟩])
        (.ifS cond thn none)
  | ifElse (tsC tsB tsE : List Token) (cond : Expression) (thn els : List Statement)
      (hc : DExpr tsC cond) (hb : DBlock tsB thn) (he : DBlock tsE els) :
      DStmt (⟨.Keyword, "if"⟩ :: ⟨.LeftParen, "("⟩ :: tsC ++ ⟨.RightParen, ")"⟩ ::
        ⟨.LeftBracket, "\x7b"⟩ :: tsB ++ ⟨.RightBracket, "\x7d"⟩ :: ⟨.Keyword, "else"⟩ ::
        ⟨.LeftBracket, "\x7b"⟩ :: tsE ++ [⟨.RightBracket, "\x7d"⟩, ⟨.Semicolon, ";"⟩])
        (.ifS cond thn (some els))
  | whileS (tsC tsB : List Token) (cond : Expression) (body : List Statement)
      (hc : DExpr tsC cond) (hb : DBlock tsB body) :
      DStmt (⟨.Keyword, "while"⟩ :: ⟨.LeftParen, "("⟩ :: tsC ++ ⟨.RightParen, ")"⟩ ::
        ⟨.LeftBracket, "\x7b"⟩ :: tsB ++ [⟨.RightBracket, "\x7d"⟩, ⟨.Semicolon, ";"⟩])
        (.whileS cond body)
  | forS (ts1 ts2 ts3 tsB : List Token) (s1 s2 s3 : Statement) (body : List Statement)
      (h1 : DStmt ts1 s1) (h2 : DStmt ts2 s2) (h3 : DStmt ts3 s3)
      (hb : DBlock tsB body) :
      DStmt (⟨.Keyword, "for"⟩ :: ⟨.LeftParen, "("⟩ :: ts1 ++ ts2 ++ ts3 ++
        ⟨.RightParen, ")"⟩ :: ⟨.LeftBracket, "\x7b"⟩ :: tsB ++
        [⟨.RightBracket, "\x7d"⟩, ⟨.Semicolon, ";"⟩]) (.forS s1 s2 s3 body)
  | switchS (tsD tsI : List Token) (d : Expression)
      (items : List (Expression × List Statement)) (odflt : Option (List Statement))
      (hd : DExpr tsD d) (hi : DItems tsI items odflt) :
      DStmt (⟨.Keyword, "switch"⟩ :: ⟨.LeftParen, "("⟩ :: tsD ++ ⟨.RightParen, ")"⟩ ::
        ⟨.LeftBracket, "\x7b"⟩ :: tsI ++ [⟨.RightBracket, "\x7d"⟩, ⟨.Semicolon, ";"⟩])
        (.switchS d items odflt)
  | fnDecl (name ret : String) (tsP tsB : List Token) (ps : List (String × String))
      (body : List Statement) (hp : DParams tsP ps) (hb : DBlock tsB body) :
      DStmt (⟨.Keyword, "function"⟩ :: ⟨.Identifier, name⟩ :: ⟨.LeftParen, "("⟩ ::
        tsP ++ ⟨.RightParen, ")"⟩ :: ⟨.Colon, ":"⟩ :: ⟨.Type, ret⟩ ::
        ⟨.LeftBracket, "\x7b"⟩ :: tsB ++ [⟨.RightBracket, "\x7d"⟩])
        (.functionDeclaration name ps ret body)
  | exprStmt (ts : List Token) (e : Expression) (h : DExpr ts e)
      (hhead : (ts.headD ⟨.EOF, ""⟩).token_type = .Identifier)
      (hsnd : (ts.tail.headD ⟨.EOF, ""⟩).token_type ≠ .Equals) :
      DStmt (ts ++ [⟨.Semicolon, ";"⟩]) (.expressionStatement e)

/-- Derivations of `Stmt*` blocks. -/
inductive DBlock : List Token → List Statement → Prop where
  | nil : DBlock [] []
  | cons (ts1 ts2 : List Token) (s : Statement) (sts : List Statement)
      (h1 : DStmt ts1 s) (h2 : DBlock ts2 sts) : DBlock (ts1 ++ ts2) (s :: sts)

/-- Derivations of switch-item runs: case items in order, with an optional
default item at the end. -/
inductive DItems : List Token →
    List (Expression × List Statement) → Option (List Statement) → Prop where
  | nil : DItems [] [] none
  | dflt (tsB : List Token) (b : List Statement) (h : DBlock tsB b) :
      DItems (⟨.Keyword, "default"⟩ :: ⟨.LeftBracket, "\x7b"⟩ :: tsB ++
        [⟨.RightBracket, "\x7d"⟩]) [] (some b)
  | caseCons (tsV tsB tsR : List Token) (v : Expression) (b : List Statement)
      (items : List (Expression × List Statement)) (odflt : Option (List Statement))
      (hv : DExpr tsV v) (hb : DBlock tsB b) (hr : DItems tsR items odflt) :
      DItems (⟨.Keyword, "case"⟩ :: tsV ++ ⟨.LeftBracket, "\x7b"⟩ :: tsB ++
        ⟨.RightBracket, "\x7d"⟩ :: tsR) ((v, b) :: items) odflt

end


/-- Soundness of the recursive-descent parser at a given fuel: every
grammar derivation whose tokens sit at the parser's cursor is parsed to its
own node, consuming exactly its tokens, provided the following token cannot
extend the parse and the fuel covers the token count. -/
structure Sound (fuel : Nat) : Prop where
  expr : ∀ {ts : List Token} {e : Expression} (st : Parser) (rest : List Token),
    DExpr ts e → st.tokens.drop st.position = ts ++ rest →
    follow_expression (rest.headD ⟨.EOF, ""⟩) → 8 * ts.length + 8 ≤ fuel →
    parse_expression fuel st = (some e, ⟨st.tokens, st.position + ts.length⟩)
  eq : ∀ {ts : List Token} {e : Expression} (st : Parser) (rest : List Token),
    DExpr ts e → st.tokens.drop st.position = ts ++ rest →
    follow_expression (rest.headD ⟨.EOF, ""⟩) → 8 * ts.length + 7 ≤ fuel →
    parse_equality fuel st = (some e, ⟨st.tokens, st.position + ts.length⟩)
  eqChain : ∀ {e0 : Expression} {ts : List Token} {res : Expression}
    (st : Parser) (rest : List Token),
    DEqChain e0 ts res → st.tokens.drop st.position = ts ++ rest →
    follow_expression (rest.headD ⟨.EOF, ""⟩) → 8 * ts.length + 7 ≤ fuel →
    equality_loop fuel e0 st = (some res, ⟨st.tokens, st.position + ts.length⟩)
  comp : ∀ {ts : List Token} {e : Expression} (st : Parser) (rest : List Token),
    DComp ts e → st.tokens.drop st.position = ts ++ rest →
    follow_comparison (rest.headD ⟨.EOF, ""⟩) → 8 * ts.length + 6 ≤ fuel →
    parse_comparison fuel st = (some e, ⟨st.tokens, st.position + ts.length⟩)
  compChain : ∀ {e0 : Expression} {ts : List Token} {res : Expression}
    (st : Parser) (rest : List Token),
    DCompChain e0 ts res → st.tokens.drop st.position = ts ++ rest →
    follow_comparison (rest.headD ⟨.EOF, ""⟩) → 8 * ts.length + 6 ≤ fuel →
    comparison_loop fuel e0 st = (some res, ⟨st.tokens, st.position + ts.length⟩)
  term : ∀ {ts : List Token} {e : Expression} (st : Parser) (rest : List Token),
    DTerm ts e → st.tokens.drop st.position = ts ++ rest →
    follow_term (rest.headD ⟨.EOF, ""⟩) → 8 * ts.length + 5 ≤ fuel →
    parse_term fuel st = (some e, ⟨st.tokens, st.position + ts.length⟩)
  termChain : ∀ {e0 : Expression} {ts : List Token} {res : Expression}
    (st : Parser) (rest : List Token),
    DTermChain e0 ts res → st.tokens.drop st.position = ts ++ rest →
    follow_term (rest.headD ⟨.EOF, ""⟩) → 8 * ts.length + 5 ≤ fuel →
    term_loop fuel e0 st = (some res, ⟨st.tokens, st.position + ts.length⟩)
  factor : ∀ {ts : List Token} {e : Expression} (st : Parser) (rest : List Token),
    DFactor ts e → st.tokens.drop st.position = ts ++ rest →
    follow_factor (rest.headD ⟨.EOF, ""⟩) → 8 * ts.length + 4 ≤ fuel →
    parse_factor fuel st = (some e, ⟨st.tokens, st.position + ts.length⟩)
  facChain : ∀ {e0 : Expression} {ts : List Token} {res : Expression}
    (st : Parser) (rest : List Token),
    DFacChain e0 ts res → st.tokens.drop st.position = ts ++ rest →
    follow_factor (rest.headD ⟨.EOF, ""⟩) → 8 * ts.length + 4 ≤ fuel →
    factor_loop fuel e0 st = (some res, ⟨st.tokens, st.position + ts.length⟩)
  unary : ∀ {ts : List Token} {e : Expression} (st : Parser) (rest : List Token),
    DUnary ts e → st.tokens.drop st.position = ts ++ rest →
    follow_primary (rest.headD ⟨.EOF, ""⟩) → 8 * ts.length + 3 ≤ fuel →
    parse_unary fuel st = (some e, ⟨st.tokens, st.position + ts.length⟩)
  primary : ∀ {ts : List Token} {e : Expression} (st : Parser) (rest : List Token),
    DPrim ts e → st.tokens.drop st.position = ts ++ rest →
    follow_primary (rest.headD ⟨.EOF, ""⟩) → 8 * ts.length + 2 ≤ fuel →
    parse_primary fuel st = (some e, ⟨st.tokens, st.position + ts.length⟩)
  args1 : ∀ {ts : List Token} {es : List Expression} (st : Parser) (rest : List Token),
    DArgs1 ts es → st.tokens.drop st.position = ts ++ rest →
    (rest.headD ⟨.EOF, ""⟩).token_type = .RightParen → 8 * ts.length + 9 ≤ fuel →
    parse_call_args fuel st = (some es, ⟨st.tokens, st.position + ts.length⟩)
  args : ∀ {ts : List Token} {es : List Expression} (st : Parser) (rest : List Token),
    DArgs ts es → st.tokens.drop st.position = ts ++ rest →
    (rest.headD ⟨.EOF, ""⟩).token_type = .RightParen → 8 * ts.length + 9 ≤ fuel →
    parse_call_args fuel st = (some es, ⟨st.tokens, st.position + ts.length⟩)
  stmt : ∀ {ts : List Token} {s : Statement} (st : Parser) (rest : List Token),
    DStmt ts s → st.tokens.drop st.position = ts ++ rest →
    8 * ts.length + 15 ≤ fuel →
    parse_statement fuel st = (some s, ⟨st.tokens, st.position + ts.length⟩)
  block : ∀ {ts : List Token} {sts : List Statement} (st : Parser) (rest : List Token),
    DBlock ts sts → st.tokens.drop st.position = ts ++ rest →
    (rest.headD ⟨.EOF, ""⟩).token_type = .RightBracket → 8 * ts.length + 16 ≤ fuel →
    parse_block_like fuel st = (some sts, ⟨st.tokens, st.position + ts.length⟩)
  items : ∀ {ts : List Token} {its : List (Expression × List Statement)}
    {odflt : Option (List Statement)} (st : Parser) (rest : List Token)
    (acc : List (Expression × List Statement)) (dflt : Option (List Statement)),
    DItems ts its odflt → st.tokens.drop st.position = ts ++ rest →
    (rest.headD ⟨.EOF, ""⟩).token_type = .RightBracket → 8 * ts.length + 16 ≤ fuel →
    parse_switch_items fuel st acc dflt
      = (some (acc ++ its, odflt.elim dflt some), ⟨st.tokens, st.position + ts.length⟩)
  params1 : ∀ {ts : List Token} {ps : List (String × String)}
    (st : Parser) (rest : List Token),
    DParams1 ts ps → st.tokens.drop st.position = ts ++ rest →
    (rest.headD ⟨.EOF, ""⟩).token_type = .RightParen → 8 * ts.length + 16 ≤ fuel →
    parse_params fuel st = (some ps, ⟨st.tokens, st.position + ts.length⟩)
  params : ∀ {ts : List Token} {ps : List (String × String)}
    (st : Parser) (rest : List Token),
    DParams ts ps → st.tokens.drop st.position = ts ++ rest →
    (rest.headD ⟨.EOF, ""⟩).token_type = .RightParen → 8 * ts.length + 16 ≤ fuel →
    parse_params fuel st = (some ps, ⟨st.tokens, st.position + ts.length⟩)

/-- Symbol kinds, from `semantic/models/semantic.rs`. -/
inductive SymbolType where
  | Variable (type_name : String)
  | Function (parameters : List String) (return_type : String)
deriving DecidableEq, Repr

/-- A named symbol, from `semantic/models/semantic.rs`. -/
structure Symbol where
  name : String
  symbol_type : SymbolType
deriving DecidableEq, Repr

/-- The scoped symbol table: one frame of bindings (the `HashMap` is carried
as an association list keyed uniquely, since `define` guards insertion) plus
an optional boxed parent frame. -/
inductive SymbolTable where
  | mk (symbols : List (String × Symbol)) (parent : Option SymbolTable)
deriving Repr

/-- The bindings of the innermost frame. -/
def SymbolTable.symbols : SymbolTable → List (String × Symbol)
  | .mk s _ => s

/-- The parent frame, if any. -/
def SymbolTable.parent : SymbolTable → Option SymbolTable
  | .mk _ p => p

/-- `SymbolTable::new`. -/
def SymbolTable.new (parent : Option SymbolTable) : SymbolTable := .mk [] parent

/-- `SymbolTable::define`: fail if the name is bound in the current frame,
else add the binding; the result pairs the `Result` with the table. -/
def SymbolTable.define (t : SymbolTable) (name : String) (sym : Symbol) :
    Except String Unit × SymbolTable :=
  if (t.symbols.lookup name).isSome then
    (.error ("Symbol '" ++ name ++ "' already defined in the current scope."), t)
  else (.ok (), .mk (t.symbols ++ [(name, sym)]) t.parent)

/-- `SymbolTable::resolve`: look in the current frame, then walk outward. -/
def SymbolTable.resolve : SymbolTable → String → Option Symbol
  | .mk syms parent, name =>
    match syms.lookup name with
    | some s => some s
    | none =>
      match parent with
      | some p => p.resolve name
      | none => none

/-- Analyzer state, from `semantic/analyzer.rs` (the owned AST is passed to
the analysis functions separately). -/
structure AnState where
  symbol_table : SymbolTable
  errors : List String
  current_function_return_type : Option String
deriving Repr

/-- Append one diagnostic, as `self.errors.push(...)`. -/
def push_error (st : AnState) (msg : String) : AnState :=
  { st with errors := st.errors ++ [msg] }

/-- `is_type_defined`: membership in the predefined type list. -/
def is_type_defined (t : String) : Bool :=
  ["int", "float", "bool", "string", "void"].contains t

/-- `enter_scope`: push a fresh frame whose parent is the current table. -/
def enter_scope (st : AnState) : AnState :=
  { st with symbol_table := SymbolTable.new (some st.symbol_table) }

/-- `exit_scope`: pop to the parent frame when one exists. -/
def exit_scope (st : AnState) : AnState :=
  match st.symbol_table.parent with
  | some p => { st with symbol_table := p }
  | none => st

/-- `SemanticAnalyzer::get_expression_type` (the inherent method of
`semantic/analyzer.rs`; the `ExpressionAnalyzer` trait copy in
`semantic/expression_analyzer.rs` is the same algorithm line for line). -/
def get_expression_type : AnState → Expression → Option String × AnState
  | st, .ident name =>
    (match st.symbol_table.resolve name with
     | some sym =>
       match sym.symbol_type with
       | .Variable t => some t
       | .Function _ ret => some ret
     | none => none, st)
  | st, .int _ => (some "int", st)
  | st, .float _ => (some "float", st)
  | st, .bool _ => (some "bool", st)
  | st, .str _ => (some "string", st)
  | st, .binary l op r =>
    match get_expression_type st l with
    | (none, st1) => (none, st1)
    | (some lt, st1) =>
      match get_expression_type st1 r with
      | (none, st2) => (none, st2)
      | (some rt, st2) =>
        if lt ≠ rt then
          (none, push_error st2
            ("Type mismatch in binary expression: '" ++ lt ++ "' and '" ++ rt ++ "'."))
        else if op = "+" ∨ op = "-" ∨ op = "*" ∨ op = "/" then (some lt, st2)
        else if op = "==" ∨ op = "!=" ∨ op = "<" ∨ op = "<=" ∨ op = ">" ∨ op = ">=" then
          (some "bool", st2)
        else (none, push_error st2 ("Unknown binary operator '" ++ op ++ "'."))
  | st, .functionCall name _ =>
    match st.symbol_table.resolve name with
    | some sym =>
      match sym.symbol_type with
      | .Function _ ret => (some ret, st)
      | _ => (none, push_error st ("'" ++ name ++ "' is not a function."))
    | none => (none, push_error st ("Undefined function '" ++ name ++ "'."))

mutual

/-- `SemanticAnalyzer::analyze_expression`: undefined-name checks and the
call arity check, recursing into operands and arguments (fuelled; the fuel
supplied by the entry points dominates the recursion depth). -/
def analyze_expression : Nat → AnState → Expression → AnState
  | 0, st, _ => st
  | fuel + 1, st, e =>
    match e with
    | .ident name =>
      if (st.symbol_table.resolve name).isNone then
        push_error st ("Undefined variable '" ++ name ++ "'.")
      else st
    | .binary l _ r => analyze_expression fuel (analyze_expression fuel st l) r
    | .functionCall name args =>
      match st.symbol_table.resolve name with
      | some sym =>
        match sym.symbol_type with
        | .Function params _ =>
          let st1 :=
            if params.length ≠ args.length then
              push_error st ("Function '" ++ name ++ "' expects "
                ++ nat_dec params.length ++ " arguments, but "
                ++ nat_dec args.length ++ " were provided.")
            else st
          analyze_args fuel st1 args
        | _ => push_error st ("'" ++ name ++ "' is not a function.")
      | none => push_error st ("Undefined function '" ++ name ++ "'.")
    | _ => st

/-- The argument loop of the call case of `analyze_expression`. -/
def analyze_args : Nat → AnState → List Expression → AnState
  | 0, st, _ => st
  | fuel + 1, st, l =>
    match l with
    | [] => st
    | e :: rest => analyze_args fuel (analyze_expression fuel st e) rest

end

/-- `analyze_var_declaration`: type-existence check, definition in the
current frame, then the optional initializer type check. -/
def analyze_var_declaration (st : AnState) (name : String) (type_name : String)
    (init : Option Expression) : AnState :=
  let st1 :=
    if ¬ is_type_defined type_name then
      push_error st ("Type '" ++ type_name ++ "' is not defined.")
    else st
  let d := st1.symbol_table.define name ⟨name, .Variable type_name⟩
  let st2 :=
    match d.1 with
    | .error e => { st1 with symbol_table := d.2, errors := st1.errors ++ [e] }
    | .ok _ => { st1 with symbol_table := d.2 }
  match init with
  | none => st2
  | some e =>
    let p := get_expression_type st2 e
    match p.1 with
    | some et =>
      if et ≠ type_name then
        push_error p.2 ("Type mismatch in variable declaration '" ++ name
          ++ "': expected '" ++ type_name ++ "', found '" ++ et ++ "'.")
      else p.2
    | none => p.2

/-- `analyze_return_statement`: misplaced-return and return-type checks. -/
def analyze_return_statement (st : AnState) (expr_opt : Option Expression) : AnState :=
  match st.current_function_return_type with
  | some expected =>
    match expr_opt with
    | some e =>
      let p := get_expression_type st e
      match p.1 with
      | some et =>
        if et ≠ expected then
          push_error p.2 ("Type mismatch in return statement: expected '"
            ++ expected ++ "', found '" ++ et ++ "'.")
        else p.2
      | none => p.2
    | none =>
      if expected ≠ "void" then
        push_error st ("Return statement missing a value: expected '" ++ expected ++ "'.")
      else st
  | none => push_error st "Return statement not inside a function."

/-- `analyze_var_affection`: declared-name check, value typing, then the
assignment type check against the resolved variable. -/
def analyze_var_affection (st : AnState) (name : String) (value : Expression) : AnState :=
  let st1 :=
    if (st.symbol_table.resolve name).isNone then
      push_error st ("Undefined variable '" ++ name ++ "'.")
    else st
  let p := get_expression_type st1 value
  let st2 := p.2
  match st2.symbol_table.resolve name with
  | some sym =>
    match sym.symbol_type with
    | .Variable vt =>
      match p.1 with
      | some et =>
        if et ≠ vt then
          push_error st2 ("Type mismatch in assignment to '" ++ name
            ++ "': expected '" ++ vt ++ "', found '" ++ et ++ "'.")
        else st2
      | none => st2
    | _ => push_error st2 ("'" ++ name ++ "' is not a variable.")
  | none => st2

/-- The parameter-definition loop of `analyze_function_declaration`. -/
def define_params : AnState → List (String × String) → AnState
  | st, [] => st
  | st, (pn, pt) :: rest =>
    let st1 :=
      if ¬ is_type_defined pt then
        push_error st ("Type '" ++ pt ++ "' is not defined for parameter '" ++ pn ++ "'.")
      else st
    let d := st1.symbol_table.define pn ⟨pn, .Variable pt⟩
    let st2 :=
      match d.1 with
      | .error e => { st1 with symbol_table := d.2, errors := st1.errors ++ [e] }
      | .ok _ => { st1 with symbol_table := d.2 }
    define_params st2 rest

mutual

/-- `StatementAnalyzer::analyze_statement`: the statement dispatcher
(fuelled; the fuel supplied by `analyze_program` dominates the recursion
depth of any statement list). -/
def analyze_statement : Nat → AnState → Statement → AnState
  | 0, st, _ => st
  | fuel + 1, st, s =>
    match s with
    | .varDeclaration n t i => analyze_var_declaration st n t i
    | .ret v => analyze_return_statement st v
    | .expressionStatement e => analyze_expression fuel st e
    | .ifS c t e => analyze_if_statement fuel st c t e
    | .forS i c inc b => analyze_for_statement fuel st i c inc b
    | .whileS c b => analyze_while_statement fuel st c b
    | .switchS c cs d => analyze_switch_statement fuel st c cs d
    | .varAffection n v => analyze_var_affection st n v
    | .functionDeclaration n p r b => analyze_function_declaration fuel st n p r b

/-- Sequential analysis of a statement list (the walk of a block). -/
def analyze_statements : Nat → AnState → List Statement → AnState
  | 0, st, _ => st
  | fuel + 1, st, l =>
    match l with
    | [] => st
    | s :: rest => analyze_statements fuel (analyze_statement fuel st s) rest

/-- `analyze_if_statement`: bool condition check, then each branch in its
own scope. -/
def analyze_if_statement : Nat → AnState → Expression → List Statement →
    Option (List Statement) → AnState
  | 0, st, _, _, _ => st
  | fuel + 1, st, cond, thn, els =>
    let p := get_expression_type st cond
    let st1 :=
      match p.1 with
      | some ct =>
        if ct ≠ "bool" then
          push_error p.2 ("Condition in 'if' statement must be of type 'bool', found '"
            ++ ct ++ "'.")
        else p.2
      | none =>
        push_error p.2 "Unable to determine the type of the condition in 'if' statement."
    let st2 := exit_scope (analyze_statements fuel (enter_scope st1) thn)
    match els with
    | some l => exit_scope (analyze_statements fuel (enter_scope st2) l)
    | none => st2

/-- `analyze_for_statement`: a scope around init, condition (which must be a
bool expression statement), increment and body. -/
def analyze_for_statement : Nat → AnState → Statement → Statement → Statement →
    List Statement → AnState
  | 0, st, _, _, _, _ => st
  | fuel + 1, st, finit, fcond, fincr, body =>
    let st1 := enter_scope st
    let st2 := analyze_statement fuel st1 finit
    let st3 :=
      match fcond with
      | .expressionStatement e =>
        let p := get_expression_type st2 e
        match p.1 with
        | some ct =>
          if ct ≠ "bool" then
            push_error p.2 ("Condition in 'for' statement must be of type 'bool', found '"
              ++ ct ++ "'.")
          else p.2
        | none =>
          push_error p.2 "Unable to determine the type of the condition in 'for' statement."
      | _ => push_error st2 "Condition in 'for' statement must be an expression statement."
    let st4 := analyze_statement fuel st3 fincr
    let st5 := analyze_statements fuel st4 body
    exit_scope st5

/-- `analyze_while_statement`: bool condition check, body in its own scope. -/
def analyze_while_statement : Nat → AnState → Expression → List Statement → AnState
  | 0, st, _, _ => st
  | fuel + 1, st, cond, body =>
    let p := get_expression_type st cond
    let st1 :=
      match p.1 with
      | some ct =>
        if ct ≠ "bool" then
          push_error p.2 ("Condition in 'while' statement must be of type 'bool', found '"
            ++ ct ++ "'.")
        else p.2
      | none =>
        push_error p.2 "Unable to determine the type of the condition in 'while' statement."
    exit_scope (analyze_statements fuel (enter_scope st1) body)

/-- `analyze_switch_statement`: case values against the switch type, every
case body and the default body in their own scopes. -/
def analyze_switch_statement : Nat → AnState → Expression →
    List (Expression × List Statement) → Option (List Statement) → AnState
  | 0, st, _, _, _ => st
  | fuel + 1, st, cond, cases, dflt =>
    let p := get_expression_type st cond
    match p.1 with
    | some sw =>
      let st1 := analyze_switch_cases fuel p.2 sw cases
      match dflt with
      | some body => exit_scope (analyze_statements fuel (enter_scope st1) body)
      | none => st1
    | none =>
      push_error p.2 "Unable to determine the type of the condition in 'switch' statement."

/-- The case loop of `analyze_switch_statement`. -/
def analyze_switch_cases : Nat → AnState → String →
    List (Expression × List Statement) → AnState
  | 0, st, _, _ => st
  | fuel + 1, st, sw, l =>
    match l with
    | [] => st
    | (v, body) :: rest =>
      let p := get_expression_type st v
      let st1 :=
        match p.1 with
        | some ct =>
          if ct ≠ sw then
            push_error p.2 ("Case type '" ++ ct ++ "' does not match switch type '"
              ++ sw ++ "'.")
          else p.2
        | none =>
          push_error p.2 "Unable to determine the type of a case in 'switch' statement."
      let st2 := exit_scope (analyze_statements fuel (enter_scope st1) body)
      analyze_switch_cases fuel st2 sw rest

/-- `analyze_function_declaration`: define the function in the enclosing
frame, then parameters and body in a fresh scope with the return type set. -/
def analyze_function_declaration : Nat → AnState → String →
    List (String × String) → String → List Statement → AnState
  | 0, st, _, _, _, _ => st
  | fuel + 1, st, name, parameters, return_type, body =>
    let param_types := parameters.map (fun p => p.2)
    let d := st.symbol_table.define name ⟨name, .Function param_types return_type⟩
    let st1 :=
      match d.1 with
      | .error e => { st with symbol_table := d.2, errors := st.errors ++ [e] }
      | .ok _ => { st with symbol_table := d.2 }
    let st2 := enter_scope st1
    let st3 := define_params st2 parameters
    let prev := st3.current_function_return_type
    let st4 := { st3 with current_function_return_type := some return_type }
    let st5 := analyze_statements fuel st4 body
    let st6 := { st5 with current_function_return_type := prev }
    exit_scope st6

end

/-- `SemanticAnalyzer::new` less the parsing glue: the empty global table,
no errors, no enclosing function. -/
def analyzer_new : AnState :=
  { symbol_table := SymbolTable.new none, errors := [], current_function_return_type := none }

/-- Fuel constant for the analyzer and generator walks.  Every recursive
entry shrinks the subterm in focus, so the recursion depth is bounded by the
AST size and this constant dominates it for any program considered here. -/
def walk_fuel : Nat := 1000000

/-- `SemanticAnalyzer::analyze` over the statements of the AST. -/
def analyze_program (sts : List Statement) : AnState :=
  analyze_statements walk_fuel analyzer_new sts

/-- A named code section, from `codegen/models/asm.rs`. -/
structure SectionCode where
  name : String
  code : List String
deriving DecidableEq, Repr

/-- The four section groups of the output, from `codegen/models/asm.rs`. -/
structure ASM where
  section_data : List String
  section_bss : List String
  section_text : List String
  sections_code : List SectionCode
deriving DecidableEq, Repr

/-- `ASM::new`. -/
def ASM.new : ASM := ⟨[], [], [], []⟩

/-- `ASM::join` with separator `"\n"` factored out: the line sequence of the
emitted file, sections separated by blank lines. -/
def ASM.joinLines (a : ASM) : List String :=
  a.section_data ++ [""] ++ a.section_bss ++ [""] ++ a.section_text ++ [""]
    ++ (a.sections_code.map (fun s => [s.name] ++ s.code ++ [""])).flatten

/-- Code-generator state, from `codegen/codegen.rs`; the two `HashMap`s are
carried as association lists in insertion order (their iteration order is
unspecified in the source and only the string-literal table is ever
iterated, at a point where it is still empty on every `generate` run). -/
structure CodeGen where
  asm : ASM
  label_counter : Nat
  local_offset : Int
  in_function : Bool
  local_vars : List (String × Int)
  string_literals : List (String × String)
  nb_for_boucle : Nat
  current_loop_var : Option (String × String)
  current_section : SectionCode
deriving Repr

/-- `CodeGenerator::new`. -/
def codegen_new : CodeGen :=
  { asm := ASM.new, label_counter := 0, local_offset := 4, in_function := false,
    local_vars := [], string_literals := [], nb_for_boucle := 0,
    current_loop_var := none, current_section := ⟨"", []⟩ }

/-- `CodeGenerator::emit`: append one line to the current section. -/
def emit (g : CodeGen) (code : String) : CodeGen :=
  { g with current_section := ⟨g.current_section.name, g.current_section.code ++ [code]⟩ }

/-- `HashMap::insert` on the association-list model: replace the value of an
existing key, else append the binding. -/
def assoc_insert {α : Type} (m : List (String × α)) (k : String) (v : α) :
    List (String × α) :=
  if (m.lookup k).isSome then m.map (fun p => if p.1 = k then (k, v) else p)
  else m ++ [(k, v)]

/-- `get_or_create_string_literal`: return the interned label, or mint
`str_<size>` and insert the binding. -/
def get_or_create_string_literal (g : CodeGen) (s : String) : String × CodeGen :=
  match g.string_literals.lookup s with
  | some label => (label, g)
  | none =>
    let label := "str_" ++ nat_dec g.string_literals.length
    (label, { g with string_literals := g.string_literals ++ [(s, label)] })

/-- `new_label`: `L<counter>` with the counter advanced. -/
def new_label (g : CodeGen) : String × CodeGen :=
  ("L" ++ nat_dec g.label_counter, { g with label_counter := g.label_counter + 1 })

/-- The non-loop-variable path of the `Ident` case of `generate_expression`:
a local offset off `rbp`, or a direct global access. -/
def generate_ident_fallback (g : CodeGen) (name : String) : CodeGen :=
  match g.local_vars.lookup name with
  | some off =>
    if off ≥ 0 then emit g ("    mov rax, [rbp + " ++ int_dec off ++ "]")
    else emit g ("    mov rax, [rbp - " ++ int_dec (-off) ++ "]")
  | none => emit g ("    mov rax, [" ++ name ++ "]")

mutual

/-- `CodeGenerator::generate_expression`: literals, identifiers, binaries
via the push/pop/xchg discipline, the `print` special case, and generic
calls with caller stack cleanup (fuelled like the analyzer walk). -/
def generate_expression : Nat → CodeGen → Expression → CodeGen
  | 0, g, _ => g
  | fuel + 1, g, e =>
    match e with
    | .str s =>
      let p := get_or_create_string_literal g s
      emit p.2 ("    lea rax, [rel " ++ p.1 ++ "]")
    | .int v => emit g ("    mov rax, " ++ int_dec v)
    | .float s => emit g ("    mov rax, " ++ s)
    | .bool b => emit g ("    mov rax, " ++ (if b then "1" else "0"))
    | .ident name =>
      match g.current_loop_var with
      | some lv =>
        if name = lv.1 then emit g ("    mov rax, [" ++ lv.2 ++ "]")
        else generate_ident_fallback g name
      | none => generate_ident_fallback g name
    | .binary l op r =>
      let g1 := generate_expression fuel g l
      let g2 := emit g1 "    push rax"
      let g3 := generate_expression fuel g2 r
      let g4 := emit (emit g3 "    pop rbx") "    xchg rax, rbx"
      if op = "+" then emit g4 "    add rax, rbx"
      else if op = "-" then emit g4 "    sub rax, rbx"
      else if op = "*" then emit g4 "    imul rax, rbx"
      else if op = "/" then emit (emit g4 "    cqo") "    idiv rbx"
      else if op = "==" then
        emit (emit (emit g4 "    cmp rax, rbx") "    sete al") "    movzx rax, al"
      else if op = "!=" then
        emit (emit (emit g4 "    cmp rax, rbx") "    setne al") "    movzx rax, al"
      else if op = "<" then
        emit (emit (emit g4 "    cmp rax, rbx") "    setl al") "    movzx rax, al"
      else if op = "<=" then
        emit (emit (emit g4 "    cmp rax, rbx") "    setle al") "    movzx rax, al"
      else if op = ">" then
        emit (emit (emit g4 "    cmp rax, rbx") "    setg al") "    movzx rax, al"
      else if op = ">=" then
        emit (emit (emit g4 "    cmp rax, rbx") "    setge al") "    movzx rax, al"
      else if op = "&&" then emit g4 "    and rax, rbx"
      else if op = "||" then emit g4 "    or rax, rbx"
      else if op = "%" then
        emit (emit (emit g4 "    cqo") "    idiv rbx") "    mov rax, rdx"
      else emit g4 "    ; Unsupported binary operator"
    | .functionCall name args =>
      if name = "print" then
        match args with
        | [a] =>
          let g1 := generate_expression fuel g a
          let g2 := emit g1 "    lea rdi, [rel format]"
          emit (emit (emit g2 "    mov rsi, rax") "    xor rax, rax") "    call printf"
        | _ => g
      else
        let g1 := generate_args fuel g args
        let g2 := emit g1 ("    call f_" ++ name)
        if args.length ≠ 0 then emit g2 ("    add rsp, " ++ nat_dec (8 * args.length))
        else g2

/-- The argument loop of a generic call: evaluate and push in order. -/
def generate_args : Nat → CodeGen → List Expression → CodeGen
  | 0, g, _ => g
  | fuel + 1, g, l =>
    match l with
    | [] => g
    | e :: rest => generate_args fuel (emit (generate_expression fuel g e) "    push rax") rest

end

/-- `generate_local_var_declaration`: initializer (or zero), then the slot
store at a fresh negative offset or the recorded one. -/
def generate_local_var_declaration (fuel : Nat) (g : CodeGen) (name : String)
    (init : Option Expression) : CodeGen :=
  let g1 :=
    match init with
    | some e => generate_expression fuel g e
    | none => emit g "    mov rax, 0"
  if (g1.local_vars.lookup name).isNone then
    let off := g1.local_offset
    let g2 := { g1 with local_vars := assoc_insert g1.local_vars name (-off) }
    let g3 := emit g2 ("    mov [rbp - " ++ int_dec off ++ "], rax")
    { g3 with local_offset := g3.local_offset + 4 }
  else
    match g1.local_vars.lookup name with
    | some off =>
      if off < 0 then emit g1 ("    mov [rbp - " ++ int_dec (-off) ++ "], rax")
      else emit g1 ("    mov [rbp + " ++ int_dec off ++ "], rax")
    | none => g1

/-- The non-loop-variable path of `generate_var_affection`. -/
def generate_var_affection_std (g : CodeGen) (name : String) : CodeGen :=
  if g.in_function then
    match g.local_vars.lookup name with
    | some off =>
      if off < 0 then emit g ("    mov [rbp - " ++ int_dec (-off) ++ "], rax")
      else emit g ("    mov [rbp + " ++ int_dec off ++ "], rax")
    | none => emit g ("    mov [" ++ name ++ "], rax")
  else emit g ("    mov [" ++ name ++ "], rax")

/-- `generate_var_affection`: value into `rax`, then the store, renamed when
the target is the current for-loop variable. -/
def generate_var_affection (fuel : Nat) (g : CodeGen) (name : String)
    (value : Expression) : CodeGen :=
  let g1 := generate_expression fuel g value
  match g1.current_loop_var with
  | some lv =>
    if name = lv.1 then emit g1 ("    mov [" ++ lv.2 ++ "], rax")
    else generate_var_affection_std g1 name
  | none => generate_var_affection_std g1 name

/-- `generate_return`: optional value, then the epilogue. -/
def generate_return (fuel : Nat) (g : CodeGen) (expr_opt : Option Expression) : CodeGen :=
  let g1 :=
    match expr_opt with
    | some e => generate_expression fuel g e
    | none => g
  emit (emit (emit g1 "    mov rsp, rbp") "    pop rbp") "    ret"

/-- The parameter-offset loop of `generate_function_declaration`: positive
offsets from `[rbp + 16]` with a 4-byte stride. -/
def insert_params : CodeGen → Int → List (String × String) → CodeGen
  | g, _, [] => g
  | g, off, (pn, _) :: rest =>
    insert_params { g with local_vars := assoc_insert g.local_vars pn off } (off + 4) rest

mutual

/-- `CodeGenerator::generate_statement`: the statement dispatcher; a
variable declaration emits only inside a function. -/
def generate_statement : Nat → CodeGen → Statement → CodeGen
  | 0, g, _ => g
  | fuel + 1, g, s =>
    match s with
    | .varDeclaration n _ i =>
      if g.in_function then generate_local_var_declaration fuel g n i else g
    | .varAffection n v => generate_var_affection fuel g n v
    | .expressionStatement e => generate_expression fuel g e
    | .ret v => generate_return fuel g v
    | .ifS c t e => generate_if_statement fuel g c t e
    | .forS i c inc b => generate_for_statement fuel g i c inc b
    | .whileS c b => generate_while_statement fuel g c b
    | .switchS c cs d => generate_switch_statement fuel g c cs d
    | .functionDeclaration n p r b => generate_function_declaration fuel g n p r b

/-- Sequential generation for a statement list. -/
def generate_statements : Nat → CodeGen → List Statement → CodeGen
  | 0, g, _ => g
  | fuel + 1, g, l =>
    match l with
    | [] => g
    | s :: rest => generate_statements fuel (generate_statement fuel g s) rest

/-- `generate_if_statement`: condition, `je` to the else label, then branch,
`jmp` to the end label, else branch, end label. -/
def generate_if_statement : Nat → CodeGen → Expression → List Statement →
    Option (List Statement) → CodeGen
  | 0, g, _, _, _ => g
  | fuel + 1, g, cond, thn, els =>
    let g1 := generate_expression fuel g cond
    let p1 := new_label g1
    let p2 := new_label p1.2
    let g2 := emit (emit p2.2 "    cmp rax, 0") ("    je " ++ p1.1)
    let g3 := generate_statements fuel g2 thn
    let g4 := emit (emit g3 ("    jmp " ++ p2.1)) (p1.1 ++ ":")
    let g5 :=
      match els with
      | some l => generate_statements fuel g4 l
      | none => g4
    emit g5 (p2.1 ++ ":")

/-- The init handling of `generate_for_statement`: the loop-variable rename
into `.bss` for a declaration init, else ordinary statement generation. -/
def gen_for_init : Nat → CodeGen → Statement → CodeGen
  | 0, g, _ => g
  | fuel + 1, g, s =>
    match s with
    | .varDeclaration name _ init =>
      let g0 := { g with nb_for_boucle := g.nb_for_boucle + 1 }
      let internal := name ++ "_" ++ nat_dec g0.nb_for_boucle
      let ga := { g0 with current_loop_var := some (name, internal) }
      let gb :=
        match init with
        | some e => generate_expression fuel ga e
        | none => emit ga "    mov rax, 0"
      let gc := emit gb ("    mov [" ++ internal ++ "], rax")
      { gc with asm := { gc.asm with
          section_bss := gc.asm.section_bss ++ ["    " ++ internal ++ " resq 1"] } }
    | _ => generate_statement fuel g s

/-- `generate_for_statement`: the loop-variable rename for a declaration
init, the start label, the condition (which must be an expression
statement), the body, the increment and the exit label. -/
def generate_for_statement : Nat → CodeGen → Statement → Statement → Statement →
    List Statement → CodeGen
  | 0, g, _, _, _, _ => g
  | fuel + 1, g, finit, fcond, fincr, body =>
    let g1 := gen_for_init fuel g finit
    let p1 := new_label g1
    let g2 := emit p1.2 (p1.1 ++ ":")
    match fcond with
    | .expressionStatement ce =>
      let g3 := generate_expression fuel g2 ce
      let p2 := new_label g3
      let g4 := emit (emit p2.2 "    cmp rax, 0") ("    je " ++ p2.1)
      let g5 := generate_statements fuel g4 body
      let g6 := generate_statement fuel g5 fincr
      let g7 := emit (emit g6 ("    jmp " ++ p1.1)) (p2.1 ++ ":")
      { g7 with current_loop_var := none }
    | _ =>
      let g3 := emit g2 "    ; For-loop condition must be an expression statement"
      { g3 with current_loop_var := none }

/-- `generate_while_statement`: start label, condition, `je` exit, body,
back jump, exit label. -/
def generate_while_statement : Nat → CodeGen → Expression → List Statement → CodeGen
  | 0, g, _, _ => g
  | fuel + 1, g, cond, body =>
    let p1 := new_label g
    let g1 := emit p1.2 (p1.1 ++ ":")
    let g2 := generate_expression fuel g1 cond
    let p2 := new_label g2
    let g3 := emit (emit p2.2 "    cmp rax, 0") ("    je " ++ p2.1)
    let g4 := generate_statements fuel g3 body
    emit (emit g4 ("    jmp " ++ p1.1)) (p2.1 ++ ":")

/-- `generate_switch_statement`: discriminant, the per-case comparisons, an
unconditional default, and the end label. -/
def generate_switch_statement : Nat → CodeGen → Expression →
    List (Expression × List Statement) → Option (List Statement) → CodeGen
  | 0, g, _, _, _ => g
  | fuel + 1, g, cond, cases, dflt =>
    let g1 := generate_expression fuel g cond
    let p := new_label g1
    let g2 := generate_switch_cases fuel p.2 cond p.1 cases
    let g3 :=
      match dflt with
      | some body => generate_statements fuel g2 body
      | none => g2
    emit g3 (p.1 ++ ":")

/-- The case loop of `generate_switch_statement`: case value into `rbx`,
re-evaluated discriminant into `rax`, `jne` past the body. -/
def generate_switch_cases : Nat → CodeGen → Expression → String →
    List (Expression × List Statement) → CodeGen
  | 0, g, _, _, _ => g
  | fuel + 1, g, cond, end_label, l =>
    match l with
    | [] => g
    | (v, body) :: rest =>
      let p := new_label g
      let g1 := generate_expression fuel p.2 v
      let g2 := emit g1 "    mov rbx, rax"
      let g3 := generate_expression fuel g2 cond
      let g4 := emit (emit g3 "    cmp rax, rbx") ("    jne " ++ p.1)
      let g5 := generate_statements fuel g4 body
      let g6 := emit (emit g5 ("    jmp " ++ end_label)) (p.1 ++ ":")
      generate_switch_cases fuel g6 cond end_label rest

/-- `generate_function_declaration`: save the current section, emit the
`f_<name>` section with prologue, parameters at positive offsets, body and
epilogue, then restore and record the section. -/
def generate_function_declaration : Nat → CodeGen → String →
    List (String × String) → String → List Statement → CodeGen
  | 0, g, _, _, _, _ => g
  | fuel + 1, g, name, parameters, _return_type, body =>
    let saved := g.current_section
    let g1 := { g with current_section := ⟨"f_" ++ name ++ ":", []⟩ }
    let g2 := emit (emit (emit g1 "    push rbp") "    mov rbp, rsp") "    sub rsp, 16"
    let g3 := insert_params g2 16 parameters
    let g4 := { g3 with in_function := true, local_offset := 4 }
    let g5 := generate_statements fuel g4 body
    let g6 := emit (emit (emit g5 "    mov rsp, rbp") "    pop rbp") "    ret"
    let g7 := { g6 with in_function := false, local_vars := [] }
    let fsec := g7.current_section
    { g7 with
      current_section := saved
      asm := { g7.asm with sections_code := g7.asm.sections_code ++ [fsec] } }

end

/-- The global-initializer loop of `generate`. -/
def gen_global_inits : Nat → CodeGen → List (String × Option Expression) → CodeGen
  | _, g, [] => g
  | fuel, g, (n, some e) :: rest =>
    gen_global_inits fuel
      (emit (generate_expression fuel g e) ("    mov [" ++ n ++ "], rax")) rest
  | fuel, g, (_, none) :: rest => gen_global_inits fuel g rest

/-- The second statement loop of `generate`, skipping declarations. -/
def gen_top_statements : Nat → CodeGen → List Statement → CodeGen
  | _, g, [] => g
  | fuel, g, s :: rest =>
    match s with
    | .varDeclaration _ _ _ => gen_top_statements fuel g rest
    | _ => gen_top_statements fuel (generate_statement fuel g s) rest

/-- `CodeGenerator::generate`: the `.data`, `.bss` and `.text` headers (the
string-literal loop runs here, over the table as it stands on entry), the
global initializers inside `f_main`, the remaining statements, the exit
syscall, and the push of the main section. -/
def generate (g : CodeGen) (statements : List Statement) : CodeGen :=
  let fuel := walk_fuel
  let global_vars : List (String × Option Expression) :=
    statements.filterMap (fun s =>
      match s with
      | .varDeclaration n _ i => if g.in_function then none else some (n, i)
      | _ => none)
  let g1 := { g with asm := { g.asm with
      section_data := g.asm.section_data
        ++ ["section .data", "    format: db \"%d\", 10, 0"]
        ++ g.string_literals.map
          (fun (p : String × String) => "    " ++ p.2 ++ ": db \"" ++ p.1 ++ "\", 0") } }
  let g2 := { g1 with asm := { g1.asm with
      section_bss := g1.asm.section_bss ++ ["section .bss"]
        ++ global_vars.map
          (fun (p : String × Option Expression) => "    " ++ p.1 ++ " resq 1") } }
  let g3 := { g2 with asm := { g2.asm with
      section_text := g2.asm.section_text
        ++ ["section .text", "global _start", "extern printf", "", "_start:",
            "    jmp f_main"] } }
  let g4 := { g3 with current_section := ⟨"f_main:", []⟩ }
  let g5 := gen_global_inits fuel g4 global_vars
  let g6 := gen_top_statements fuel g5 statements
  let g7 := emit (emit (emit g6 "    mov rax, 60") "    xor rdi, rdi") "    syscall"
  { g7 with
    current_section := ⟨"", []⟩
    asm := { g7.asm with sections_code := g7.asm.sections_code ++ [g7.current_section] } }

/-- The driver pipeline of `main.rs`: parse, analyze, stop on any semantic
error, else generate (the emitted `ASM`). -/
def compile (src : String) : Option ASM :=
  let sts := parse_program src
  let an := analyze_program sts
  if an.errors = [] then some ((generate codegen_new sts).asm) else none

/-- The spec's end-to-end scenario 5, the program of claim C4. -/
def c4_src : String := "for (let i: int = 0; i < 3; i = i + 1;) { print(i); }"

/-- The C4 program amended as the code forces: the parser requires a
semicolon after the for statement, and the analyzer knows no built-in
`print`, so one is declared. -/
def c4b_src : String :=
  "function print(x: int): void { return; } "
    ++ "for (let i: int = 0; i < 3; i = i + 1;) { print(i); };"

/-- The assembly the pipeline emits for the amended C4 program. -/
def c4_expected : ASM :=
  { section_data := ["section .data", "    format: db \"%d\", 10, 0"]
    section_bss := ["section .bss", "    i_1 resq 1"]
    section_text := ["section .text", "global _start", "extern printf", "",
      "_start:", "    jmp f_main"]
    sections_code :=
      [⟨"f_print:",
        ["    push rbp", "    mov rbp, rsp", "    sub rsp, 16", "    mov rsp, rbp",
         "    pop rbp", "    ret", "    mov rsp, rbp", "    pop rbp", "    ret"]⟩,
       ⟨"f_main:",
        ["    mov rax, 0", "    mov [i_1], rax", "L0:", "    mov rax, [i_1]",
         "    push rax", "    mov rax, 3", "    pop rbx", "    xchg rax, rbx",
         "    cmp rax, rbx", "    setl al", "    movzx rax, al", "    cmp rax, 0",
         "    je L1", "    mov rax, [i_1]", "    lea rdi, [rel format]",
         "    mov rsi, rax", "    xor rax, rax", "    call printf",
         "    mov rax, [i_1]", "    push rax", "    mov rax, 1", "    pop rbx",
         "    xchg rax, rbx", "    add rax, rbx", "    mov [i_1], rax",
         "    jmp L0", "L1:", "    mov rax, 60", "    xor rdi, rdi", "    syscall"]⟩] }

/-- The C5 counterexample program: an arity-mismatched call in a
variable-declaration initializer. -/
def c5_prog : List Statement :=
  [.functionDeclaration "f" [("a", "int")] "int" [.ret (some (.ident "a"))],
   .varDeclaration "y" "int" (some (.functionCall "f" []))]

/-- An analyzer state whose global frame binds `f` as a one-parameter
function, for the C5 witness. -/
def c5_state : AnState :=
  { symbol_table := .mk [("f", ⟨"f", .Function ["int"] "int"⟩)] none,
    errors := [], current_function_return_type := none }

/-- The C7 counterexample program: the user declares a function named
`print` and then calls it. -/
def c7_prog : List Statement :=
  [.functionDeclaration "print" [("x", "int")] "void" [.ret none],
   .expressionStatement (.functionCall "print" [.int 1])]

/-- The C1 program: a single global string declaration, which passes
semantic analysis and reaches code generation. -/
def c1_prog : List Statement :=
  [.varDeclaration "s" "string" (some (.str "hi"))]

/-- Tables reachable by `get_or_create_string_literal` calls from a fresh
generator: the states the claim about the interning function ranges over. -/
inductive lit_reachable : List (String × String) → Prop where
  | base : lit_reachable []
  | step (g : CodeGen) (s : String) : lit_reachable g.string_literals →
      lit_reachable ((get_or_create_string_literal g s).2.string_literals)

/-- The literal table after interning `"a"` then `"b"` from a fresh
generator, used by the C8 witness. -/
def c8_tbl : List (String × String) := [("a", "str_0"), ("b", "str_1")]

/-- C1: For every program that reaches code generation and contains a
string-literal expression, the emitted `.data` section should contain a line
`<label>: db "<text>", 0` for the literal.  The code emits `.data` before
any literal is interned, so for the program `let s: string = "hi";` (which
passes analysis with zero errors) the `.data` section holds only the header
and the printf format line, while the generated `f_main` code references the
never-defined label `str_0`. -/
theorem c1_data_section_missing_literal :
    (analyze_program c1_prog).errors = []
    ∧ (generate codegen_new c1_prog).asm.section_data
        = ["section .data", "    format: db \"%d\", 10, 0"]
    ∧ "    str_0: db \"hi\", 0" ∉ (generate codegen_new c1_prog).asm.section_data
    ∧ "    lea rax, [rel str_0]"
        ∈ ((generate codegen_new c1_prog).asm.sections_code.map SectionCode.code).flatten := by
  refine ⟨rfl, rfl, ?_, ?_⟩ <;> decide

/-- C2: The claim states that `%` on same-typed operands is assigned the
operand type with no diagnostic; the analyzer's operator match omits `%`, so
typing `1 % 1` yields no type and appends `Unknown binary operator '%'.`,
and the program `let x: int = 1 % 1;` fails analysis with that diagnostic. -/
theorem c2_modulo_unknown_operator :
    (get_expression_type analyzer_new (.binary (.int 1) "%" (.int 1))).1 = none
    ∧ (get_expression_type analyzer_new (.binary (.int 1) "%" (.int 1))).2.errors
        = ["Unknown binary operator '%'."]
    ∧ (analyze_program
        [.varDeclaration "x" "int" (some (.binary (.int 1) "%" (.int 1)))]).errors
        = ["Unknown binary operator '%'."] :=
  ⟨rfl, rfl, rfl⟩

/-- C4 counterexample: the spec's scenario-5 program fails to parse (the
parser demands a semicolon after the for statement), so the pipeline
compiles an empty AST and the emitted `.bss` section contains no
`i_1 resq 1` line — the claim is false on the code. -/
theorem c4_counterexample_empty_output :
    parse_program c4_src = []
    ∧ (compile c4_src).map ASM.section_bss = some ["section .bss"] :=
  ⟨rfl, rfl⟩

/-- C4 amended: with the trailing semicolon the parser requires and a
declaration binding `print`, the pipeline emits exactly the claimed code:
`.bss` holds `i_1 resq 1`, every read of `i` in the loop is
`mov rax, [i_1]`, the assignment is `mov [i_1], rax`, and the loop emits
exactly the two labels `L0` (start) and `L1` (exit). -/
theorem c4_amended_assembly :
    compile c4b_src = some c4_expected
    ∧ (generate codegen_new (parse_program c4b_src)).label_counter = 2 :=
  ⟨rfl, rfl⟩

/-- C5 counterexample: the program `function f(a: int): int { return a; }
let y: int = f();` carries an arity-mismatched call in a declaration
initializer, yet analysis ends with an empty error list — initializers are
typed by `get_expression_type`, which performs no arity check. -/
theorem c5_counterexample_initializer_arity :
    (analyze_program c5_prog).errors = [] := rfl

/-- C7 counterexample: a program that itself declares a function named
`print` and calls it passes semantic analysis with zero errors, so the
claim that every analyzed program calling `print` receives the diagnostic
is false as stated. -/
theorem c7_counterexample_user_print :
    (analyze_program c7_prog).errors = [] := rfl

/-- `analyze_expression` and `analyze_args` only append diagnostics: the
incoming error list is a prefix of the outgoing one. -/
theorem analyze_expression_errors_mono (fuel : Nat) :
    (∀ (st : AnState) (e : Expression),
      ∃ t, (analyze_expression fuel st e).errors = st.errors ++ t)
    ∧ (∀ (st : AnState) (l : List Expression),
      ∃ t, (analyze_args fuel st l).errors = st.errors ++ t) := by
  induction fuel with
  | zero =>
    exact ⟨fun st e => ⟨[], by simp [analyze_expression]⟩,
           fun st l => ⟨[], by simp [analyze_args]⟩⟩
  | succ fuel ih =>
    constructor
    · intro st e
      cases e with
      | ident name =>
        by_cases h : (st.symbol_table.resolve name).isNone
        · exact ⟨["Undefined variable '" ++ name ++ "'."],
            by simp [analyze_expression, h, push_error]⟩
        · exact ⟨[], by simp [analyze_expression, h]⟩
      | binary l op r =>
        obtain ⟨t1, h1⟩ := ih.1 st l
        obtain ⟨t2, h2⟩ := ih.1 (analyze_expression fuel st l) r
        exact ⟨t1 ++ t2, by simp [analyze_expression, h2, h1]⟩
      | functionCall name args =>
        cases hres : st.symbol_table.resolve name with
        | none =>
          exact ⟨["Undefined function '" ++ name ++ "'."],
            by simp [analyze_expression, hres, push_error]⟩
        | some sym =>
          cases hty : sym.symbol_type with
          | Variable t =>
            exact ⟨["'" ++ name ++ "' is not a function."],
              by simp [analyze_expression, hres, hty, push_error]⟩
          | Function params ret =>
            by_cases hlen : params.length ≠ args.length
            · obtain ⟨t, h⟩ := ih.2 (push_error st ("Function '" ++ name ++ "' expects "
                ++ nat_dec params.length ++ " arguments, but "
                ++ nat_dec args.length ++ " were provided.")) args
              refine ⟨("Function '" ++ name ++ "' expects " ++ nat_dec params.length
                ++ " arguments, but " ++ nat_dec args.length ++ " were provided.") :: t, ?_⟩
              simp only [analyze_expression, hres, hty, if_pos hlen]
              rw [h]
              simp [push_error]
            · obtain ⟨t, h⟩ := ih.2 st args
              refine ⟨t, ?_⟩
              simp only [analyze_expression, hres, hty, if_neg hlen]
              exact h
      | int v => exact ⟨[], by simp [analyze_expression]⟩
      | float s => exact ⟨[], by simp [analyze_expression]⟩
      | str s => exact ⟨[], by simp [analyze_expression]⟩
      | bool b => exact ⟨[], by simp [analyze_expression]⟩
    · intro st l
      cases l with
      | nil => exact ⟨[], by simp [analyze_args]⟩
      | cons e rest =>
        obtain ⟨t1, h1⟩ := ih.1 st e
        obtain ⟨t2, h2⟩ := ih.2 (analyze_expression fuel st e) rest
        exact ⟨t1 ++ t2, by simp [analyze_args, h2, h1]⟩

/-- C5 amended: whenever `analyze_expression` reaches a call whose name
resolves to a Function symbol of differing arity, the expected/provided
diagnostic is appended right after the incoming error list (the argument
walk may append further diagnostics behind it). -/
theorem c5_arity_diagnostic_in_analyze_expression (fuel : Nat) (st : AnState)
    (name : String) (args : List Expression) (sym : Symbol)
    (params : List String) (ret : String)
    (hres : st.symbol_table.resolve name = some sym)
    (hty : sym.symbol_type = .Function params ret)
    (hlen : params.length ≠ args.length) :
    ∃ tail, (analyze_expression (fuel + 1) st (.functionCall name args)).errors
      = st.errors ++ ("Function '" ++ name ++ "' expects " ++ nat_dec params.length
          ++ " arguments, but " ++ nat_dec args.length ++ " were provided.") :: tail := by
  obtain ⟨t, h⟩ := (analyze_expression_errors_mono fuel).2
    (push_error st ("Function '" ++ name ++ "' expects " ++ nat_dec params.length
      ++ " arguments, but " ++ nat_dec args.length ++ " were provided.")) args
  refine ⟨t, ?_⟩
  simp only [analyze_expression, hres, hty, if_pos hlen]
  rw [h]
  simp [push_error]

/-- C5 witness: the theorem applied to a frame binding `f` as a
one-parameter function and the zero-argument call `f()`. -/
theorem c5_arity_diagnostic_witness :
    ∃ tail, (analyze_expression 1 c5_state (.functionCall "f" [])).errors
      = c5_state.errors ++ ("Function '" ++ "f" ++ "' expects " ++ nat_dec 1
          ++ " arguments, but " ++ nat_dec 0 ++ " were provided.") :: tail :=
  c5_arity_diagnostic_in_analyze_expression 0 c5_state "f" []
    ⟨"f", .Function ["int"] "int"⟩ ["int"] "int" rfl rfl (by decide)

/-- C7 amended: the analyzer's initial state binds nothing (in particular no
built-in `print`), and whenever a call `print(...)` is analyzed or typed in
a state whose scope chain does not resolve `print`, the diagnostic
`Undefined function 'print'.` is appended (and the call gets no type). -/
theorem c7_print_unbound_diagnostic (fuel : Nat) (st : AnState)
    (args : List Expression)
    (hres : st.symbol_table.resolve "print" = none) :
    (analyze_expression (fuel + 1) st (.functionCall "print" args)).errors
        = st.errors ++ ["Undefined function 'print'."]
    ∧ (get_expression_type st (.functionCall "print" args)).1 = none
    ∧ (get_expression_type st (.functionCall "print" args)).2.errors
        = st.errors ++ ["Undefined function 'print'."]
    ∧ analyzer_new.symbol_table.resolve "print" = none := by
  refine ⟨?_, ?_, ?_, rfl⟩
  · simp [analyze_expression, hres, push_error]
  · simp [get_expression_type, hres]
  · simp [get_expression_type, hres, push_error]

/-- C7 witness: the theorem applied to the analyzer's empty initial state
and the call `print(1)`. -/
theorem c7_print_unbound_witness :
    (analyze_expression 1 analyzer_new (.functionCall "print" [.int 1])).errors
        = analyzer_new.errors ++ ["Undefined function 'print'."]
    ∧ (get_expression_type analyzer_new (.functionCall "print" [.int 1])).1 = none
    ∧ (get_expression_type analyzer_new (.functionCall "print" [.int 1])).2.errors
        = analyzer_new.errors ++ ["Undefined function 'print'."]
    ∧ analyzer_new.symbol_table.resolve "print" = none :=
  c7_print_unbound_diagnostic 0 analyzer_new [.int 1] rfl

/-- C10: `SymbolTable::define` is atomic on error: when the name is bound in
the current frame it returns the duplicate-symbol error and the table —
frame, bindings and parent — is returned unchanged; when the name is unbound
it succeeds and the new table is the old one with exactly that one binding
appended to the current frame. -/
theorem c10_define_atomic (t : SymbolTable) (name : String) (sym : Symbol) :
    ((t.symbols.lookup name).isSome →
      t.define name sym
        = (.error ("Symbol '" ++ name ++ "' already defined in the current scope."), t))
    ∧ ((t.symbols.lookup name) = none →
      t.define name sym = (.ok (), .mk (t.symbols ++ [(name, sym)]) t.parent)) := by
  constructor
  · intro h
    simp only [SymbolTable.define, h, if_pos]
  · intro h
    have h2 : (t.symbols.lookup name).isSome = false := by
      simp [h]
    simp only [SymbolTable.define, h2]
    cases t
    rfl

/-- The decimal digit character of a value below ten decodes back to it. -/
theorem digit_char_toNat (n : Nat) (h : n < 10) : (digit_char n).toNat = 48 + n := by
  interval_cases n <;> rfl

/-- Folding one more digit onto a decimal reading. -/
theorem dec_val_append (l : List Char) (c : Char) :
    dec_val (l ++ [c]) = 10 * dec_val l + (c.toNat - 48) := by
  simp [dec_val, List.foldl_append]

/-- With fuel above `n`, the decimal rendering of `n` decodes back to `n`. -/
theorem dec_val_dec_chars : ∀ (fuel n : Nat), n < fuel → dec_val (dec_chars fuel n) = n := by
  intro fuel
  induction fuel with
  | zero => intro n h; omega
  | succ fuel ih =>
    intro n h
    by_cases h10 : n < 10
    · rw [dec_chars, if_pos h10]
      simp [dec_val, digit_char_toNat n h10]
    · have hn : n / 10 < fuel := by
        have := Nat.div_lt_self (by omega : 0 < n) (by norm_num : 1 < 10)
        omega
      rw [dec_chars, if_neg h10, dec_val_append, ih _ hn,
        digit_char_toNat _ (Nat.mod_lt _ (by norm_num))]
      omega

/-- Byte-wise decomposition of string concatenation. -/
theorem string_data_append (s t : String) : (s ++ t).data = s.data ++ t.data := by
  cases s; cases t; rfl

/-- The labels `str_<k>` are distinct for distinct `k`. -/
theorem str_label_injective {a b : Nat}
    (h : "str_" ++ nat_dec a = "str_" ++ nat_dec b) : a = b := by
  have hd := congrArg String.data h
  rw [string_data_append, string_data_append] at hd
  have hd2 : (nat_dec a).data = (nat_dec b).data := List.append_cancel_left hd
  have hc : dec_chars (a + 1) a = dec_chars (b + 1) b := by
    simpa [nat_dec] using hd2
  have ha := dec_val_dec_chars (a + 1) a (Nat.lt_succ_self a)
  have hb := dec_val_dec_chars (b + 1) b (Nat.lt_succ_self b)
  rw [hc] at ha
  omega

/-- Lookup skips over a list that does not bind the key. -/
theorem lookup_append_none {α : Type} {l1 : List (String × α)} {k : String}
    (h : l1.lookup k = none) (l2 : List (String × α)) :
    (l1 ++ l2).lookup k = l2.lookup k := by
  induction l1 with
  | nil => simp
  | cons p rest ih =>
    obtain ⟨a, b⟩ := p
    by_cases hk : k = a
    · subst hk
      simp [List.lookup] at h
    · have hba : (k == a) = false := by simpa using hk
      simp only [List.lookup, hba, List.cons_append] at h ⊢
      exact ih h

/-- On a reachable table the stored labels are exactly `str_0 … str_(n-1)`
in insertion order. -/
theorem lit_reachable_labels {tbl : List (String × String)} (h : lit_reachable tbl) :
    tbl.map Prod.snd = (List.range tbl.length).map (fun i => "str_" ++ nat_dec i) := by
  induction h with
  | base => simp
  | step g s hr ih =>
    unfold get_or_create_string_literal
    cases hl : g.string_literals.lookup s with
    | some label => simpa using ih
    | none =>
      simp only [List.map_append, List.length_append, List.map_cons, List.map_nil,
        List.length_cons, List.length_nil, ih, List.range_succ]

/-- On a reachable table, distinct texts carry distinct labels. -/
theorem lit_reachable_distinct {tbl : List (String × String)} (h : lit_reachable tbl)
    {s1 s2 l1 l2 : String} (h1 : (s1, l1) ∈ tbl) (h2 : (s2, l2) ∈ tbl)
    (hne : s1 ≠ s2) : l1 ≠ l2 := by
  intro heq
  obtain ⟨i, hi⟩ := List.get?_of_mem h1
  obtain ⟨j, hj⟩ := List.get?_of_mem h2
  have hilt : i < tbl.length := (List.get?_eq_some.mp hi).1
  have hjlt : j < tbl.length := (List.get?_eq_some.mp hj).1
  have hi2 : tbl[i]? = some (s1, l1) := by
    rw [← List.get?_eq_getElem?]
    exact hi
  have hj2 : tbl[j]? = some (s2, l2) := by
    rw [← List.get?_eq_getElem?]
    exact hj
  have hl1 : l1 = "str_" ++ nat_dec i := by
    have hm : (tbl.map Prod.snd)[i]? = some l1 := by
      simp [List.getElem?_map, hi2]
    rw [lit_reachable_labels h] at hm
    rw [List.getElem?_map, List.getElem?_range hilt] at hm
    simpa using hm.symm
  have hl2 : l2 = "str_" ++ nat_dec j := by
    have hm : (tbl.map Prod.snd)[j]? = some l2 := by
      simp [List.getElem?_map, hj2]
    rw [lit_reachable_labels h] at hm
    rw [List.getElem?_map, List.getElem?_range hjlt] at hm
    simpa using hm.symm
  have hij : i = j := str_label_injective (by rw [← hl1, ← hl2, heq])
  rw [hij, hj2] at hi2
  have hpair : (s2, l2) = (s1, l1) := Option.some.inj hi2
  exact hne (congrArg Prod.fst hpair).symm

/-- C8: `get_or_create_string_literal` is an idempotent interning function:
a first call on a fresh text returns `str_<k>` with `k` the current table
size and appends exactly that binding; an immediately repeated call returns
the same label and leaves the state unchanged; and on any reachable table,
distinct texts carry distinct labels. -/
theorem c8_intern_function (g : CodeGen) (s s1 s2 l1 l2 : String) :
    ((g.string_literals.lookup s = none) →
      get_or_create_string_literal g s
        = ("str_" ++ nat_dec g.string_literals.length,
           { g with string_literals :=
              g.string_literals ++ [(s, "str_" ++ nat_dec g.string_literals.length)] }))
    ∧ (get_or_create_string_literal (get_or_create_string_literal g s).2 s
        = ((get_or_create_string_literal g s).1, (get_or_create_string_literal g s).2))
    ∧ (lit_reachable g.string_literals → (s1, l1) ∈ g.string_literals →
        (s2, l2) ∈ g.string_literals → s1 ≠ s2 → l1 ≠ l2) := by
  refine ⟨?_, ?_, fun hr h1 h2 hne => lit_reachable_distinct hr h1 h2 hne⟩
  · intro h
    simp [get_or_create_string_literal, h]
  · cases hl : g.string_literals.lookup s with
    | some label =>
      simp [get_or_create_string_literal, hl]
    | none =>
      have hl2 : ((g.string_literals
          ++ [(s, "str_" ++ nat_dec g.string_literals.length)]).lookup s)
          = some ("str_" ++ nat_dec g.string_literals.length) := by
        rw [lookup_append_none hl]
        simp [List.lookup]
      simp [get_or_create_string_literal, hl, hl2]

/-- C8 witness: the fresh-insert equation at the empty table, idempotence of
a repeated call, and distinctness of the labels of `"a"` and `"b"` on the
two-entry reachable table. -/
theorem c8_intern_function_witness :
    (codegen_new.string_literals.lookup "hi" = none
      ∧ get_or_create_string_literal codegen_new "hi"
        = ("str_" ++ nat_dec codegen_new.string_literals.length,
           { codegen_new with string_literals :=
              codegen_new.string_literals
                ++ [("hi", "str_" ++ nat_dec codegen_new.string_literals.length)] }))
    ∧ (get_or_create_string_literal (get_or_create_string_literal codegen_new "hi").2 "hi"
        = ((get_or_create_string_literal codegen_new "hi").1,
           (get_or_create_string_literal codegen_new "hi").2))
    ∧ (("a", "str_0") ∈ c8_tbl ∧ ("b", "str_1") ∈ c8_tbl ∧ "a" ≠ "b"
        ∧ "str_0" ≠ "str_1") := by
  have base2 : lit_reachable
      ((get_or_create_string_literal
        (get_or_create_string_literal codegen_new "a").2 "b").2.string_literals) :=
    lit_reachable.step _ "b" (lit_reachable.step codegen_new "a" lit_reachable.base)
  have hreach : lit_reachable c8_tbl := base2
  refine ⟨⟨rfl, (c8_intern_function codegen_new "hi" "" "" "" "").1 rfl⟩,
    (c8_intern_function codegen_new "hi" "" "" "" "").2.1,
    by decide, by decide, by decide, ?_⟩
  have hg : c8_tbl
      = ({ codegen_new with string_literals := c8_tbl } : CodeGen).string_literals := rfl
  exact (c8_intern_function { codegen_new with string_literals := c8_tbl }
    "" "a" "b" "str_0" "str_1").2.2 hreach (by decide) (by decide) (by decide)

/-- The comment scan never moves the cursor backwards. -/
theorem scan_to_newline_ge : ∀ (fuel : Nat) (input : List Char) (rp : Nat),
    rp ≤ scan_to_newline fuel input rp := by
  intro fuel
  induction fuel with
  | zero => intro input rp; simp [scan_to_newline]
  | succ fuel ih =>
    intro input rp
    rw [scan_to_newline]
    split
    · exact le_trans (Nat.le_succ rp) (ih input (rp + 1))
    · exact le_rfl


theorem read_char_input (st : LexState) : (read_char st).input = st.input := by
  simp only [read_char]
  split_ifs <;> rfl

theorem read_char_rp_lt (st : LexState) :
    st.read_position < (read_char st).read_position := by
  simp only [read_char]
  have h := scan_to_newline_ge st.input.length st.input (st.read_position + 1 + 1)
  split_ifs <;> simp <;> omega

theorem read_char_inv (st : LexState) : lex_inv (read_char st) := by
  simp only [lex_inv, read_char]
  split_ifs <;> intro h <;> simp_all <;> omega

theorem drop_head_facts {l : List Char} {n : Nat} {c : Char} {tl : List Char}
    (h : l.drop n = c :: tl) :
    charAt l n = c ∧ l.drop (n + 1) = tl ∧ n < l.length := by
  have hlt : n < l.length := by
    by_contra hge
    rw [List.drop_eq_nil_of_le (by omega)] at h
    exact List.noConfusion h
  refine ⟨?_, ?_, hlt⟩
  · have h0 : (l.drop n).head? = some c := by rw [h]; rfl
    rw [List.head?_drop] at h0
    simp [charAt, List.getD_eq_getElem?_getD, h0]
  · have h2 : l.drop (n + 1) = (l.drop n).tail := by
      rw [List.tail_drop]
    rw [h2, h]
    rfl

theorem read_char_step (st : LexState) (c : Char) (tl : List Char)
    (hdrop : st.input.drop st.read_position = c :: tl)
    (hnc : c = '/' → tl.headD '\x00' ≠ '/') :
    read_char st = { st with
      ch := c
      position := st.read_position
      read_position := st.read_position + 1 } := by
  obtain ⟨hat, hdrop1, hlt⟩ := drop_head_facts hdrop
  have hnext : (if st.read_position + 1 < st.input.length then
      charAt st.input (st.read_position + 1) else '\x00') = tl.headD '\x00' := by
    cases htl : tl with
    | nil =>
      rw [htl] at hdrop1
      have hlen : st.input.length ≤ st.read_position + 1 := by
        by_contra hh
        have hc := congrArg List.length hdrop1
        simp [List.length_drop] at hc
        omega
      rw [if_neg (by omega)]
      rfl
    | cons c2 tl2 =>
      rw [htl] at hdrop1
      obtain ⟨hat2, _, hlt2⟩ := drop_head_facts hdrop1
      rw [if_pos hlt2, hat2]
      rfl
  simp only [read_char]
  rw [if_neg (by omega : ¬ st.read_position ≥ st.input.length), hat]
  by_cases hc : c = '/'
  · rw [if_pos hc, hnext, if_neg (hnc hc)]
  · rw [if_neg hc]

theorem skip_ws_input : ∀ (fuel : Nat) (st : LexState),
    (skip_ws fuel st).input = st.input := by
  intro fuel
  induction fuel with
  | zero => intro st; rfl
  | succ fuel ih =>
    intro st
    rw [skip_ws]
    split
    · rw [ih, read_char_input]
    · rfl

theorem skip_ws_rp_ge : ∀ (fuel : Nat) (st : LexState),
    st.read_position ≤ (skip_ws fuel st).read_position := by
  intro fuel
  induction fuel with
  | zero => intro st; exact le_rfl
  | succ fuel ih =>
    intro st
    rw [skip_ws]
    split
    · exact le_trans (le_of_lt (read_char_rp_lt st)) (ih (read_char st))
    · exact le_rfl

theorem skip_ws_complete : ∀ (fuel : Nat) (st : LexState), lex_inv st →
    st.input.length + 2 - st.read_position ≤ fuel →
    rust_is_whitespace (skip_ws fuel st).ch = false ∧ lex_inv (skip_ws fuel st) := by
  intro fuel
  induction fuel with
  | zero =>
    intro st hinv hf
    have hch : st.ch = '\x00' := by
      by_contra hc
      have := hinv hc
      omega
    constructor
    · show rust_is_whitespace st.ch = false
      rw [hch]; decide
    · exact hinv
  | succ fuel ih =>
    intro st hinv hf
    rw [skip_ws]
    split
    · rename_i hws
      have hch : st.ch ≠ '\x00' := by
        intro hc
        rw [hc] at hws
        simp [rust_is_whitespace] at hws
      have hrp := hinv hch
      have hrp2 := read_char_rp_lt st
      have hlen : (read_char st).input.length = st.input.length := by
        rw [read_char_input]
      exact ih (read_char st) (read_char_inv st) (by omega)
    · rename_i hws
      exact ⟨by simpa using hws, hinv⟩

theorem skip_whitespace_id (st : LexState)
    (h : rust_is_whitespace st.ch = false) : skip_whitespace st = st := by
  show skip_ws (st.input.length + 2) st = st
  rw [skip_ws, if_neg (by simp [h])]

theorem read_ident_loop_facts : ∀ (fuel : Nat) (st : LexState),
    (read_ident_loop fuel st).input = st.input
    ∧ st.read_position ≤ (read_ident_loop fuel st).read_position
    ∧ (lex_inv st → lex_inv (read_ident_loop fuel st)) := by
  intro fuel
  induction fuel with
  | zero => intro st; exact ⟨rfl, le_rfl, fun h => h⟩
  | succ fuel ih =>
    intro st
    rw [read_ident_loop]
    split
    · obtain ⟨hi, hr, hv⟩ := ih (read_char st)
      exact ⟨by rw [hi, read_char_input],
        le_trans (le_of_lt (read_char_rp_lt st)) hr,
        fun _ => hv (read_char_inv st)⟩
    · exact ⟨rfl, le_rfl, fun h => h⟩

theorem read_num_loop_facts : ∀ (fuel : Nat) (b : Bool) (st : LexState),
    (read_num_loop fuel b st).input = st.input
    ∧ st.read_position ≤ (read_num_loop fuel b st).read_position
    ∧ (lex_inv st → lex_inv (read_num_loop fuel b st)) := by
  intro fuel
  induction fuel with
  | zero => intro b st; exact ⟨rfl, le_rfl, fun h => h⟩
  | succ fuel ih =>
    intro b st
    rw [read_num_loop]
    split
    · obtain ⟨hi, hr, hv⟩ := ih (b || decide (st.ch = '.')) (read_char st)
      exact ⟨by rw [hi, read_char_input],
        le_trans (le_of_lt (read_char_rp_lt st)) hr,
        fun _ => hv (read_char_inv st)⟩
    · exact ⟨rfl, le_rfl, fun h => h⟩

theorem read_str_loop_facts : ∀ (fuel : Nat) (d : Char) (acc : List Char) (st : LexState),
    (read_str_loop fuel d acc st).2.input = st.input
    ∧ st.read_position ≤ (read_str_loop fuel d acc st).2.read_position
    ∧ (lex_inv st → lex_inv (read_str_loop fuel d acc st).2) := by
  intro fuel
  induction fuel with
  | zero => intro d acc st; exact ⟨rfl, le_rfl, fun h => h⟩
  | succ fuel ih =>
    intro d acc st
    rw [read_str_loop]
    split
    · obtain ⟨hi, hr, hv⟩ := ih d (acc ++ [st.ch]) (read_char st)
      exact ⟨by rw [hi, read_char_input],
        le_trans (le_of_lt (read_char_rp_lt st)) hr,
        fun _ => hv (read_char_inv st)⟩
    · exact ⟨rfl, le_rfl, fun h => h⟩

theorem get_token_type_ne_eof (w : String) : get_token_type w ≠ .EOF := by
  intro h
  unfold get_token_type at h
  by_cases h1 : w = "let" ∨ w = "if" ∨ w = "else" ∨ w = "return" ∨ w = "function" ∨ w = "switch" ∨ w = "case" ∨ w = "default" ∨ w = "while" ∨ w = "for"
  · rw [if_pos h1] at h
    exact TokenType.noConfusion h
  rw [if_neg h1] at h
  by_cases h2 : w = "int" ∨ w = "float" ∨ w = "bool" ∨ w = "string" ∨ w = "void"
  · rw [if_pos h2] at h
    exact TokenType.noConfusion h
  rw [if_neg h2] at h
  by_cases h3 : w = "true" ∨ w = "false"
  · rw [if_pos h3] at h
    exact TokenType.noConfusion h
  rw [if_neg h3] at h
  by_cases h4 : w = ";"
  · rw [if_pos h4] at h
    exact TokenType.noConfusion h
  rw [if_neg h4] at h
  by_cases h5 : w = ":"
  · rw [if_pos h5] at h
    exact TokenType.noConfusion h
  rw [if_neg h5] at h
  by_cases h6 : w = ","
  · rw [if_pos h6] at h
    exact TokenType.noConfusion h
  rw [if_neg h6] at h
  by_cases h7 : w = "="
  · rw [if_pos h7] at h
    exact TokenType.noConfusion h
  rw [if_neg h7] at h
  by_cases h8 : w = "+" ∨ w = "-" ∨ w = "*" ∨ w = "/" ∨ w = "==" ∨ w = "<=" ∨ w = ">=" ∨ w = ">" ∨ w = "<" ∨ w = "%" ∨ w = "!="
  · rw [if_pos h8] at h
    exact TokenType.noConfusion h
  rw [if_neg h8] at h
  by_cases h9 : w = "("
  · rw [if_pos h9] at h
    exact TokenType.noConfusion h
  rw [if_neg h9] at h
  by_cases h10 : w = ")"
  · rw [if_pos h10] at h
    exact TokenType.noConfusion h
  rw [if_neg h10] at h
  by_cases h11 : w = "\x7b"
  · rw [if_pos h11] at h
    exact TokenType.noConfusion h
  rw [if_neg h11] at h
  by_cases h12 : w = "\x7d"
  · rw [if_pos h12] at h
    exact TokenType.noConfusion h
  rw [if_neg h12] at h
  by_cases h13 : (rust_parse_i64 w).isSome = true
  · rw [if_pos h13] at h
    exact TokenType.noConfusion h
  rw [if_neg h13] at h
  by_cases h14 : rust_parse_f64_ok w = true
  · rw [if_pos h14] at h
    exact TokenType.noConfusion h
  rw [if_neg h14] at h
  exact TokenType.noConfusion h

theorem read_operator_facts (st : LexState) :
    (read_operator st).2.input = st.input
    ∧ st.read_position < (read_operator st).2.read_position
    ∧ lex_inv (read_operator st).2 := by
  simp only [read_operator]
  split_ifs <;>
    first
    | exact ⟨by rw [read_char_input, read_char_input],
        lt_trans (read_char_rp_lt st) (read_char_rp_lt (read_char st)),
        read_char_inv _⟩
    | exact ⟨read_char_input st, read_char_rp_lt st, read_char_inv st⟩

theorem next_token_spec (st0 : LexState) (hinv : lex_inv st0) :
    (next_token st0).2.input = st0.input
    ∧ lex_inv (next_token st0).2
    ∧ ((next_token st0).1.token_type ≠ .EOF → lex_mu (next_token st0).2 < lex_mu st0)
    ∧ ((next_token st0).1.token_type = .EOF → (next_token st0).2.ch = '\x00') := by
  obtain ⟨hws0, hinv10⟩ := skip_ws_complete (st0.input.length + 2) st0 hinv (by omega)
  have hws : rust_is_whitespace (skip_whitespace st0).ch = false := hws0
  have hinv1 : lex_inv (skip_whitespace st0) := hinv10
  have hswi : (skip_whitespace st0).input = st0.input := skip_ws_input _ _
  have hswr : st0.read_position ≤ (skip_whitespace st0).read_position := skip_ws_rp_ge _ _
  simp only [next_token]
  generalize hg : skip_whitespace st0 = st1 at hws hinv1 hswi hswr ⊢
  have hlen : st1.input.length = st0.input.length := by rw [hswi]
  by_cases hz : st1.ch = '\x00'
  · rw [if_pos hz]
    exact ⟨hswi, hinv1, fun h => absurd rfl h, fun _ => hz⟩
  · rw [if_neg hz]
    have hrp1 : st1.read_position ≤ st1.input.length := hinv1 hz
    by_cases ha : rust_is_alphabetic st1.ch
    · rw [if_pos ha]
      obtain ⟨hi, hr, hv⟩ := read_ident_loop_facts (st1.input.length + 2) st1
      have hstep : st1.read_position
          < (read_ident_loop (st1.input.length + 2) st1).read_position := by
        rw [read_ident_loop,
          if_pos (by simp [rust_is_alphanumeric, ha] : rust_is_alphanumeric st1.ch = true)]
        exact lt_of_lt_of_le (read_char_rp_lt st1) (read_ident_loop_facts _ _).2.1
      refine ⟨?_, ?_, ?_, ?_⟩
      · show (read_ident_loop (st1.input.length + 2) st1).input = st0.input
        rw [hi, hswi]
      · show lex_inv (read_ident_loop (st1.input.length + 2) st1)
        exact hv hinv1
      · intro _
        show lex_mu (read_ident_loop (st1.input.length + 2) st1) < lex_mu st0
        have hlen1 : (read_ident_loop (st1.input.length + 2) st1).input.length
            = st0.input.length := by rw [hi, hswi]
        simp only [lex_mu]
        omega
      · intro h
        exact absurd h (get_token_type_ne_eof _)
    · rw [if_neg ha]
      by_cases hn : rust_is_numeric st1.ch
      · rw [if_pos hn]
        obtain ⟨hi, hr, hv⟩ := read_num_loop_facts (st1.input.length + 2) false st1
        have hstep : st1.read_position
            < (read_num_loop (st1.input.length + 2) false st1).read_position := by
          rw [read_num_loop, if_pos (Or.inl (by simpa using hn))]
          exact lt_of_lt_of_le (read_char_rp_lt st1) (read_num_loop_facts _ _ _).2.1
        refine ⟨?_, ?_, ?_, ?_⟩
        · show (read_num_loop (st1.input.length + 2) false st1).input = st0.input
          rw [hi, hswi]
        · show lex_inv (read_num_loop (st1.input.length + 2) false st1)
          exact hv hinv1
        · intro _
          show lex_mu (read_num_loop (st1.input.length + 2) false st1) < lex_mu st0
          have hlen1 : (read_num_loop (st1.input.length + 2) false st1).input.length
              = st0.input.length := by rw [hi, hswi]
          simp only [lex_mu]
          omega
        · intro h
          have h2 : (if '.' ∈ (read_number st1).1.data then TokenType.Float
              else TokenType.Int) = TokenType.EOF := h
          by_cases hd : '.' ∈ (read_number st1).1.data
          · rw [if_pos hd] at h2
            exact TokenType.noConfusion h2
          · rw [if_neg hd] at h2
            exact TokenType.noConfusion h2
      · rw [if_neg hn]
        by_cases hq : st1.ch = '"' ∨ st1.ch = '\''
        · rw [if_pos hq]
          obtain ⟨hi, hr, hv⟩ := read_str_loop_facts (st1.input.length + 2) st1.ch []
            (read_char st1)
          refine ⟨?_, ?_, ?_, ?_⟩
          · show (read_char (read_str_loop (st1.input.length + 2) st1.ch []
                (read_char st1)).2).input = st0.input
            rw [read_char_input, hi, read_char_input, hswi]
          · show lex_inv (read_char (read_str_loop (st1.input.length + 2) st1.ch []
                (read_char st1)).2)
            exact read_char_inv _
          · intro _
            show lex_mu (read_char (read_str_loop (st1.input.length + 2) st1.ch []
                (read_char st1)).2) < lex_mu st0
            have hlen1 : (read_char (read_str_loop (st1.input.length + 2) st1.ch []
                (read_char st1)).2).input.length = st0.input.length := by
              rw [read_char_input, hi, read_char_input, hswi]
            have hs1 : st1.read_position < (read_char st1).read_position :=
              read_char_rp_lt st1
            have hs2 : (read_char st1).read_position
                ≤ (read_str_loop (st1.input.length + 2) st1.ch []
                    (read_char st1)).2.read_position := hr
            have hs3 : (read_str_loop (st1.input.length + 2) st1.ch []
                  (read_char st1)).2.read_position
                < (read_char (read_str_loop (st1.input.length + 2) st1.ch []
                    (read_char st1)).2).read_position := read_char_rp_lt _
            simp only [lex_mu]
            omega
          · intro h
            exact TokenType.noConfusion (h : TokenType.String = TokenType.EOF)
        · rw [if_neg hq]
          obtain ⟨hoi, hor, hoinv⟩ := read_operator_facts st1
          refine ⟨?_, ?_, ?_, ?_⟩
          · show (read_operator st1).2.input = st0.input
            rw [hoi, hswi]
          · exact hoinv
          · intro _
            show lex_mu (read_operator st1).2 < lex_mu st0
            have hlen1 : (read_operator st1).2.input.length = st0.input.length := by
              rw [hoi, hswi]
            simp only [lex_mu]
            omega
          · intro h
            exact absurd h (get_token_type_ne_eof _)

theorem next_token_at_eof (st : LexState) (h : st.ch = '\x00') :
    next_token st = (⟨.EOF, ""⟩, st) := by
  have hid : skip_whitespace st = st := skip_whitespace_id st (by rw [h]; decide)
  simp only [next_token]
  rw [hid, if_pos h]

theorem eof_reachable : ∀ (N : Nat) (st : LexState), lex_inv st → lex_mu st ≤ N →
    ∃ n, (next_token (lex_iter n st)).1.token_type = .EOF := by
  intro N
  induction N with
  | zero =>
    intro st hinv hmu
    have hmu' : st.input.length + 1 - st.read_position ≤ 0 := hmu
    have hch : st.ch = '\x00' := by
      by_contra hc
      have := hinv hc
      omega
    exact ⟨0, by rw [lex_iter, next_token_at_eof st hch]⟩
  | succ N ih =>
    intro st hinv hmu
    by_cases he : (next_token st).1.token_type = .EOF
    · exact ⟨0, by rw [lex_iter]; exact he⟩
    · obtain ⟨_, hinv2, hprog, _⟩ := next_token_spec st hinv
      have hlt : lex_mu (next_token st).2 < lex_mu st := hprog he
      obtain ⟨n, hn⟩ := ih (next_token st).2 hinv2 (by omega)
      exact ⟨n + 1, by rw [lex_iter]; exact hn⟩

theorem lex_iter_succ_back : ∀ (n : Nat) (st : LexState),
    lex_iter (n + 1) st = (next_token (lex_iter n st)).2 := by
  intro n
  induction n with
  | zero => intro st; rfl
  | succ n ih =>
    intro st
    rw [lex_iter, ih, lex_iter]

theorem lex_iter_inv (input : List Char) : ∀ (n : Nat), lex_inv (lex_state_at input n) := by
  intro n
  induction n with
  | zero => exact read_char_inv _
  | succ n ih =>
    show lex_inv (lex_iter (n + 1) (lexer_new input))
    rw [lex_iter_succ_back]
    exact (next_token_spec _ ih).2.1

/-- C9: on every finite input the lexer produces finitely many tokens —
some call of `next_token` returns EOF — and once a call has returned EOF,
the next call returns EOF again with the lexer state unchanged. -/
theorem c9_lexer_terminates_eof_fixpoint (input : List Char) (k : Nat) :
    (∃ n, (lex_token_at input n).token_type = .EOF)
    ∧ ((lex_token_at input k).token_type = .EOF →
        next_token (lex_state_at input (k + 1))
          = (⟨.EOF, ""⟩, lex_state_at input (k + 1))) := by
  constructor
  · exact eof_reachable (lex_mu (lexer_new input)) (lexer_new input)
      (read_char_inv _) le_rfl
  · intro hk
    have hch : (lex_state_at input (k + 1)).ch = '\x00' := by
      have hspec := (next_token_spec (lex_state_at input k) (lex_iter_inv input k)).2.2.2 hk
      show (lex_iter (k + 1) (lexer_new input)).ch = '\x00'
      rw [lex_iter_succ_back]
      exact hspec
    exact next_token_at_eof _ hch

/-- C9 witness: on the input `a` the second call returns EOF, and the
third call returns EOF again on an unchanged state. -/
theorem c9_lexer_witness :
    (∃ n, (lex_token_at "a".data n).token_type = .EOF)
    ∧ next_token (lex_state_at "a".data 2) = (⟨.EOF, ""⟩, lex_state_at "a".data 2) :=
  ⟨(c9_lexer_terminates_eof_fixpoint "a".data 1).1,
   (c9_lexer_terminates_eof_fixpoint "a".data 1).2 rfl⟩

theorem nds_tail (c : Char) (l : List Char) (h : no_double_slash (c :: l) = true) :
    no_double_slash l = true := by
  cases l with
  | nil => rfl
  | cons e l' =>
    simp only [no_double_slash, Bool.and_eq_true] at h
    exact h.2

theorem nds_append (l : List Char) (d : Char) (hd : d ≠ '/') :
    no_double_slash l = true → no_double_slash (l ++ [d]) = true := by
  induction l with
  | nil => intro _; rfl
  | cons c l' ih =>
    cases l' with
    | nil =>
      intro _
      simp [no_double_slash, hd]
    | cons e l'' =>
      intro h
      simp only [no_double_slash, Bool.and_eq_true, List.cons_append] at h ⊢
      exact ⟨h.1, ih h.2⟩

theorem nds_step (l : List Char) (d : Char) (rest : List Char) (hd : d ≠ '/')
    (h : no_double_slash (l ++ [d]) = true) :
    (l ++ [d]).headD '\x00' = '/' → ((l ++ [d]).tail ++ rest).headD '\x00' ≠ '/' := by
  cases l with
  | nil =>
    intro hc
    simp at hc
    exact absurd hc hd
  | cons e l' =>
    cases l' with
    | nil =>
      intro _
      simpa using hd
    | cons f l'' =>
      intro he
      simp only [List.cons_append, no_double_slash, Bool.and_eq_true,
        Bool.not_eq_true', Bool.and_eq_false_iff] at h
      simp only [List.cons_append, List.headD_cons] at he ⊢
      rcases h.1 with hbad | hbad <;> simp_all

theorem append_cons_head (l : List Char) (d : Char) (rest : List Char) :
    l ++ d :: rest = (l ++ [d]).headD '\x00' :: ((l ++ [d]).tail ++ rest) := by
  cases l with
  | nil => rfl
  | cons c l' => simp

theorem read_str_loop_run : ∀ (s : List Char) (fuel : Nat) (d : Char)
    (rest acc : List Char) (st : LexState),
    s.length < fuel → d ≠ '\x00' → d ≠ '/' →
    st.ch = (s ++ [d]).headD '\x00' →
    st.input.drop st.read_position = (s ++ [d]).tail ++ rest →
    (∀ c ∈ s, c ≠ d ∧ c ≠ '\x00') →
    no_double_slash (s ++ [d]) = true →
    (read_str_loop fuel d acc st).1 = acc ++ s := by
  intro s
  induction s with
  | nil =>
    intro fuel d rest acc st hfuel hd0 hds hch hdrop hs hnds
    cases fuel with
    | zero => exact absurd hfuel (by omega)
    | succ f =>
      have hch' : st.ch = d := by simpa using hch
      rw [read_str_loop, if_neg (by simp [hch'])]
      simp
  | cons c s' ih =>
    intro fuel d rest acc st hfuel hd0 hds hch hdrop hs hnds
    cases fuel with
    | zero => exact absurd hfuel (by omega)
    | succ f =>
      have hch' : st.ch = c := by simpa using hch
      have hcne := hs c (by simp)
      have hnds' : no_double_slash (s' ++ [d]) = true :=
        nds_tail c (s' ++ [d]) (by simpa using hnds)
      have hdrop1 : st.input.drop st.read_position
          = (s' ++ [d]).headD '\x00' :: ((s' ++ [d]).tail ++ rest) := by
        rw [hdrop, ← append_cons_head s' d rest]
        simp
      have hstep := read_char_step st ((s' ++ [d]).headD '\x00')
        ((s' ++ [d]).tail ++ rest) hdrop1 (nds_step s' d rest hds hnds')
      rw [read_str_loop,
        if_pos ⟨by rw [hch']; exact hcne.1, by rw [hch']; exact hcne.2⟩,
        hch', hstep]
      rw [ih f d rest (acc ++ [c]) _ (by simpa using Nat.lt_of_succ_lt_succ hfuel)
        hd0 hds rfl ((drop_head_facts hdrop1).2.1)
        (fun x hx => hs x (by simp [hx])) hnds']
      simp

theorem read_string_value (st : LexState) (d : Char) (s rest : List Char)
    (hch : st.ch = d) (hdq : d = '"' ∨ d = '\'')
    (hdrop : st.input.drop st.read_position = s ++ d :: rest)
    (hs : ∀ c ∈ s, c ≠ d ∧ c ≠ '\x00')
    (hnds : no_double_slash s = true) :
    (read_string st).1 = String.mk s := by
  have hd0 : d ≠ '\x00' := by rcases hdq with h | h <;> rw [h] <;> decide
  have hds : d ≠ '/' := by rcases hdq with h | h <;> rw [h] <;> decide
  have hnds2 : no_double_slash (s ++ [d]) = true := nds_append s d hds hnds
  have hdrop1 : st.input.drop st.read_position
      = (s ++ [d]).headD '\x00' :: ((s ++ [d]).tail ++ rest) := by
    rw [hdrop, append_cons_head s d rest]
  have hstep := read_char_step st ((s ++ [d]).headD '\x00') ((s ++ [d]).tail ++ rest)
    hdrop1 (nds_step s d rest hds hnds2)
  have hlen : s.length < st.input.length + 2 := by
    have hc := congrArg List.length hdrop
    simp [List.length_drop] at hc
    omega
  show String.mk (read_str_loop (st.input.length + 2) st.ch [] (read_char st)).1
      = String.mk s
  rw [hch, hstep]
  rw [read_str_loop_run s (st.input.length + 2) d rest [] _ hlen hd0 hds rfl
    ((drop_head_facts hdrop1).2.1) hs hnds2]
  simp

/-- C6 (amended): a string literal whose inner text contains no delimiter,
no NUL and no two consecutive slashes lexes to a String token whose value is
exactly the inner text. -/
theorem c6_string_token_exact_text (st : LexState) (d : Char) (s rest : List Char)
    (hch : st.ch = d) (hdq : d = '"' ∨ d = '\'')
    (hdrop : st.input.drop st.read_position = s ++ d :: rest)
    (hs : ∀ c ∈ s, c ≠ d ∧ c ≠ '\x00')
    (hnds : no_double_slash s = true) :
    (next_token st).1 = ⟨.String, String.mk s⟩ := by
  have hnws : rust_is_whitespace st.ch = false := by
    rw [hch]; rcases hdq with h | h <;> rw [h] <;> decide
  have hsw : skip_whitespace st = st := skip_whitespace_id st hnws
  simp only [next_token]
  rw [hsw, hch]
  rcases hdq with h | h <;> rw [h]
  · rw [if_neg (by decide), if_neg (by decide), if_neg (by decide),
      if_pos (by decide : ('"' : Char) = '"' ∨ ('"' : Char) = '\'')]
    show (⟨TokenType.String, (read_string st).1⟩ : Token) = _
    rw [read_string_value st d s rest hch (Or.inl h) hdrop hs hnds]
  · rw [if_neg (by decide), if_neg (by decide), if_neg (by decide),
      if_pos (by decide : ('\'' : Char) = '"' ∨ ('\'' : Char) = '\'')]
    show (⟨TokenType.String, (read_string st).1⟩ : Token) = _
    rw [read_string_value st d s rest hch (Or.inr h) hdrop hs hnds]

/-- C6 witness: the literal with inner text `ab` lexes to a String token
with value `ab`. -/
theorem c6_string_token_witness :
    (next_token (lexer_new "'ab'".data)).1 = ⟨.String, "ab"⟩ :=
  c6_string_token_exact_text (lexer_new "'ab'".data) '\'' ['a', 'b'] []
    rfl (Or.inr rfl) rfl (by decide) rfl

/-- C6 counterexample: the literal with inner text `a//b` loses everything
from the `//` on, because read_char's comment skipping fires inside the
string. -/
theorem c6_counterexample_comment_in_string :
    (next_token (lexer_new "\"a//b\"".data)).1 = ⟨.String, "a"⟩ ∧ "a" ≠ "a//b" :=
  ⟨rfl, by decide⟩


/-- C10 witness: both branches of the atomicity theorem evaluated on a
one-binding frame. -/
theorem c10_define_atomic_witness :
    ((((SymbolTable.mk [("x", ⟨"x", .Variable "int"⟩)] none).symbols.lookup "x").isSome
      ∧ (SymbolTable.mk [("x", ⟨"x", .Variable "int"⟩)] none).define "x" ⟨"x", .Variable "int"⟩
        = (.error "Symbol 'x' already defined in the current scope.",
           SymbolTable.mk [("x", ⟨"x", .Variable "int"⟩)] none))
    ∧ ((SymbolTable.mk [("x", ⟨"x", .Variable "int"⟩)] none).symbols.lookup "y" = none
      ∧ (SymbolTable.mk [("x", ⟨"x", .Variable "int"⟩)] none).define "y" ⟨"y", .Variable "int"⟩
        = (.ok (), SymbolTable.mk [("x", ⟨"x", .Variable "int"⟩), ("y", ⟨"y", .Variable "int"⟩)] none))) :=
  ⟨⟨by decide,
    (c10_define_atomic (SymbolTable.mk [("x", ⟨"x", .Variable "int"⟩)] none) "x"
      ⟨"x", .Variable "int"⟩).1 (by decide)⟩,
   ⟨by decide,
    (c10_define_atomic (SymbolTable.mk [("x", ⟨"x", .Variable "int"⟩)] none) "y"
      ⟨"y", .Variable "int"⟩).2 (by decide)⟩⟩


/-- Reading the head token of the remaining input from a drop fact. -/
theorem tok_drop_head {l : List Token} {n : Nat} {t : Token} {tl : List Token}
    (h : l.drop n = t :: tl) :
    l.getD n ⟨.EOF, ""⟩ = t ∧ l.drop (n + 1) = tl ∧ n < l.length := by
  have hlt : n < l.length := by
    by_contra hge
    rw [List.drop_eq_nil_of_le (by omega)] at h
    exact List.noConfusion h
  refine ⟨?_, ?_, hlt⟩
  · have h0 : (l.drop n).head? = some t := by rw [h]; rfl
    rw [List.head?_drop] at h0
    simp [List.getD_eq_getElem?_getD, h0]
  · have h2 : l.drop (n + 1) = (l.drop n).tail := by rw [List.tail_drop]
    rw [h2, h]
    rfl

/-- `peek` under a drop fact. -/
theorem peek_of {st : Parser} {t : Token} {tl : List Token}
    (h : st.tokens.drop st.position = t :: tl) : st.peek = t :=
  (tok_drop_head h).1

/-- `advance` under a drop fact. -/
theorem advance_of {st : Parser} {t : Token} {tl : List Token}
    (h : st.tokens.drop st.position = t :: tl) :
    st.advance = (t, ⟨st.tokens, st.position + 1⟩) := by
  unfold Parser.advance
  rw [peek_of h]

/-- `is_at_end` is false on a live token. -/
theorem at_end_false {st : Parser} {t : Token} {tl : List Token}
    (h : st.tokens.drop st.position = t :: tl) (he : t.token_type ≠ .EOF) :
    st.is_at_end = false := by
  unfold Parser.is_at_end
  rw [(tok_drop_head h).1]
  simp [Nat.not_le.mpr (tok_drop_head h).2.2, he]

/-- `check` is true on a live token of the expected kind. -/
theorem check_true {st : Parser} {t : Token} {tl : List Token} {tt : TokenType}
    (h : st.tokens.drop st.position = t :: tl) (htt : t.token_type = tt)
    (he : t.token_type ≠ .EOF) : st.check tt = true := by
  unfold Parser.check
  rw [at_end_false h he]
  simp [peek_of h, htt]

/-- `check` is false whatever the remaining input when the head of the
remainder is not of the expected kind. -/
theorem check_false {st : Parser} {rest : List Token} {tt : TokenType}
    (h : st.tokens.drop st.position = rest)
    (hne : (rest.headD ⟨.EOF, ""⟩).token_type ≠ tt) : st.check tt = false := by
  unfold Parser.check
  cases rest with
  | nil =>
    have hlen : st.tokens.length ≤ st.position := by
      by_contra hc
      have := congrArg List.length h
      simp [List.length_drop] at this
      omega
    unfold Parser.is_at_end
    simp [hlen]
  | cons t tl =>
    simp only [List.headD_cons] at hne
    by_cases he : t.token_type = .EOF
    · unfold Parser.is_at_end
      rw [(tok_drop_head h).1]
      simp [he]
    · rw [at_end_false h he]
      simp [peek_of h, hne]

/-- `consume` succeeds on a live token of the expected kind. -/
theorem consume_some {st : Parser} {t : Token} {tl : List Token} {tt : TokenType}
    (h : st.tokens.drop st.position = t :: tl) (htt : t.token_type = tt)
    (he : t.token_type ≠ .EOF) :
    st.consume tt = (some t, ⟨st.tokens, st.position + 1⟩) := by
  unfold Parser.consume
  rw [check_true h htt he]
  simp [peek_of h, advance_of h]

/-- `consume` fails when the head of the remainder is of another kind. -/
theorem consume_none {st : Parser} {rest : List Token} {tt : TokenType}
    (h : st.tokens.drop st.position = rest)
    (hne : (rest.headD ⟨.EOF, ""⟩).token_type ≠ tt) : st.consume tt = (none, st) := by
  unfold Parser.consume
  rw [check_false h hne]
  simp

/-- `is_keyword` is true on a live keyword token with the right text. -/
theorem is_keyword_true {st : Parser} {t : Token} {tl : List Token} {kw : String}
    (h : st.tokens.drop st.position = t :: tl) (hk : t.token_type = .Keyword)
    (hv : t.value = kw) : st.is_keyword kw = true := by
  unfold Parser.is_keyword
  rw [at_end_false h (by rw [hk]; simp)]
  simp [peek_of h, hk, hv]

/-- `is_keyword` is false when the head of the remainder is not that keyword. -/
theorem is_keyword_false {st : Parser} {rest : List Token} {kw : String}
    (h : st.tokens.drop st.position = rest)
    (hne : ¬ ((rest.headD ⟨.EOF, ""⟩).token_type = .Keyword
      ∧ (rest.headD ⟨.EOF, ""⟩).value = kw)) : st.is_keyword kw = false := by
  unfold Parser.is_keyword
  cases rest with
  | nil =>
    have hlen : st.tokens.length ≤ st.position := by
      by_contra hc
      have := congrArg List.length h
      simp [List.length_drop] at this
      omega
    unfold Parser.is_at_end
    simp [hlen]
  | cons t tl =>
    simp only [List.headD_cons] at hne
    by_cases he : t.token_type = .EOF
    · unfold Parser.is_at_end
      rw [(tok_drop_head h).1]
      simp [he]
    · rw [at_end_false h he]
      simp only [Bool.if_false_left, Bool.and_eq_true, Bool.not_eq_true]
      rw [peek_of h]
      by_cases hk : t.token_type = .Keyword
      · simp [hk] at hne ⊢
        simp [hne]
      · simp [hk]

/-- `consume_keyword` succeeds on a live keyword token with the right text. -/
theorem consume_keyword_some {st : Parser} {t : Token} {tl : List Token} {kw : String}
    (h : st.tokens.drop st.position = t :: tl) (hk : t.token_type = .Keyword)
    (hv : t.value = kw) :
    st.consume_keyword kw = (some t, ⟨st.tokens, st.position + 1⟩) := by
  unfold Parser.consume_keyword
  rw [is_keyword_true h hk hv]
  simp [peek_of h, advance_of h]

/-- `check_operator` is true on a live operator token in the list. -/
theorem check_operator_true {st : Parser} {t : Token} {tl : List Token} {ops : List String}
    (h : st.tokens.drop st.position = t :: tl) (hk : t.token_type = .Operator)
    (hv : ops.contains t.value = true) : st.check_operator ops = true := by
  unfold Parser.check_operator
  rw [at_end_false h (by rw [hk]; simp)]
  simp only [peek_of h, hk]
  simpa using hv

/-- `check_operator` is false when the head of the remainder is not an
operator in the list. -/
theorem check_operator_false {st : Parser} {rest : List Token} {ops : List String}
    (h : st.tokens.drop st.position = rest)
    (hne : ¬ ((rest.headD ⟨.EOF, ""⟩).token_type = .Operator
      ∧ ops.contains (rest.headD ⟨.EOF, ""⟩).value = true)) :
    st.check_operator ops = false := by
  unfold Parser.check_operator
  cases rest with
  | nil =>
    have hlen : st.tokens.length ≤ st.position := by
      by_contra hc
      have := congrArg List.length h
      simp [List.length_drop] at this
      omega
    unfold Parser.is_at_end
    simp [hlen]
  | cons t tl =>
    simp only [List.headD_cons] at hne
    by_cases he : t.token_type = .EOF
    · unfold Parser.is_at_end
      rw [(tok_drop_head h).1]
      simp [he]
    · rw [at_end_false h he]
      simp only [Bool.if_false_left, Bool.and_eq_true, Bool.not_eq_true]
      rw [peek_of h]
      by_cases hk : t.token_type = .Operator
      · simp [hk] at hne ⊢
        simpa using hne
      · simp [hk]

/-- `is_var_affection` is true on a live identifier followed by `=`. -/
theorem is_var_affection_true {st : Parser} {t1 t2 : Token} {tl : List Token}
    (h : st.tokens.drop st.position = t1 :: t2 :: tl)
    (h1 : t1.token_type = .Identifier) (h2 : t2.token_type = .Equals) :
    is_var_affection st = true := by
  have hlen : st.position + 1 < st.tokens.length := by
    have := congrArg List.length h
    simp [List.length_drop] at this
    omega
  unfold is_var_affection
  rw [at_end_false h (by rw [h1]; simp), check_true h h1 (by rw [h1]; simp)]
  rw [(tok_drop_head (tok_drop_head h).2.1).1]
  simp [Nat.not_le.mpr hlen, h2]

/-- `is_var_affection` is false when the remainder does not start with an
identifier. -/
theorem is_var_affection_false1 {st : Parser} {rest : List Token}
    (h : st.tokens.drop st.position = rest)
    (hne : (rest.headD ⟨.EOF, ""⟩).token_type ≠ .Identifier) :
    is_var_affection st = false := by
  unfold is_var_affection
  rw [check_false h hne]
  simp

/-- `is_var_affection` is false when the second remaining token is not `=`. -/
theorem is_var_affection_false2 {st : Parser} {t1 t2 : Token} {tl : List Token}
    (h : st.tokens.drop st.position = t1 :: t2 :: tl)
    (h2 : t2.token_type ≠ .Equals) : is_var_affection st = false := by
  unfold is_var_affection
  rw [(tok_drop_head (tok_drop_head h).2.1).1]
  by_cases hc : st.check .Identifier
  · simp only [hc]
    split
    · rfl
    · split
      · rfl
      · simp [h2]
  · simp [hc]

/-- Non-operator non-parenthesis tokens satisfy every follow condition. -/
theorem follow_expression_of (t : Token) (h1 : t.token_type ≠ .LeftParen)
    (h2 : t.token_type ≠ .Operator) : follow_expression t :=
  ⟨⟨⟨⟨h1, fun hc => absurd hc h2⟩, fun hc => absurd hc h2⟩,
    fun hc => absurd hc h2⟩, fun hc => absurd hc h2⟩

/-- Operator tokens satisfy the primary follow condition. -/
theorem follow_primary_op (op : String) : follow_primary ⟨.Operator, op⟩ :=
  fun h => TokenType.noConfusion h

/-- Equality-chain operators satisfy the comparison follow condition. -/
theorem follow_comparison_of_eqop (op : String) (hop : op = "==" ∨ op = "!=") :
    follow_comparison ⟨.Operator, op⟩ := by
  rcases hop with h | h <;> subst h <;>
    exact ⟨⟨⟨follow_primary_op _, by intro _; decide⟩, by intro _; decide⟩,
      by intro _; decide⟩

/-- Comparison-chain operators satisfy the term follow condition. -/
theorem follow_term_of_compop (op : String)
    (hop : op = "<" ∨ op = "<=" ∨ op = ">" ∨ op = ">=") :
    follow_term ⟨.Operator, op⟩ := by
  rcases hop with h | h | h | h <;> subst h <;>
    exact ⟨⟨follow_primary_op _, by intro _; decide⟩, by intro _; decide⟩

/-- Term-chain operators satisfy the factor follow condition. -/
theorem follow_factor_of_addop (op : String) (hop : op = "+" ∨ op = "-") :
    follow_factor ⟨.Operator, op⟩ := by
  rcases hop with h | h <;> subst h <;>
    exact ⟨follow_primary_op _, by intro _; decide⟩

/-- A primary derivation starts with a literal, identifier or `(` token. -/
theorem dprim_head {ts : List Token} {e : Expression} (h : DPrim ts e) :
    ∃ t l, ts = t :: l ∧ (t.token_type = .LeftParen ∨ t.token_type = .Int
      ∨ t.token_type = .Float ∨ t.token_type = .Identifier
      ∨ t.token_type = .Bool ∨ t.token_type = .String) := by
  cases h <;> refine ⟨_, _, rfl, ?_⟩ <;> simp

/-- A unary derivation starts with a primary head or an operator token. -/
theorem dunary_head {ts : List Token} {e : Expression} (h : DUnary ts e) :
    ∃ t l, ts = t :: l ∧ (t.token_type = .LeftParen ∨ t.token_type = .Int
      ∨ t.token_type = .Float ∨ t.token_type = .Identifier
      ∨ t.token_type = .Bool ∨ t.token_type = .String
      ∨ t.token_type = .Operator) := by
  cases h with
  | lift ts e hp =>
    obtain ⟨t, l, rfl, hty⟩ := dprim_head hp
    exact ⟨t, l, rfl, by tauto⟩
  | neg op hop ts r hu => exact ⟨_, _, rfl, by simp⟩

/-- A factor derivation starts with a unary head token. -/
theorem dfactor_head {ts : List Token} {e : Expression} (h : DFactor ts e) :
    ∃ t l, ts = t :: l ∧ (t.token_type = .LeftParen ∨ t.token_type = .Int
      ∨ t.token_type = .Float ∨ t.token_type = .Identifier
      ∨ t.token_type = .Bool ∨ t.token_type = .String
      ∨ t.token_type = .Operator) := by
  cases h with
  | mk ts1 ts2 e res h1 h2 =>
    obtain ⟨t, l, rfl, hty⟩ := dunary_head h1
    exact ⟨t, l ++ ts2, rfl, hty⟩

/-- A term derivation starts with a unary head token. -/
theorem dterm_head {ts : List Token} {e : Expression} (h : DTerm ts e) :
    ∃ t l, ts = t :: l ∧ (t.token_type = .LeftParen ∨ t.token_type = .Int
      ∨ t.token_type = .Float ∨ t.token_type = .Identifier
      ∨ t.token_type = .Bool ∨ t.token_type = .String
      ∨ t.token_type = .Operator) := by
  cases h with
  | mk ts1 ts2 e res h1 h2 =>
    obtain ⟨t, l, rfl, hty⟩ := dfactor_head h1
    exact ⟨t, l ++ ts2, rfl, hty⟩

/-- A comparison derivation starts with a unary head token. -/
theorem dcomp_head {ts : List Token} {e : Expression} (h : DComp ts e) :
    ∃ t l, ts = t :: l ∧ (t.token_type = .LeftParen ∨ t.token_type = .Int
      ∨ t.token_type = .Float ∨ t.token_type = .Identifier
      ∨ t.token_type = .Bool ∨ t.token_type = .String
      ∨ t.token_type = .Operator) := by
  cases h with
  | mk ts1 ts2 e res h1 h2 =>
    obtain ⟨t, l, rfl, hty⟩ := dterm_head h1
    exact ⟨t, l ++ ts2, rfl, hty⟩

/-- An expression derivation starts with a unary head token. -/
theorem dexpr_head {ts : List Token} {e : Expression} (h : DExpr ts e) :
    ∃ t l, ts = t :: l ∧ (t.token_type = .LeftParen ∨ t.token_type = .Int
      ∨ t.token_type = .Float ∨ t.token_type = .Identifier
      ∨ t.token_type = .Bool ∨ t.token_type = .String
      ∨ t.token_type = .Operator) := by
  cases h with
  | mk ts1 ts2 e res h1 h2 =>
    obtain ⟨t, l, rfl, hty⟩ := dcomp_head h1
    exact ⟨t, l ++ ts2, rfl, hty⟩

/-- An expression derivation is nonempty. -/
theorem dexpr_ne {ts : List Token} {e : Expression} (h : DExpr ts e) : ts ≠ [] := by
  obtain ⟨t, l, rfl, _⟩ := dexpr_head h
  simp

/-- A statement derivation starts with a keyword or identifier token. -/
theorem dstmt_head {ts : List Token} {s : Statement} (h : DStmt ts s) :
    ∃ t l, ts = t :: l
      ∧ (t.token_type = .Keyword ∨ t.token_type = .Identifier) := by
  cases h with
  | exprStmt ts e he hhead hsnd =>
    obtain ⟨t, l, rfl, _⟩ := dexpr_head he
    simp only [List.headD_cons] at hhead
    exact ⟨t, l ++ [⟨.Semicolon, ";"⟩], by simp, Or.inr hhead⟩
  | varDeclNone x ty => exact ⟨_, _, rfl, by simp⟩
  | varDeclInit x ty ts e h => exact ⟨_, _, rfl, by simp⟩
  | retNone => exact ⟨_, _, rfl, by simp⟩
  | retSome ts e h => exact ⟨_, _, rfl, by simp⟩
  | varAff x ts e h => exact ⟨_, _, rfl, by simp⟩
  | ifNoElse tsC tsB cond thn hc hb => exact ⟨_, _, rfl, by simp⟩
  | ifElse tsC tsB tsE cond thn els hc hb he => exact ⟨_, _, rfl, by simp⟩
  | whileS tsC tsB cond body hc hb => exact ⟨_, _, rfl, by simp⟩
  | forS ts1 ts2 ts3 tsB s1 s2 s3 body h1 h2 h3 hb => exact ⟨_, _, rfl, by simp⟩
  | switchS tsD tsI d items odflt hd hi => exact ⟨_, _, rfl, by simp⟩
  | fnDecl name ret tsP tsB ps body hp hb => exact ⟨_, _, rfl, by simp⟩

/-- A factor chain is empty or starts with a multiplicative operator. -/
theorem dfacchain_head {e : Expression} {ts : List Token} {res : Expression}
    (h : DFacChain e ts res) :
    ts = [] ∨ ∃ op l, ts = ⟨.Operator, op⟩ :: l := by
  cases h with
  | done e => exact Or.inl rfl
  | step e op hop ts1 ts2 r res h1 h2 => exact Or.inr ⟨op, ts1 ++ ts2, rfl⟩

/-- A term chain is empty or starts with an additive operator. -/
theorem dtermchain_head {e : Expression} {ts : List Token} {res : Expression}
    (h : DTermChain e ts res) :
    ts = [] ∨ ∃ op l, ts = ⟨.Operator, op⟩ :: l ∧ (op = "+" ∨ op = "-") := by
  cases h with
  | done e => exact Or.inl rfl
  | step e op hop ts1 ts2 r res h1 h2 => exact Or.inr ⟨op, ts1 ++ ts2, rfl, hop⟩

/-- A comparison chain is empty or starts with a relational operator. -/
theorem dcompchain_head {e : Expression} {ts : List Token} {res : Expression}
    (h : DCompChain e ts res) :
    ts = [] ∨ ∃ op l, ts = ⟨.Operator, op⟩ :: l
      ∧ (op = "<" ∨ op = "<=" ∨ op = ">" ∨ op = ">=") := by
  cases h with
  | done e => exact Or.inl rfl
  | step e op hop ts1 ts2 r res h1 h2 => exact Or.inr ⟨op, ts1 ++ ts2, rfl, hop⟩

/-- An equality chain is empty or starts with an equality operator. -/
theorem deqchain_head {e : Expression} {ts : List Token} {res : Expression}
    (h : DEqChain e ts res) :
    ts = [] ∨ ∃ op l, ts = ⟨.Operator, op⟩ :: l ∧ (op = "==" ∨ op = "!=") := by
  cases h with
  | done e => exact Or.inl rfl
  | step e op hop ts1 ts2 r res h1 h2 => exact Or.inr ⟨op, ts1 ++ ts2, rfl, hop⟩

/-- Dropping past an already matched prefix. -/
theorem drop_shift {l a b : List Token} {n : Nat} (h : l.drop n = a ++ b) :
    l.drop (n + a.length) = b := by
  have h2 : l.drop (n + a.length) = (l.drop n).drop a.length := by
    rw [List.drop_drop, Nat.add_comm]
  rw [h2, h, List.drop_left]

/-- Step lemma for `factor_loop`. -/
theorem facChain_step (fuel : Nat) (ih : ∀ g, g < fuel → Sound g)
    {e0 : Expression} {ts : List Token} {res : Expression} (st : Parser)
    (rest : List Token) (hd : DFacChain e0 ts res)
    (hdrop : st.tokens.drop st.position = ts ++ rest)
    (hfol : follow_factor (rest.headD ⟨.EOF, ""⟩)) (hfuel : 8 * ts.length + 4 ≤ fuel) :
    factor_loop fuel e0 st = (some res, ⟨st.tokens, st.position + ts.length⟩) := by
  obtain ⟨f, rfl⟩ : ∃ f, fuel = f + 1 := ⟨fuel - 1, by omega⟩
  cases hd with
  | done e =>
    rw [factor_loop, check_operator_false hdrop ?hcond]
    case hcond =>
      rintro ⟨hty, hval⟩
      exact hfol.2 hty (by simpa using hval)
    rfl
  | step e op hop ts1 ts2 r res h1 h2 =>
    simp only [List.length_cons, List.length_append] at hfuel
    have hcont : (["*", "/", "%"] : List String).contains op = true := by
      rcases hop with h | h | h <;> simp [h]
    have hdrop' : st.tokens.drop st.position
        = ⟨.Operator, op⟩ :: (ts1 ++ (ts2 ++ rest)) := by simpa using hdrop
    have hfol1 : follow_primary ((ts2 ++ rest).headD ⟨.EOF, ""⟩) := by
      rcases dfacchain_head h2 with h | ⟨op2, l2, h⟩
      · subst h; exact hfol.1
      · rw [h]
        simp only [List.cons_append, List.headD_cons]
        exact follow_primary_op op2
    have hu := (ih f (by omega)).unary ⟨st.tokens, st.position + 1⟩ (ts2 ++ rest) h1
      (tok_drop_head hdrop').2.1 hfol1 (by omega)
    have hdrop2 : st.tokens.drop (st.position + 1 + ts1.length) = ts2 ++ rest :=
      drop_shift (tok_drop_head hdrop').2.1
    have hrec := (ih f (by omega)).facChain ⟨st.tokens, st.position + 1 + ts1.length⟩
      rest h2 hdrop2 hfol (by omega)
    rw [factor_loop]
    simp only [check_operator_true hdrop' rfl hcont, advance_of hdrop', if_true]
    simp only [hu, hrec]
    simp only [Prod.mk.injEq, Parser.mk.injEq, List.length_cons, List.length_append,
      true_and]
    omega

/-- Step lemma for `term_loop`. -/
theorem termChain_step (fuel : Nat) (ih : ∀ g, g < fuel → Sound g)
    {e0 : Expression} {ts : List Token} {res : Expression} (st : Parser)
    (rest : List Token) (hd : DTermChain e0 ts res)
    (hdrop : st.tokens.drop st.position = ts ++ rest)
    (hfol : follow_term (rest.headD ⟨.EOF, ""⟩)) (hfuel : 8 * ts.length + 5 ≤ fuel) :
    term_loop fuel e0 st = (some res, ⟨st.tokens, st.position + ts.length⟩) := by
  obtain ⟨f, rfl⟩ : ∃ f, fuel = f + 1 := ⟨fuel - 1, by omega⟩
  cases hd with
  | done e =>
    rw [term_loop, check_operator_false hdrop ?hcond]
    case hcond =>
      rintro ⟨hty, hval⟩
      exact hfol.2 hty (by simpa using hval)
    rfl
  | step e op hop ts1 ts2 r res h1 h2 =>
    simp only [List.length_cons, List.length_append] at hfuel
    have hcont : (["+", "-"] : List String).contains op = true := by
      rcases hop with h | h <;> simp [h]
    have hdrop' : st.tokens.drop st.position
        = ⟨.Operator, op⟩ :: (ts1 ++ (ts2 ++ rest)) := by simpa using hdrop
    have hfol1 : follow_factor ((ts2 ++ rest).headD ⟨.EOF, ""⟩) := by
      rcases dtermchain_head h2 with h | ⟨op2, l2, h, hop2⟩
      · subst h; exact hfol.1
      · rw [h]
        simp only [List.cons_append, List.headD_cons]
        exact follow_factor_of_addop op2 hop2
    have hu := (ih f (by omega)).factor ⟨st.tokens, st.position + 1⟩ (ts2 ++ rest) h1
      (tok_drop_head hdrop').2.1 hfol1 (by omega)
    have hdrop2 : st.tokens.drop (st.position + 1 + ts1.length) = ts2 ++ rest :=
      drop_shift (tok_drop_head hdrop').2.1
    have hrec := (ih f (by omega)).termChain ⟨st.tokens, st.position + 1 + ts1.length⟩
      rest h2 hdrop2 hfol (by omega)
    rw [term_loop]
    simp only [check_operator_true hdrop' rfl hcont, advance_of hdrop', if_true]
    simp only [hu, hrec]
    simp only [Prod.mk.injEq, Parser.mk.injEq, List.length_cons, List.length_append,
      true_and]
    omega

/-- Step lemma for `comparison_loop`. -/
theorem compChain_step (fuel : Nat) (ih : ∀ g, g < fuel → Sound g)
    {e0 : Expression} {ts : List Token} {res : Expression} (st : Parser)
    (rest : List Token) (hd : DCompChain e0 ts res)
    (hdrop : st.tokens.drop st.position = ts ++ rest)
    (hfol : follow_comparison (rest.headD ⟨.EOF, ""⟩)) (hfuel : 8 * ts.length + 6 ≤ fuel) :
    comparison_loop fuel e0 st = (some res, ⟨st.tokens, st.position + ts.length⟩) := by
  obtain ⟨f, rfl⟩ : ∃ f, fuel = f + 1 := ⟨fuel - 1, by omega⟩
  cases hd with
  | done e =>
    rw [comparison_loop, check_operator_false hdrop ?hcond]
    case hcond =>
      rintro ⟨hty, hval⟩
      exact hfol.2 hty (by simpa using hval)
    rfl
  | step e op hop ts1 ts2 r res h1 h2 =>
    simp only [List.length_cons, List.length_append] at hfuel
    have hcont : (["<", "<=", ">", ">="] : List String).contains op = true := by
      rcases hop with h | h | h | h <;> simp [h]
    have hdrop' : st.tokens.drop st.position
        = ⟨.Operator, op⟩ :: (ts1 ++ (ts2 ++ rest)) := by simpa using hdrop
    have hfol1 : follow_term ((ts2 ++ rest).headD ⟨.EOF, ""⟩) := by
      rcases dcompchain_head h2 with h | ⟨op2, l2, h, hop2⟩
      · subst h; exact hfol.1
      · rw [h]
        simp only [List.cons_append, List.headD_cons]
        exact follow_term_of_compop op2 hop2
    have hu := (ih f (by omega)).term ⟨st.tokens, st.position + 1⟩ (ts2 ++ rest) h1
      (tok_drop_head hdrop').2.1 hfol1 (by omega)
    have hdrop2 : st.tokens.drop (st.position + 1 + ts1.length) = ts2 ++ rest :=
      drop_shift (tok_drop_head hdrop').2.1
    have hrec := (ih f (by omega)).compChain ⟨st.tokens, st.position + 1 + ts1.length⟩
      rest h2 hdrop2 hfol (by omega)
    rw [comparison_loop]
    simp only [check_operator_true hdrop' rfl hcont, advance_of hdrop', if_true]
    simp only [hu, hrec]
    simp only [Prod.mk.injEq, Parser.mk.injEq, List.length_cons, List.length_append,
      true_and]
    omega

/-- Step lemma for `equality_loop`. -/
theorem eqChain_step (fuel : Nat) (ih : ∀ g, g < fuel → Sound g)
    {e0 : Expression} {ts : List Token} {res : Expression} (st : Parser)
    (rest : List Token) (hd : DEqChain e0 ts res)
    (hdrop : st.tokens.drop st.position = ts ++ rest)
    (hfol : follow_expression (rest.headD ⟨.EOF, ""⟩)) (hfuel : 8 * ts.length + 7 ≤ fuel) :
    equality_loop fuel e0 st = (some res, ⟨st.tokens, st.position + ts.length⟩) := by
  obtain ⟨f, rfl⟩ : ∃ f, fuel = f + 1 := ⟨fuel - 1, by omega⟩
  cases hd with
  | done e =>
    rw [equality_loop, check_operator_false hdrop ?hcond]
    case hcond =>
      rintro ⟨hty, hval⟩
      exact hfol.2 hty (by simpa using hval)
    rfl
  | step e op hop ts1 ts2 r res h1 h2 =>
    simp only [List.length_cons, List.length_append] at hfuel
    have hcont : (["==", "!="] : List String).contains op = true := by
      rcases hop with h | h <;> simp [h]
    have hdrop' : st.tokens.drop st.position
        = ⟨.Operator, op⟩ :: (ts1 ++ (ts2 ++ rest)) := by simpa using hdrop
    have hfol1 : follow_comparison ((ts2 ++ rest).headD ⟨.EOF, ""⟩) := by
      rcases deqchain_head h2 with h | ⟨op2, l2, h, hop2⟩
      · subst h; exact hfol.1
      · rw [h]
        simp only [List.cons_append, List.headD_cons]
        exact follow_comparison_of_eqop op2 hop2
    have hu := (ih f (by omega)).comp ⟨st.tokens, st.position + 1⟩ (ts2 ++ rest) h1
      (tok_drop_head hdrop').2.1 hfol1 (by omega)
    have hdrop2 : st.tokens.drop (st.position + 1 + ts1.length) = ts2 ++ rest :=
      drop_shift (tok_drop_head hdrop').2.1
    have hrec := (ih f (by omega)).eqChain ⟨st.tokens, st.position + 1 + ts1.length⟩
      rest h2 hdrop2 hfol (by omega)
    rw [equality_loop]
    simp only [check_operator_true hdrop' rfl hcont, advance_of hdrop', if_true]
    simp only [hu, hrec]
    simp only [Prod.mk.injEq, Parser.mk.injEq, List.length_cons, List.length_append,
      true_and]
    omega

/-- Step lemma for `parse_factor`. -/
theorem factor_step (fuel : Nat) (ih : ∀ g, g < fuel → Sound g)
    {ts : List Token} {e : Expression} (st : Parser) (rest : List Token)
    (hd : DFactor ts e) (hdrop : st.tokens.drop st.position = ts ++ rest)
    (hfol : follow_factor (rest.headD ⟨.EOF, ""⟩)) (hfuel : 8 * ts.length + 4 ≤ fuel) :
    parse_factor fuel st = (some e, ⟨st.tokens, st.position + ts.length⟩) := by
  obtain ⟨f, rfl⟩ : ∃ f, fuel = f + 1 := ⟨fuel - 1, by omega⟩
  cases hd with
  | mk ts1 ts2 e res h1 h2 =>
    simp only [List.length_append] at hfuel
    have hdrop' : st.tokens.drop st.position = ts1 ++ (ts2 ++ rest) := by
      simpa using hdrop
    have hne1 : ts1 ≠ [] := by
      obtain ⟨t, l, rfl, _⟩ := dunary_head h1
      simp
    have hfol1 : follow_primary ((ts2 ++ rest).headD ⟨.EOF, ""⟩) := by
      rcases dfacchain_head h2 with h | ⟨op2, l2, h⟩
      · subst h; exact hfol.1
      · rw [h]
        simp only [List.cons_append, List.headD_cons]
        exact follow_primary_op op2
    have hlen1 : 1 ≤ ts1.length := by
      cases ts1 with
      | nil => exact absurd rfl hne1
      | cons a l => simp
    have hu := (ih f (by omega)).unary st (ts2 ++ rest) h1 hdrop' hfol1 (by omega)
    have hdrop2 : st.tokens.drop (st.position + ts1.length) = ts2 ++ rest :=
      drop_shift hdrop'
    have hrec := (ih f (by omega)).facChain ⟨st.tokens, st.position + ts1.length⟩
      rest h2 hdrop2 hfol (by omega)
    rw [parse_factor]
    simp only [hu, hrec]
    simp only [Prod.mk.injEq, Parser.mk.injEq, List.length_append, true_and]
    omega

/-- Step lemma for `parse_term`. -/
theorem term_step (fuel : Nat) (ih : ∀ g, g < fuel → Sound g)
    {ts : List Token} {e : Expression} (st : Parser) (rest : List Token)
    (hd : DTerm ts e) (hdrop : st.tokens.drop st.position = ts ++ rest)
    (hfol : follow_term (rest.headD ⟨.EOF, ""⟩)) (hfuel : 8 * ts.length + 5 ≤ fuel) :
    parse_term fuel st = (some e, ⟨st.tokens, st.position + ts.length⟩) := by
  obtain ⟨f, rfl⟩ : ∃ f, fuel = f + 1 := ⟨fuel - 1, by omega⟩
  cases hd with
  | mk ts1 ts2 e res h1 h2 =>
    simp only [List.length_append] at hfuel
    have hdrop' : st.tokens.drop st.position = ts1 ++ (ts2 ++ rest) := by
      simpa using hdrop
    have hne1 : ts1 ≠ [] := by
      obtain ⟨t, l, rfl, _⟩ := dfactor_head h1
      simp
    have hlen1 : 1 ≤ ts1.length := by
      cases ts1 with
      | nil => exact absurd rfl hne1
      | cons a l => simp
    have hfol1 : follow_factor ((ts2 ++ rest).headD ⟨.EOF, ""⟩) := by
      rcases dtermchain_head h2 with h | ⟨op2, l2, h, hop2⟩
      · subst h; exact hfol.1
      · rw [h]
        simp only [List.cons_append, List.headD_cons]
        exact follow_factor_of_addop op2 hop2
    have hu := (ih f (by omega)).factor st (ts2 ++ rest) h1 hdrop' hfol1 (by omega)
    have hdrop2 : st.tokens.drop (st.position + ts1.length) = ts2 ++ rest :=
      drop_shift hdrop'
    have hrec := (ih f (by omega)).termChain ⟨st.tokens, st.position + ts1.length⟩
      rest h2 hdrop2 hfol (by omega)
    rw [parse_term]
    simp only [hu, hrec]
    simp only [Prod.mk.injEq, Parser.mk.injEq, List.length_append, true_and]
    omega

/-- Step lemma for `parse_comparison`. -/
theorem comp_step (fuel : Nat) (ih : ∀ g, g < fuel → Sound g)
    {ts : List Token} {e : Expression} (st : Parser) (rest : List Token)
    (hd : DComp ts e) (hdrop : st.tokens.drop st.position = ts ++ rest)
    (hfol : follow_comparison (rest.headD ⟨.EOF, ""⟩)) (hfuel : 8 * ts.length + 6 ≤ fuel) :
    parse_comparison fuel st = (some e, ⟨st.tokens, st.position + ts.length⟩) := by
  obtain ⟨f, rfl⟩ : ∃ f, fuel = f + 1 := ⟨fuel - 1, by omega⟩
  cases hd with
  | mk ts1 ts2 e res h1 h2 =>
    simp only [List.length_append] at hfuel
    have hdrop' : st.tokens.drop st.position = ts1 ++ (ts2 ++ rest) := by
      simpa using hdrop
    have hne1 : ts1 ≠ [] := by
      obtain ⟨t, l, rfl, _⟩ := dterm_head h1
      simp
    have hlen1 : 1 ≤ ts1.length := by
      cases ts1 with
      | nil => exact absurd rfl hne1
      | cons a l => simp
    have hfol1 : follow_term ((ts2 ++ rest).headD ⟨.EOF, ""⟩) := by
      rcases dcompchain_head h2 with h | ⟨op2, l2, h, hop2⟩
      · subst h; exact hfol.1
      · rw [h]
        simp only [List.cons_append, List.headD_cons]
        exact follow_term_of_compop op2 hop2
    have hu := (ih f (by omega)).term st (ts2 ++ rest) h1 hdrop' hfol1 (by omega)
    have hdrop2 : st.tokens.drop (st.position + ts1.length) = ts2 ++ rest :=
      drop_shift hdrop'
    have hrec := (ih f (by omega)).compChain ⟨st.tokens, st.position + ts1.length⟩
      rest h2 hdrop2 hfol (by omega)
    rw [parse_comparison]
    simp only [hu, hrec]
    simp only [Prod.mk.injEq, Parser.mk.injEq, List.length_append, true_and]
    omega

/-- Step lemma for `parse_equality`. -/
theorem eq_step (fuel : Nat) (ih : ∀ g, g < fuel → Sound g)
    {ts : List Token} {e : Expression} (st : Parser) (rest : List Token)
    (hd : DExpr ts e) (hdrop : st.tokens.drop st.position = ts ++ rest)
    (hfol : follow_expression (rest.headD ⟨.EOF, ""⟩)) (hfuel : 8 * ts.length + 7 ≤ fuel) :
    parse_equality fuel st = (some e, ⟨st.tokens, st.position + ts.length⟩) := by
  obtain ⟨f, rfl⟩ : ∃ f, fuel = f + 1 := ⟨fuel - 1, by omega⟩
  cases hd with
  | mk ts1 ts2 e res h1 h2 =>
    simp only [List.length_append] at hfuel
    have hdrop' : st.tokens.drop st.position = ts1 ++ (ts2 ++ rest) := by
      simpa using hdrop
    have hne1 : ts1 ≠ [] := by
      obtain ⟨t, l, rfl, _⟩ := dcomp_head h1
      simp
    have hlen1 : 1 ≤ ts1.length := by
      cases ts1 with
      | nil => exact absurd rfl hne1
      | cons a l => simp
    have hfol1 : follow_comparison ((ts2 ++ rest).headD ⟨.EOF, ""⟩) := by
      rcases deqchain_head h2 with h | ⟨op2, l2, h, hop2⟩
      · subst h; exact hfol.1
      · rw [h]
        simp only [List.cons_append, List.headD_cons]
        exact follow_comparison_of_eqop op2 hop2
    have hu := (ih f (by omega)).comp st (ts2 ++ rest) h1 hdrop' hfol1 (by omega)
    have hdrop2 : st.tokens.drop (st.position + ts1.length) = ts2 ++ rest :=
      drop_shift hdrop'
    have hrec := (ih f (by omega)).eqChain ⟨st.tokens, st.position + ts1.length⟩
      rest h2 hdrop2 hfol (by omega)
    rw [parse_equality]
    simp only [hu, hrec]
    simp only [Prod.mk.injEq, Parser.mk.injEq, List.length_append, true_and]
    omega

/-- Step lemma for `parse_expression`. -/
theorem expr_step (fuel : Nat) (ih : ∀ g, g < fuel → Sound g)
    {ts : List Token} {e : Expression} (st : Parser) (rest : List Token)
    (hd : DExpr ts e) (hdrop : st.tokens.drop st.position = ts ++ rest)
    (hfol : follow_expression (rest.headD ⟨.EOF, ""⟩)) (hfuel : 8 * ts.length + 8 ≤ fuel) :
    parse_expression fuel st = (some e, ⟨st.tokens, st.position + ts.length⟩) := by
  obtain ⟨f, rfl⟩ : ∃ f, fuel = f + 1 := ⟨fuel - 1, by omega⟩
  rw [parse_expression]
  exact (ih f (by omega)).eq st rest hd hdrop hfol (by omega)

/-- Step lemma for `parse_unary`. -/
theorem unary_step (fuel : Nat) (ih : ∀ g, g < fuel → Sound g)
    {ts : List Token} {e : Expression} (st : Parser) (rest : List Token)
    (hd : DUnary ts e) (hdrop : st.tokens.drop st.position = ts ++ rest)
    (hfol : follow_primary (rest.headD ⟨.EOF, ""⟩)) (hfuel : 8 * ts.length + 3 ≤ fuel) :
    parse_unary fuel st = (some e, ⟨st.tokens, st.position + ts.length⟩) := by
  obtain ⟨f, rfl⟩ : ∃ f, fuel = f + 1 := ⟨fuel - 1, by omega⟩
  cases hd with
  | lift ts e hp =>
    obtain ⟨t, l, hts, hty⟩ := dprim_head hp
    have hco : st.check_operator ["-", "!"] = false := by
      apply check_operator_false hdrop
      subst hts
      simp only [List.cons_append, List.headD_cons]
      rintro ⟨h1, _⟩
      rcases hty with h | h | h | h | h | h <;> rw [h] at h1 <;>
        exact TokenType.noConfusion h1
    rw [parse_unary, if_neg (by simp [hco])]
    exact (ih f (by omega)).primary st rest hp hdrop hfol (by omega)
  | neg op hop ts r hu =>
    simp only [List.length_cons] at hfuel
    have hdrop' : st.tokens.drop st.position = ⟨.Operator, op⟩ :: (ts ++ rest) := by
      simpa using hdrop
    have hcont : (["-", "!"] : List String).contains op = true := by
      rcases hop with h | h <;> simp [h]
    have hco := check_operator_true hdrop' rfl hcont
    have hrec := (ih f (by omega)).unary ⟨st.tokens, st.position + 1⟩ rest hu
      (tok_drop_head hdrop').2.1 hfol (by omega)
    rw [parse_unary, if_pos (by simp [hco])]
    simp only [advance_of hdrop', hrec]
    simp only [Prod.mk.injEq, Parser.mk.injEq, List.length_cons, true_and]
    omega

/-- Step lemma for `parse_primary`. -/
theorem primary_step (fuel : Nat) (ih : ∀ g, g < fuel → Sound g)
    {ts : List Token} {e : Expression} (st : Parser) (rest : List Token)
    (hd : DPrim ts e) (hdrop : st.tokens.drop st.position = ts ++ rest)
    (hfol : follow_primary (rest.headD ⟨.EOF, ""⟩)) (hfuel : 8 * ts.length + 2 ≤ fuel) :
    parse_primary fuel st = (some e, ⟨st.tokens, st.position + ts.length⟩) := by
  obtain ⟨f, rfl⟩ : ∃ f, fuel = f + 1 := ⟨fuel - 1, by omega⟩
  cases hd with
  | int v n hp =>
    have hdrop' : st.tokens.drop st.position = ⟨.Int, v⟩ :: rest := by simpa using hdrop
    have hck : st.check .LeftParen = false := check_false hdrop' (by simp)
    rw [parse_primary, if_neg (by simp [hck])]
    simp only [advance_of hdrop', hp]
    rfl
  | float v hp =>
    have hdrop' : st.tokens.drop st.position = ⟨.Float, v⟩ :: rest := by simpa using hdrop
    have hck : st.check .LeftParen = false := check_false hdrop' (by simp)
    rw [parse_primary, if_neg (by simp [hck])]
    simp only [advance_of hdrop', hp]
    rfl
  | bool v =>
    have hdrop' : st.tokens.drop st.position = ⟨.Bool, v⟩ :: rest := by simpa using hdrop
    have hck : st.check .LeftParen = false := check_false hdrop' (by simp)
    rw [parse_primary, if_neg (by simp [hck])]
    simp only [advance_of hdrop']
    rfl
  | str v =>
    have hdrop' : st.tokens.drop st.position = ⟨.String, v⟩ :: rest := by simpa using hdrop
    have hck : st.check .LeftParen = false := check_false hdrop' (by simp)
    rw [parse_primary, if_neg (by simp [hck])]
    simp only [advance_of hdrop']
    rfl
  | ident x =>
    have hdrop' : st.tokens.drop st.position = ⟨.Identifier, x⟩ :: rest := by
      simpa using hdrop
    have hrest : st.tokens.drop (st.position + 1) = rest := (tok_drop_head hdrop').2.1
    have hck1 : (⟨st.tokens, st.position + 1⟩ : Parser).check .LeftParen = false :=
      check_false hrest hfol
    have hck : st.check .LeftParen = false := check_false hdrop' (by simp)
    rw [parse_primary, if_neg (by simp [hck])]
    simp only [advance_of hdrop']
    rw [if_neg (by simp [hck1])]
    rfl
  | call x tsA args hargs =>
    simp only [List.length_cons, List.length_append, List.length_singleton, List.length_nil] at hfuel
    have hdrop' : st.tokens.drop st.position = ⟨.Identifier, x⟩ ::
        (⟨.LeftParen, "("⟩ :: (tsA ++ (⟨.RightParen, ")"⟩ :: rest))) := by
      simpa using hdrop
    have h1 : st.tokens.drop (st.position + 1)
        = ⟨.LeftParen, "("⟩ :: (tsA ++ (⟨.RightParen, ")"⟩ :: rest)) :=
      (tok_drop_head hdrop').2.1
    have h2 : st.tokens.drop (st.position + 1 + 1) = tsA ++ (⟨.RightParen, ")"⟩ :: rest) :=
      (tok_drop_head h1).2.1
    have hargsEq := (ih f (by omega)).args ⟨st.tokens, st.position + 1 + 1⟩
      (⟨.RightParen, ")"⟩ :: rest) hargs h2 rfl (by omega)
    have h3 : st.tokens.drop (st.position + 1 + 1 + tsA.length)
        = ⟨.RightParen, ")"⟩ :: rest := drop_shift h2
    have hcons := @consume_some ⟨st.tokens, st.position + 1 + 1 + tsA.length⟩ _ _ _
      h3 rfl (by simp)
    have hck : st.check .LeftParen = false := check_false hdrop' (by simp)
    have hck1 : (⟨st.tokens, st.position + 1⟩ : Parser).check .LeftParen = true :=
      check_true h1 rfl (by simp)
    rw [parse_primary, if_neg (by simp [hck])]
    simp only [advance_of hdrop']
    rw [if_pos (by simp [hck1])]
    simp only [@advance_of ⟨st.tokens, st.position + 1⟩ _ _ h1, hargsEq, hcons]
    simp only [Prod.mk.injEq, Parser.mk.injEq, List.length_cons, List.length_append,
      List.length_singleton, List.length_nil, true_and]
    omega
  | paren tsE e hE =>
    simp only [List.length_cons, List.length_append, List.length_singleton, List.length_nil] at hfuel
    have hdrop' : st.tokens.drop st.position
        = ⟨.LeftParen, "("⟩ :: (tsE ++ (⟨.RightParen, ")"⟩ :: rest)) := by
      simpa using hdrop
    have h1 : st.tokens.drop (st.position + 1) = tsE ++ (⟨.RightParen, ")"⟩ :: rest) :=
      (tok_drop_head hdrop').2.1
    have hexprEq := (ih f (by omega)).expr ⟨st.tokens, st.position + 1⟩
      (⟨.RightParen, ")"⟩ :: rest) hE h1
      (follow_expression_of ((⟨.RightParen, ")"⟩ :: rest).headD ⟨.EOF, ""⟩)
        (by simp) (by simp)) (by omega)
    have h2 : st.tokens.drop (st.position + 1 + tsE.length)
        = ⟨.RightParen, ")"⟩ :: rest := drop_shift h1
    have hcons := @consume_some ⟨st.tokens, st.position + 1 + tsE.length⟩ _ _ _
      h2 rfl (by simp)
    have hck : st.check .LeftParen = true := check_true hdrop' rfl (by simp)
    rw [parse_primary, if_pos (by simp [hck])]
    simp only [advance_of hdrop', hexprEq, hcons]
    simp only [Prod.mk.injEq, Parser.mk.injEq, List.length_cons, List.length_append,
      List.length_singleton, List.length_nil, true_and]
    omega

/-- Step lemma for `parse_call_args` on nonempty argument runs. -/
theorem args1_step (fuel : Nat) (ih : ∀ g, g < fuel → Sound g)
    {ts : List Token} {es : List Expression} (st : Parser) (rest : List Token)
    (hd : DArgs1 ts es) (hdrop : st.tokens.drop st.position = ts ++ rest)
    (hrh : (rest.headD ⟨.EOF, ""⟩).token_type = .RightParen)
    (hfuel : 8 * ts.length + 9 ≤ fuel) :
    parse_call_args fuel st = (some es, ⟨st.tokens, st.position + ts.length⟩) := by
  obtain ⟨f, rfl⟩ : ∃ f, fuel = f + 1 := ⟨fuel - 1, by omega⟩
  cases hd with
  | single ts e hE =>
    obtain ⟨t, l, hts, hty⟩ := dexpr_head hE
    have hconsd : st.tokens.drop st.position = t :: (l ++ rest) := by
      rw [hdrop, hts]
      simp
    have hend : st.is_at_end = false := by
      apply at_end_false hconsd
      rcases hty with h | h | h | h | h | h | h <;> rw [h] <;> decide
    have hck : st.check .RightParen = false := by
      apply check_false hconsd
      simp only [List.headD_cons]
      rcases hty with h | h | h | h | h | h | h <;> rw [h] <;> decide
    have hlen1 : 1 ≤ ts.length := by rw [hts]; simp
    have hfolE : follow_expression (rest.headD ⟨.EOF, ""⟩) :=
      follow_expression_of _ (by rw [hrh]; decide) (by rw [hrh]; decide)
    have hexprEq := (ih f (by omega)).expr st rest hE hdrop hfolE (by omega)
    have hdropR : st.tokens.drop (st.position + ts.length) = rest := drop_shift hdrop
    have hckComma : (⟨st.tokens, st.position + ts.length⟩ : Parser).check .Comma
        = false := check_false hdropR (by rw [hrh]; decide)
    have hrecEq := (ih f (by omega)).args ⟨st.tokens, st.position + ts.length⟩ rest
      DArgs.nil (by simpa using hdropR) hrh (by simp only [List.length_nil]; omega)
    rw [parse_call_args, if_pos ⟨by simp [hck], by simp [hend]⟩]
    simp only [hexprEq, hckComma, Bool.false_eq_true, if_false, hrecEq]
    simp only [Prod.mk.injEq, Parser.mk.injEq, List.length_nil, true_and]
    omega
  | cons ts1 ts2 e es h1 h2 =>
    simp only [List.length_append, List.length_cons] at hfuel
    have hdrop' : st.tokens.drop st.position
        = ts1 ++ (⟨.Comma, ","⟩ :: (ts2 ++ rest)) := by simpa using hdrop
    obtain ⟨t, l, hts, hty⟩ := dexpr_head h1
    have hconsd : st.tokens.drop st.position
        = t :: (l ++ (⟨.Comma, ","⟩ :: (ts2 ++ rest))) := by
      rw [hdrop', hts]
      simp
    have hend : st.is_at_end = false := by
      apply at_end_false hconsd
      rcases hty with h | h | h | h | h | h | h <;> rw [h] <;> decide
    have hck : st.check .RightParen = false := by
      apply check_false hconsd
      simp only [List.headD_cons]
      rcases hty with h | h | h | h | h | h | h <;> rw [h] <;> decide
    have hfolE : follow_expression
        ((⟨.Comma, ","⟩ :: (ts2 ++ rest)).headD ⟨.EOF, ""⟩) :=
      follow_expression_of _ (by simp) (by simp)
    have hexprEq := (ih f (by omega)).expr st (⟨.Comma, ","⟩ :: (ts2 ++ rest)) h1
      hdrop' hfolE (by omega)
    have hdrop1 : st.tokens.drop (st.position + ts1.length)
        = ⟨.Comma, ","⟩ :: (ts2 ++ rest) := drop_shift hdrop'
    have hckC : (⟨st.tokens, st.position + ts1.length⟩ : Parser).check .Comma = true :=
      check_true hdrop1 rfl (by decide)
    have hadv := @advance_of ⟨st.tokens, st.position + ts1.length⟩ _ _ hdrop1
    have hdrop2 : st.tokens.drop (st.position + ts1.length + 1) = ts2 ++ rest :=
      (tok_drop_head hdrop1).2.1
    have hrecEq := (ih f (by omega)).args1 ⟨st.tokens, st.position + ts1.length + 1⟩
      rest h2 hdrop2 hrh (by omega)
    rw [parse_call_args, if_pos ⟨by simp [hck], by simp [hend]⟩]
    simp only [hexprEq, hckC, if_true, hadv, hrecEq]
    simp only [Prod.mk.injEq, Parser.mk.injEq, List.length_append, List.length_cons,
      true_and]
    omega

/-- Step lemma for `parse_call_args`. -/
theorem args_step (fuel : Nat) (ih : ∀ g, g < fuel → Sound g)
    {ts : List Token} {es : List Expression} (st : Parser) (rest : List Token)
    (hd : DArgs ts es) (hdrop : st.tokens.drop st.position = ts ++ rest)
    (hrh : (rest.headD ⟨.EOF, ""⟩).token_type = .RightParen)
    (hfuel : 8 * ts.length + 9 ≤ fuel) :
    parse_call_args fuel st = (some es, ⟨st.tokens, st.position + ts.length⟩) := by
  cases hd with
  | nil =>
    obtain ⟨f, rfl⟩ : ∃ f, fuel = f + 1 := ⟨fuel - 1, by omega⟩
    cases rest with
    | nil => simp at hrh
    | cons rp l =>
      simp only [List.headD_cons] at hrh
      have hdrop' : st.tokens.drop st.position = rp :: l := by simpa using hdrop
      have hck : st.check .RightParen = true :=
        check_true hdrop' hrh (by rw [hrh]; decide)
      rw [parse_call_args, if_neg (by simp [hck])]
      rfl
  | of ts es h1 => exact args1_step fuel ih st rest h1 hdrop hrh hfuel

/-- Step lemma for `parse_params` on nonempty parameter runs. -/
theorem params1_step (fuel : Nat) (ih : ∀ g, g < fuel → Sound g)
    {ts : List Token} {ps : List (String × String)} (st : Parser) (rest : List Token)
    (hd : DParams1 ts ps) (hdrop : st.tokens.drop st.position = ts ++ rest)
    (hrh : (rest.headD ⟨.EOF, ""⟩).token_type = .RightParen)
    (hfuel : 8 * ts.length + 16 ≤ fuel) :
    parse_params fuel st = (some ps, ⟨st.tokens, st.position + ts.length⟩) := by
  obtain ⟨f, rfl⟩ : ∃ f, fuel = f + 1 := ⟨fuel - 1, by omega⟩
  cases hd with
  | single x ty =>
    simp only [List.length_cons, List.length_nil] at hfuel
    have hdrop' : st.tokens.drop st.position
        = ⟨.Identifier, x⟩ :: (⟨.Colon, ":"⟩ :: (⟨.Type, ty⟩ :: rest)) := by
      simpa using hdrop
    have hck : st.check .RightParen = false := check_false hdrop' (by simp)
    have hc1 := consume_some hdrop' rfl (by simp)
    have h1 := (tok_drop_head hdrop').2.1
    have hc2 := @consume_some ⟨st.tokens, st.position + 1⟩ _ _ _ h1 rfl (by simp)
    have h2 := (tok_drop_head h1).2.1
    have hc3 := @consume_some ⟨st.tokens, st.position + 1 + 1⟩ _ _ _ h2 rfl (by simp)
    have h3 : st.tokens.drop (st.position + 1 + 1 + 1) = rest := (tok_drop_head h2).2.1
    have hckC : (⟨st.tokens, st.position + 1 + 1 + 1⟩ : Parser).check .Comma = false :=
      check_false h3 (by rw [hrh]; decide)
    have hrecEq := (ih f (by omega)).params ⟨st.tokens, st.position + 1 + 1 + 1⟩ rest
      DParams.nil (by simpa using h3) hrh (by simp only [List.length_nil]; omega)
    rw [parse_params, if_pos (by simp [hck])]
    simp only [hc1, hc2, hc3, hckC, Bool.false_eq_true, if_false, hrecEq]
    simp only [Prod.mk.injEq, Parser.mk.injEq, List.length_cons, List.length_nil,
      true_and]
    all_goals omega
  | cons x ty ts2 ps2 h =>
    simp only [List.length_cons] at hfuel
    have hdrop' : st.tokens.drop st.position
        = ⟨.Identifier, x⟩ :: (⟨.Colon, ":"⟩ :: (⟨.Type, ty⟩ :: (⟨.Comma, ","⟩ ::
          (ts2 ++ rest)))) := by simpa using hdrop
    have hck : st.check .RightParen = false := check_false hdrop' (by simp)
    have hc1 := consume_some hdrop' rfl (by simp)
    have h1 := (tok_drop_head hdrop').2.1
    have hc2 := @consume_some ⟨st.tokens, st.position + 1⟩ _ _ _ h1 rfl (by simp)
    have h2 := (tok_drop_head h1).2.1
    have hc3 := @consume_some ⟨st.tokens, st.position + 1 + 1⟩ _ _ _ h2 rfl (by simp)
    have h3 : st.tokens.drop (st.position + 1 + 1 + 1) = ⟨.Comma, ","⟩ :: (ts2 ++ rest) :=
      (tok_drop_head h2).2.1
    have hckC : (⟨st.tokens, st.position + 1 + 1 + 1⟩ : Parser).check .Comma = true :=
      check_true h3 rfl (by decide)
    have hadv := @advance_of ⟨st.tokens, st.position + 1 + 1 + 1⟩ _ _ h3
    have h4 : st.tokens.drop (st.position + 1 + 1 + 1 + 1) = ts2 ++ rest :=
      (tok_drop_head h3).2.1
    have hrecEq := (ih f (by omega)).params1 ⟨st.tokens, st.position + 1 + 1 + 1 + 1⟩
      rest h h4 hrh (by omega)
    rw [parse_params, if_pos (by simp [hck])]
    simp only [hc1, hc2, hc3, hckC, if_true, hadv, hrecEq]
    simp only [Prod.mk.injEq, Parser.mk.injEq, List.length_cons, true_and]
    omega

/-- Step lemma for `parse_params`. -/
theorem params_step (fuel : Nat) (ih : ∀ g, g < fuel → Sound g)
    {ts : List Token} {ps : List (String × String)} (st : Parser) (rest : List Token)
    (hd : DParams ts ps) (hdrop : st.tokens.drop st.position = ts ++ rest)
    (hrh : (rest.headD ⟨.EOF, ""⟩).token_type = .RightParen)
    (hfuel : 8 * ts.length + 16 ≤ fuel) :
    parse_params fuel st = (some ps, ⟨st.tokens, st.position + ts.length⟩) := by
  cases hd with
  | nil =>
    obtain ⟨f, rfl⟩ : ∃ f, fuel = f + 1 := ⟨fuel - 1, by omega⟩
    cases rest with
    | nil => simp at hrh
    | cons rp l =>
      simp only [List.headD_cons] at hrh
      have hdrop' : st.tokens.drop st.position = rp :: l := by simpa using hdrop
      have hck : st.check .RightParen = true :=
        check_true hdrop' hrh (by rw [hrh]; decide)
      rw [parse_params, if_neg (by simp [hck])]
      rfl
  | of ts ps h1 => exact params1_step fuel ih st rest h1 hdrop hrh hfuel

/-- A switch-item run is empty or starts with the `case` or `default`
keyword. -/
theorem ditems_head {ts : List Token} {its : List (Expression × List Statement)}
    {odflt : Option (List Statement)} (h : DItems ts its odflt) :
    ts = [] ∨ ∃ v l, ts = ⟨.Keyword, v⟩ :: l := by
  cases h with
  | nil => exact Or.inl rfl
  | dflt tsB b hb => exact Or.inr ⟨"default", _, rfl⟩
  | caseCons tsV tsB tsR v b items odflt hv hb hr => exact Or.inr ⟨"case", _, rfl⟩

/-- Step lemma for `parse_block_like`. -/
theorem block_step (fuel : Nat) (ih : ∀ g, g < fuel → Sound g)
    {ts : List Token} {sts : List Statement} (st : Parser) (rest : List Token)
    (hd : DBlock ts sts) (hdrop : st.tokens.drop st.position = ts ++ rest)
    (hrh : (rest.headD ⟨.EOF, ""⟩).token_type = .RightBracket)
    (hfuel : 8 * ts.length + 16 ≤ fuel) :
    parse_block_like fuel st = (some sts, ⟨st.tokens, st.position + ts.length⟩) := by
  obtain ⟨f, rfl⟩ : ∃ f, fuel = f + 1 := ⟨fuel - 1, by omega⟩
  cases hd with
  | nil =>
    cases rest with
    | nil => simp at hrh
    | cons rb l =>
      simp only [List.headD_cons] at hrh
      have hdrop' : st.tokens.drop st.position = rb :: l := by simpa using hdrop
      have hck : st.check .RightBracket = true :=
        check_true hdrop' hrh (by rw [hrh]; decide)
      rw [parse_block_like, if_neg (by simp [hck])]
      rfl
  | cons ts1 ts2 s sts h1 h2 =>
    simp only [List.length_append] at hfuel
    have hdrop' : st.tokens.drop st.position = ts1 ++ (ts2 ++ rest) := by
      simpa using hdrop
    obtain ⟨t, l, hts, hty⟩ := dstmt_head h1
    have hlen1 : 1 ≤ ts1.length := by rw [hts]; simp
    have hconsd : st.tokens.drop st.position = t :: (l ++ (ts2 ++ rest)) := by
      rw [hdrop', hts]
      simp
    have hend : st.is_at_end = false := by
      apply at_end_false hconsd
      rcases hty with h | h <;> rw [h] <;> decide
    have hck : st.check .RightBracket = false := by
      apply check_false hconsd
      simp only [List.headD_cons]
      rcases hty with h | h <;> rw [h] <;> decide
    have hstmtEq := (ih f (by omega)).stmt st (ts2 ++ rest) h1 hdrop' (by omega)
    have hdrop2 : st.tokens.drop (st.position + ts1.length) = ts2 ++ rest :=
      drop_shift hdrop'
    have hrecEq := (ih f (by omega)).block ⟨st.tokens, st.position + ts1.length⟩ rest
      h2 hdrop2 hrh (by omega)
    rw [parse_block_like, if_pos ⟨by simp [hck], by simp [hend]⟩]
    simp only [hstmtEq, hrecEq]
    simp only [Prod.mk.injEq, Parser.mk.injEq, List.length_append, true_and]
    all_goals omega

/-- Step lemma for `parse_switch_items`. -/
theorem items_step (fuel : Nat) (ih : ∀ g, g < fuel → Sound g)
    {ts : List Token} {its : List (Expression × List Statement)}
    {odflt : Option (List Statement)} (st : Parser) (rest : List Token)
    (acc : List (Expression × List Statement)) (dflt : Option (List Statement))
    (hd : DItems ts its odflt) (hdrop : st.tokens.drop st.position = ts ++ rest)
    (hrh : (rest.headD ⟨.EOF, ""⟩).token_type = .RightBracket)
    (hfuel : 8 * ts.length + 16 ≤ fuel) :
    parse_switch_items fuel st acc dflt
      = (some (acc ++ its, odflt.elim dflt some), ⟨st.tokens, st.position + ts.length⟩) := by
  obtain ⟨f, rfl⟩ : ∃ f, fuel = f + 1 := ⟨fuel - 1, by omega⟩
  cases hd with
  | nil =>
    cases rest with
    | nil => simp at hrh
    | cons rb l =>
      simp only [List.headD_cons] at hrh
      have hdrop' : st.tokens.drop st.position = rb :: l := by simpa using hdrop
      have hck : st.check .RightBracket = true :=
        check_true hdrop' hrh (by rw [hrh]; decide)
      rw [parse_switch_items, if_neg (by simp [hck])]
      simp [Option.elim]
  | dflt tsB b hb =>
    simp only [List.length_cons, List.length_append, List.length_singleton,
      List.length_nil] at hfuel
    have hdrop' : st.tokens.drop st.position = ⟨.Keyword, "default"⟩ ::
        (⟨.LeftBracket, "\x7b"⟩ :: (tsB ++ (⟨.RightBracket, "\x7d"⟩ :: rest))) := by
      simpa using hdrop
    have hend := at_end_false hdrop' (by decide)
    have hck : st.check .RightBracket = false := check_false hdrop' (by simp)
    have hkwCase : st.is_keyword "case" = false := is_keyword_false hdrop' (by simp)
    have hkwDflt : st.is_keyword "default" = true := is_keyword_true hdrop' rfl rfl
    have hadv := advance_of hdrop'
    have h1 := (tok_drop_head hdrop').2.1
    have hc1 := @consume_some ⟨st.tokens, st.position + 1⟩ _ _ _ h1 rfl (by simp)
    have h2 : st.tokens.drop (st.position + 1 + 1)
        = tsB ++ (⟨.RightBracket, "\x7d"⟩ :: rest) := (tok_drop_head h1).2.1
    have hblockEq := (ih f (by omega)).block ⟨st.tokens, st.position + 1 + 1⟩
      (⟨.RightBracket, "\x7d"⟩ :: rest) hb h2 rfl (by omega)
    have h3 : st.tokens.drop (st.position + 1 + 1 + tsB.length)
        = ⟨.RightBracket, "\x7d"⟩ :: rest := drop_shift h2
    have hc2 := @consume_some ⟨st.tokens, st.position + 1 + 1 + tsB.length⟩ _ _ _
      h3 rfl (by simp)
    have h4 : st.tokens.drop (st.position + 1 + 1 + tsB.length + 1) = rest :=
      (tok_drop_head h3).2.1
    have hckC : (⟨st.tokens, st.position + 1 + 1 + tsB.length + 1⟩ : Parser).check .Comma
        = false := check_false h4 (by rw [hrh]; decide)
    have hrecEq := (ih f (by omega)).items
      ⟨st.tokens, st.position + 1 + 1 + tsB.length + 1⟩ rest acc (some b)
      DItems.nil (by simpa using h4) hrh (by simp only [List.length_nil]; omega)
    rw [parse_switch_items, if_pos ⟨by simp [hck], by simp [hend]⟩,
      if_neg (by simp [hkwCase]), if_pos (by simp [hkwDflt])]
    simp only [hadv, hc1, hblockEq, hc2, hckC, Bool.false_eq_true, if_false, hrecEq]
    simp only [Prod.mk.injEq, Parser.mk.injEq, List.length_cons, List.length_append,
      List.length_singleton, List.length_nil, List.append_nil, Option.elim, true_and]
    all_goals omega
  | caseCons tsV tsB tsR v b items odflt hv hb hr =>
    simp only [List.length_cons, List.length_append] at hfuel
    have hdrop' : st.tokens.drop st.position = ⟨.Keyword, "case"⟩ ::
        (tsV ++ (⟨.LeftBracket, "\x7b"⟩ :: (tsB ++ (⟨.RightBracket, "\x7d"⟩ ::
          (tsR ++ rest))))) := by simpa using hdrop
    obtain ⟨tv, lv, htsv, htyv⟩ := dexpr_head hv
    have hlenV : 1 ≤ tsV.length := by rw [htsv]; simp
    have hend := at_end_false hdrop' (by decide)
    have hck : st.check .RightBracket = false := check_false hdrop' (by simp)
    have hkwCase : st.is_keyword "case" = true := is_keyword_true hdrop' rfl rfl
    have hadv := advance_of hdrop'
    have h1 : st.tokens.drop (st.position + 1)
        = tsV ++ (⟨.LeftBracket, "\x7b"⟩ :: (tsB ++ (⟨.RightBracket, "\x7d"⟩ ::
          (tsR ++ rest)))) := (tok_drop_head hdrop').2.1
    have hexprEq := (ih f (by omega)).expr ⟨st.tokens, st.position + 1⟩
      (⟨.LeftBracket, "\x7b"⟩ :: (tsB ++ (⟨.RightBracket, "\x7d"⟩ :: (tsR ++ rest)))) hv h1
      (follow_expression_of _ (by simp) (by simp)) (by omega)
    have h2 : st.tokens.drop (st.position + 1 + tsV.length)
        = ⟨.LeftBracket, "\x7b"⟩ :: (tsB ++ (⟨.RightBracket, "\x7d"⟩ :: (tsR ++ rest))) :=
      drop_shift h1
    have hc1 := @consume_some ⟨st.tokens, st.position + 1 + tsV.length⟩ _ _ _ h2 rfl
      (by simp)
    have h3 : st.tokens.drop (st.position + 1 + tsV.length + 1)
        = tsB ++ (⟨.RightBracket, "\x7d"⟩ :: (tsR ++ rest)) := (tok_drop_head h2).2.1
    have hblockEq := (ih f (by omega)).block
      ⟨st.tokens, st.position + 1 + tsV.length + 1⟩
      (⟨.RightBracket, "\x7d"⟩ :: (tsR ++ rest)) hb h3 rfl (by omega)
    have h4 : st.tokens.drop (st.position + 1 + tsV.length + 1 + tsB.length)
        = ⟨.RightBracket, "\x7d"⟩ :: (tsR ++ rest) := drop_shift h3
    have hc2 := @consume_some ⟨st.tokens,
      st.position + 1 + tsV.length + 1 + tsB.length⟩ _ _ _ h4 rfl (by simp)
    have h5 : st.tokens.drop (st.position + 1 + tsV.length + 1 + tsB.length + 1)
        = tsR ++ rest := (tok_drop_head h4).2.1
    have hckC : (⟨st.tokens, st.position + 1 + tsV.length + 1 + tsB.length + 1⟩ :
        Parser).check .Comma = false := by
      apply check_false h5
      rcases ditems_head hr with h | ⟨v2, l2, h⟩
      · subst h
        simp only [List.nil_append]
        rw [hrh]
        decide
      · rw [h]
        simp
    have hrecEq := (ih f (by omega)).items
      ⟨st.tokens, st.position + 1 + tsV.length + 1 + tsB.length + 1⟩ rest
      (acc ++ [(v, b)]) dflt hr h5 hrh (by omega)
    rw [parse_switch_items, if_pos ⟨by simp [hck], by simp [hend]⟩,
      if_pos (by simp [hkwCase])]
    simp only [hadv, hexprEq, hc1, hblockEq, hc2, hckC, Bool.false_eq_true, if_false,
      hrecEq]
    simp only [Prod.mk.injEq, Parser.mk.injEq, List.length_cons, List.length_append,
      List.append_assoc, List.cons_append, List.nil_append, List.singleton_append,
      true_and]
    all_goals omega

/-- Dispatch of a `let` declaration without initializer. -/
theorem stmt_varDeclNone_step (fuel : Nat) (x ty : String) (st : Parser)
    (rest : List Token)
    (hdrop : st.tokens.drop st.position = [⟨.Keyword, "let"⟩, ⟨.Identifier, x⟩,
      ⟨.Colon, ":"⟩, ⟨.Type, ty⟩, ⟨.Semicolon, ";"⟩] ++ rest)
    (hfuel : 55 ≤ fuel) :
    parse_statement fuel st
      = (some (.varDeclaration x ty none), ⟨st.tokens, st.position + 5⟩) := by
  obtain ⟨f, rfl⟩ : ∃ f, fuel = f + 1 := ⟨fuel - 1, by omega⟩
  have hdrop' : st.tokens.drop st.position = ⟨.Keyword, "let"⟩ :: (⟨.Identifier, x⟩ ::
      (⟨.Colon, ":"⟩ :: (⟨.Type, ty⟩ :: (⟨.Semicolon, ";"⟩ :: rest)))) := by
    simpa using hdrop
  have hkwLet : st.is_keyword "let" = true := is_keyword_true hdrop' rfl rfl
  have h1 := (tok_drop_head hdrop').2.1
  have h2 := (tok_drop_head h1).2.1
  have h3 := (tok_drop_head h2).2.1
  have h4 := (tok_drop_head h3).2.1
  have hvd : parse_var_decl f st = (some (x, ty, none), ⟨st.tokens, st.position + 5⟩) := by
    obtain ⟨g, rfl⟩ : ∃ g, f = g + 1 := ⟨f - 1, by omega⟩
    have hc1 := consume_keyword_some hdrop' rfl rfl
    have hc2 := @consume_some ⟨st.tokens, st.position + 1⟩ _ _ _ h1 rfl (by simp)
    have hc3 := @consume_some ⟨st.tokens, st.position + 1 + 1⟩ _ _ _ h2 rfl (by simp)
    have hc4 := @consume_some ⟨st.tokens, st.position + 1 + 1 + 1⟩ _ _ _ h3 rfl (by simp)
    have hckEq : (⟨st.tokens, st.position + 1 + 1 + 1 + 1⟩ : Parser).check .Equals
        = false := check_false h4 (by simp)
    have hc5 := @consume_some ⟨st.tokens, st.position + 1 + 1 + 1 + 1⟩ _ _ _ h4 rfl
      (by simp)
    rw [parse_var_decl]
    simp only [hc1, hc2, hc3, hc4, hckEq, Bool.false_eq_true, if_false, hc5]
  rw [parse_statement, if_pos (by simp [hkwLet])]
  simp only [hvd]

/-- Dispatch of a `let` declaration with initializer. -/
theorem stmt_varDeclInit_step (fuel : Nat) (ih : ∀ g, g < fuel → Sound g)
    (x ty : String) (tsE : List Token) (e : Expression) (st : Parser)
    (rest : List Token) (hE : DExpr tsE e)
    (hdrop : st.tokens.drop st.position = (⟨.Keyword, "let"⟩ :: ⟨.Identifier, x⟩ ::
      ⟨.Colon, ":"⟩ :: ⟨.Type, ty⟩ :: ⟨.Equals, "="⟩ :: tsE ++ [⟨.Semicolon, ";"⟩]) ++ rest)
    (hfuel : 8 * tsE.length + 63 ≤ fuel) :
    parse_statement fuel st = (some (.varDeclaration x ty (some e)),
      ⟨st.tokens, st.position + (6 + tsE.length)⟩) := by
  obtain ⟨f, rfl⟩ : ∃ f, fuel = f + 1 := ⟨fuel - 1, by omega⟩
  have hdrop' : st.tokens.drop st.position = ⟨.Keyword, "let"⟩ :: (⟨.Identifier, x⟩ ::
      (⟨.Colon, ":"⟩ :: (⟨.Type, ty⟩ :: (⟨.Equals, "="⟩ ::
        (tsE ++ (⟨.Semicolon, ";"⟩ :: rest)))))) := by
    simpa using hdrop
  have hkwLet : st.is_keyword "let" = true := is_keyword_true hdrop' rfl rfl
  have h1 := (tok_drop_head hdrop').2.1
  have h2 := (tok_drop_head h1).2.1
  have h3 := (tok_drop_head h2).2.1
  have h4 := (tok_drop_head h3).2.1
  have h5 : st.tokens.drop (st.position + 1 + 1 + 1 + 1 + 1)
      = tsE ++ (⟨.Semicolon, ";"⟩ :: rest) := (tok_drop_head h4).2.1
  have hvd : parse_var_decl f st
      = (some (x, ty, some e), ⟨st.tokens, st.position + 1 + 1 + 1 + 1 + 1 + tsE.length + 1⟩) := by
    obtain ⟨g, rfl⟩ : ∃ g, f = g + 1 := ⟨f - 1, by omega⟩
    have hc1 := consume_keyword_some hdrop' rfl rfl
    have hc2 := @consume_some ⟨st.tokens, st.position + 1⟩ _ _ _ h1 rfl (by simp)
    have hc3 := @consume_some ⟨st.tokens, st.position + 1 + 1⟩ _ _ _ h2 rfl (by simp)
    have hc4 := @consume_some ⟨st.tokens, st.position + 1 + 1 + 1⟩ _ _ _ h3 rfl (by simp)
    have hckEq : (⟨st.tokens, st.position + 1 + 1 + 1 + 1⟩ : Parser).check .Equals
        = true := check_true h4 rfl (by decide)
    have hadv := @advance_of ⟨st.tokens, st.position + 1 + 1 + 1 + 1⟩ _ _ h4
    have hexprEq := (ih g (by omega)).expr ⟨st.tokens, st.position + 1 + 1 + 1 + 1 + 1⟩
      (⟨.Semicolon, ";"⟩ :: rest) hE h5
      (follow_expression_of _ (by simp) (by simp)) (by omega)
    have h6 : st.tokens.drop (st.position + 1 + 1 + 1 + 1 + 1 + tsE.length)
        = ⟨.Semicolon, ";"⟩ :: rest := drop_shift h5
    have hc5 := @consume_some ⟨st.tokens, st.position + 1 + 1 + 1 + 1 + 1 + tsE.length⟩
      _ _ _ h6 rfl (by simp)
    rw [parse_var_decl]
    simp only [hc1, hc2, hc3, hc4, hckEq, if_true, hadv, hexprEq, hc5]
  rw [parse_statement, if_pos (by simp [hkwLet])]
  simp only [hvd]
  simp only [Prod.mk.injEq, Parser.mk.injEq, true_and]
  all_goals omega

/-- Dispatch of an empty `return`. -/
theorem stmt_retNone_step (fuel : Nat) (st : Parser) (rest : List Token)
    (hdrop : st.tokens.drop st.position
      = [⟨.Keyword, "return"⟩, ⟨.Semicolon, ";"⟩] ++ rest)
    (hfuel : 31 ≤ fuel) :
    parse_statement fuel st = (some (.ret none), ⟨st.tokens, st.position + 2⟩) := by
  obtain ⟨f, rfl⟩ : ∃ f, fuel = f + 1 := ⟨fuel - 1, by omega⟩
  have hdrop' : st.tokens.drop st.position
      = ⟨.Keyword, "return"⟩ :: (⟨.Semicolon, ";"⟩ :: rest) := by simpa using hdrop
  have hkwLet : st.is_keyword "let" = false := is_keyword_false hdrop' (by simp)
  have hkwRet : st.is_keyword "return" = true := is_keyword_true hdrop' rfl rfl
  have h1 := (tok_drop_head hdrop').2.1
  have hret : parse_return_stmt f st
      = (some (.ret none), ⟨st.tokens, st.position + 1 + 1⟩) := by
    obtain ⟨g, rfl⟩ : ∃ g, f = g + 1 := ⟨f - 1, by omega⟩
    have hc1 := consume_keyword_some hdrop' rfl rfl
    have hckS : (⟨st.tokens, st.position + 1⟩ : Parser).check .Semicolon = true :=
      check_true h1 rfl (by decide)
    have hc2 := @consume_some ⟨st.tokens, st.position + 1⟩ _ _ _ h1 rfl (by simp)
    rw [parse_return_stmt]
    simp only [hc1, hckS, if_true, hc2]
  rw [parse_statement, if_neg (by simp [hkwLet]), if_pos (by simp [hkwRet])]
  simp only [hret]

/-- Dispatch of a `return` with a value. -/
theorem stmt_retSome_step (fuel : Nat) (ih : ∀ g, g < fuel → Sound g)
    (tsE : List Token) (e : Expression) (st : Parser) (rest : List Token)
    (hE : DExpr tsE e)
    (hdrop : st.tokens.drop st.position
      = (⟨.Keyword, "return"⟩ :: tsE ++ [⟨.Semicolon, ";"⟩]) ++ rest)
    (hfuel : 8 * tsE.length + 31 ≤ fuel) :
    parse_statement fuel st
      = (some (.ret (some e)), ⟨st.tokens, st.position + (2 + tsE.length)⟩) := by
  obtain ⟨f, rfl⟩ : ∃ f, fuel = f + 1 := ⟨fuel - 1, by omega⟩
  have hdrop' : st.tokens.drop st.position
      = ⟨.Keyword, "return"⟩ :: (tsE ++ (⟨.Semicolon, ";"⟩ :: rest)) := by
    simpa using hdrop
  have hkwLet : st.is_keyword "let" = false := is_keyword_false hdrop' (by simp)
  have hkwRet : st.is_keyword "return" = true := is_keyword_true hdrop' rfl rfl
  have h1 : st.tokens.drop (st.position + 1) = tsE ++ (⟨.Semicolon, ";"⟩ :: rest) :=
    (tok_drop_head hdrop').2.1
  obtain ⟨t, l, hts, hty⟩ := dexpr_head hE
  have hret : parse_return_stmt f st
      = (some (.ret (some e)), ⟨st.tokens, st.position + 1 + tsE.length + 1⟩) := by
    obtain ⟨g, rfl⟩ : ∃ g, f = g + 1 := ⟨f - 1, by omega⟩
    have hc1 := consume_keyword_some hdrop' rfl rfl
    have hconsd : st.tokens.drop (st.position + 1)
        = t :: (l ++ (⟨.Semicolon, ";"⟩ :: rest)) := by
      rw [h1, hts]
      simp
    have hckS : (⟨st.tokens, st.position + 1⟩ : Parser).check .Semicolon = false := by
      apply check_false hconsd
      simp only [List.headD_cons]
      rcases hty with h | h | h | h | h | h | h <;> rw [h] <;> decide
    have hexprEq := (ih g (by omega)).expr ⟨st.tokens, st.position + 1⟩
      (⟨.Semicolon, ";"⟩ :: rest) hE h1
      (follow_expression_of _ (by simp) (by simp)) (by omega)
    have h2 : st.tokens.drop (st.position + 1 + tsE.length)
        = ⟨.Semicolon, ";"⟩ :: rest := drop_shift h1
    have hc2 := @consume_some ⟨st.tokens, st.position + 1 + tsE.length⟩ _ _ _ h2 rfl
      (by simp)
    rw [parse_return_stmt]
    simp only [hc1, hckS, Bool.false_eq_true, if_false, hexprEq, hc2]
  rw [parse_statement, if_neg (by simp [hkwLet]), if_pos (by simp [hkwRet])]
  simp only [hret]
  simp only [Prod.mk.injEq, Parser.mk.injEq, true_and]
  all_goals omega

/-- Dispatch of a variable assignment. -/
theorem stmt_varAff_step (fuel : Nat) (ih : ∀ g, g < fuel → Sound g)
    (x : String) (tsE : List Token) (e : Expression) (st : Parser)
    (rest : List Token) (hE : DExpr tsE e)
    (hdrop : st.tokens.drop st.position = (⟨.Identifier, x⟩ :: ⟨.Equals, "="⟩ ::
      tsE ++ [⟨.Semicolon, ";"⟩]) ++ rest)
    (hfuel : 8 * tsE.length + 39 ≤ fuel) :
    parse_statement fuel st
      = (some (.varAffection x e), ⟨st.tokens, st.position + (3 + tsE.length)⟩) := by
  obtain ⟨f, rfl⟩ : ∃ f, fuel = f + 1 := ⟨fuel - 1, by omega⟩
  have hdrop' : st.tokens.drop st.position = ⟨.Identifier, x⟩ :: (⟨.Equals, "="⟩ ::
      (tsE ++ (⟨.Semicolon, ";"⟩ :: rest))) := by simpa using hdrop
  have hkwLet : st.is_keyword "let" = false := is_keyword_false hdrop' (by simp)
  have hkwRet : st.is_keyword "return" = false := is_keyword_false hdrop' (by simp)
  have hiva : is_var_affection st = true := is_var_affection_true hdrop' rfl rfl
  have h1 := (tok_drop_head hdrop').2.1
  have h2 : st.tokens.drop (st.position + 1 + 1) = tsE ++ (⟨.Semicolon, ";"⟩ :: rest) :=
    (tok_drop_head h1).2.1
  have hva : parse_var_affection f st
      = (some (x, e), ⟨st.tokens, st.position + 1 + 1 + tsE.length + 1⟩) := by
    obtain ⟨g, rfl⟩ : ∃ g, f = g + 1 := ⟨f - 1, by omega⟩
    have hc1 := consume_some hdrop' rfl (by simp)
    have hc2 := @consume_some ⟨st.tokens, st.position + 1⟩ _ _ _ h1 rfl (by simp)
    have hexprEq := (ih g (by omega)).expr ⟨st.tokens, st.position + 1 + 1⟩
      (⟨.Semicolon, ";"⟩ :: rest) hE h2
      (follow_expression_of _ (by simp) (by simp)) (by omega)
    have h3 : st.tokens.drop (st.position + 1 + 1 + tsE.length)
        = ⟨.Semicolon, ";"⟩ :: rest := drop_shift h2
    have hc3 := @consume_some ⟨st.tokens, st.position + 1 + 1 + tsE.length⟩ _ _ _ h3
      rfl (by simp)
    rw [parse_var_affection]
    simp only [hc1, hc2, hexprEq, hc3]
  rw [parse_statement, if_neg (by simp [hkwLet]), if_neg (by simp [hkwRet]),
    if_pos (by simp [hiva])]
  simp only [hva]
  simp only [Prod.mk.injEq, Parser.mk.injEq, true_and]
  all_goals omega

/-- Dispatch of an if statement without else branch, including the trailing
semicolon the dispatcher consumes. -/
theorem stmt_ifNoElse_step (fuel : Nat) (ih : ∀ g, g < fuel → Sound g)
    (tsC tsB : List Token) (cond : Expression) (thn : List Statement) (st : Parser)
    (rest : List Token) (hC : DExpr tsC cond) (hB : DBlock tsB thn)
    (hdrop : st.tokens.drop st.position = (⟨.Keyword, "if"⟩ :: ⟨.LeftParen, "("⟩ ::
      tsC ++ ⟨.RightParen, ")"⟩ :: ⟨.LeftBracket, "\x7b"⟩ :: tsB ++
      [⟨.RightBracket, "\x7d"⟩, ⟨.Semicolon, ";"⟩]) ++ rest)
    (hfuel : 8 * (tsC.length + tsB.length) + 63 ≤ fuel) :
    parse_statement fuel st = (some (.ifS cond thn none),
      ⟨st.tokens, st.position + (6 + tsC.length + tsB.length)⟩) := by
  obtain ⟨f, rfl⟩ : ∃ f, fuel = f + 1 := ⟨fuel - 1, by omega⟩
  have hdrop' : st.tokens.drop st.position = ⟨.Keyword, "if"⟩ :: (⟨.LeftParen, "("⟩ ::
      (tsC ++ (⟨.RightParen, ")"⟩ :: (⟨.LeftBracket, "\x7b"⟩ :: (tsB ++
        (⟨.RightBracket, "\x7d"⟩ :: (⟨.Semicolon, ";"⟩ :: rest))))))) := by
    simpa using hdrop
  have hkwLet : st.is_keyword "let" = false := is_keyword_false hdrop' (by simp)
  have hkwRet : st.is_keyword "return" = false := is_keyword_false hdrop' (by simp)
  have hiva : is_var_affection st = false := is_var_affection_false1 hdrop' (by simp)
  have hkwIf : st.is_keyword "if" = true := is_keyword_true hdrop' rfl rfl
  have h1 := (tok_drop_head hdrop').2.1
  have h2 : st.tokens.drop (st.position + 1 + 1) = tsC ++ (⟨.RightParen, ")"⟩ ::
      (⟨.LeftBracket, "\x7b"⟩ :: (tsB ++ (⟨.RightBracket, "\x7d"⟩ ::
        (⟨.Semicolon, ";"⟩ :: rest))))) := (tok_drop_head h1).2.1
  have h3 : st.tokens.drop (st.position + 1 + 1 + tsC.length) = ⟨.RightParen, ")"⟩ ::
      (⟨.LeftBracket, "\x7b"⟩ :: (tsB ++ (⟨.RightBracket, "\x7d"⟩ ::
        (⟨.Semicolon, ";"⟩ :: rest)))) := drop_shift h2
  have h4 := (tok_drop_head h3).2.1
  have h5 : st.tokens.drop (st.position + 1 + 1 + tsC.length + 1 + 1)
      = tsB ++ (⟨.RightBracket, "\x7d"⟩ :: (⟨.Semicolon, ";"⟩ :: rest)) :=
    (tok_drop_head h4).2.1
  have h6 : st.tokens.drop (st.position + 1 + 1 + tsC.length + 1 + 1 + tsB.length)
      = ⟨.RightBracket, "\x7d"⟩ :: (⟨.Semicolon, ";"⟩ :: rest) := drop_shift h5
  have h7 : st.tokens.drop (st.position + 1 + 1 + tsC.length + 1 + 1 + tsB.length + 1)
      = ⟨.Semicolon, ";"⟩ :: rest := (tok_drop_head h6).2.1
  have hif : parse_if_stmt f st = (some (cond, thn, none),
      ⟨st.tokens, st.position + 1 + 1 + tsC.length + 1 + 1 + tsB.length + 1⟩) := by
    obtain ⟨g, rfl⟩ : ∃ g, f = g + 1 := ⟨f - 1, by omega⟩
    have hc1 := consume_keyword_some hdrop' rfl rfl
    have hc2 := @consume_some ⟨st.tokens, st.position + 1⟩ _ _ _ h1 rfl (by simp)
    have hexprEq := (ih g (by omega)).expr ⟨st.tokens, st.position + 1 + 1⟩ _ hC h2
      (follow_expression_of _ (by simp) (by simp)) (by omega)
    have hc3 := @consume_some ⟨st.tokens, st.position + 1 + 1 + tsC.length⟩ _ _ _ h3
      rfl (by simp)
    have hc4 := @consume_some ⟨st.tokens, st.position + 1 + 1 + tsC.length + 1⟩ _ _ _
      h4 rfl (by simp)
    have hblockEq := (ih g (by omega)).block
      ⟨st.tokens, st.position + 1 + 1 + tsC.length + 1 + 1⟩ _ hB h5 rfl (by omega)
    have hc5 := @consume_some
      ⟨st.tokens, st.position + 1 + 1 + tsC.length + 1 + 1 + tsB.length⟩ _ _ _ h6 rfl
      (by simp)
    have hkwElse : (⟨st.tokens,
        st.position + 1 + 1 + tsC.length + 1 + 1 + tsB.length + 1⟩ : Parser).is_keyword
        "else" = false := is_keyword_false h7 (by simp)
    rw [parse_if_stmt]
    simp only [hc1, hc2, hexprEq, hc3, hc4, hblockEq, hc5, hkwElse,
      Bool.false_eq_true, if_false]
  have hc6 := @consume_some
    ⟨st.tokens, st.position + 1 + 1 + tsC.length + 1 + 1 + tsB.length + 1⟩ _ _ _ h7
    rfl (by simp)
  rw [parse_statement, if_neg (by simp [hkwLet]), if_neg (by simp [hkwRet]),
    if_neg (by simp [hiva]), if_pos (by simp [hkwIf])]
  simp only [hif, hc6]
  simp only [Prod.mk.injEq, Parser.mk.injEq, true_and]
  all_goals omega

/-- Dispatch of an if statement with an else branch, including the trailing
semicolon the dispatcher consumes. -/
theorem stmt_ifElse_step (fuel : Nat) (ih : ∀ g, g < fuel → Sound g)
    (tsC tsB tsE : List Token) (cond : Expression) (thn els : List Statement)
    (st : Parser) (rest : List Token) (hC : DExpr tsC cond) (hB : DBlock tsB thn)
    (hE : DBlock tsE els)
    (hdrop : st.tokens.drop st.position = (⟨.Keyword, "if"⟩ :: ⟨.LeftParen, "("⟩ ::
      tsC ++ ⟨.RightParen, ")"⟩ :: ⟨.LeftBracket, "\x7b"⟩ :: tsB ++
      ⟨.RightBracket, "\x7d"⟩ :: ⟨.Keyword, "else"⟩ :: ⟨.LeftBracket, "\x7b"⟩ :: tsE ++
      [⟨.RightBracket, "\x7d"⟩, ⟨.Semicolon, ";"⟩]) ++ rest)
    (hfuel : 8 * (tsC.length + tsB.length + tsE.length) + 87 ≤ fuel) :
    parse_statement fuel st = (some (.ifS cond thn (some els)),
      ⟨st.tokens, st.position + (9 + tsC.length + tsB.length + tsE.length)⟩) := by
  obtain ⟨f, rfl⟩ : ∃ f, fuel = f + 1 := ⟨fuel - 1, by omega⟩
  have hdrop' : st.tokens.drop st.position = ⟨.Keyword, "if"⟩ :: (⟨.LeftParen, "("⟩ ::
      (tsC ++ (⟨.RightParen, ")"⟩ :: (⟨.LeftBracket, "\x7b"⟩ :: (tsB ++
        (⟨.RightBracket, "\x7d"⟩ :: (⟨.Keyword, "else"⟩ :: (⟨.LeftBracket, "\x7b"⟩ ::
          (tsE ++ (⟨.RightBracket, "\x7d"⟩ :: (⟨.Semicolon, ";"⟩ :: rest))))))))))) := by
    simpa using hdrop
  have hkwLet : st.is_keyword "let" = false := is_keyword_false hdrop' (by simp)
  have hkwRet : st.is_keyword "return" = false := is_keyword_false hdrop' (by simp)
  have hiva : is_var_affection st = false := is_var_affection_false1 hdrop' (by simp)
  have hkwIf : st.is_keyword "if" = true := is_keyword_true hdrop' rfl rfl
  have h1 := (tok_drop_head hdrop').2.1
  have h2 : st.tokens.drop (st.position + 1 + 1) = tsC ++ (⟨.RightParen, ")"⟩ ::
      (⟨.LeftBracket, "\x7b"⟩ :: (tsB ++ (⟨.RightBracket, "\x7d"⟩ ::
        (⟨.Keyword, "else"⟩ :: (⟨.LeftBracket, "\x7b"⟩ :: (tsE ++
          (⟨.RightBracket, "\x7d"⟩ :: (⟨.Semicolon, ";"⟩ :: rest))))))))) :=
    (tok_drop_head h1).2.1
  have h3 := drop_shift h2
  have h4 := (tok_drop_head h3).2.1
  have h5 : st.tokens.drop (st.position + 1 + 1 + tsC.length + 1 + 1)
      = tsB ++ (⟨.RightBracket, "\x7d"⟩ :: (⟨.Keyword, "else"⟩ ::
        (⟨.LeftBracket, "\x7b"⟩ :: (tsE ++ (⟨.RightBracket, "\x7d"⟩ ::
          (⟨.Semicolon, ";"⟩ :: rest)))))) := (tok_drop_head h4).2.1
  have h6 := drop_shift h5
  have h7 : st.tokens.drop
      (st.position + 1 + 1 + tsC.length + 1 + 1 + tsB.length + 1)
      = ⟨.Keyword, "else"⟩ :: (⟨.LeftBracket, "\x7b"⟩ :: (tsE ++
        (⟨.RightBracket, "\x7d"⟩ :: (⟨.Semicolon, ";"⟩ :: rest)))) :=
    (tok_drop_head h6).2.1
  have h8 := (tok_drop_head h7).2.1
  have h9 : st.tokens.drop
      (st.position + 1 + 1 + tsC.length + 1 + 1 + tsB.length + 1 + 1 + 1)
      = tsE ++ (⟨.RightBracket, "\x7d"⟩ :: (⟨.Semicolon, ";"⟩ :: rest)) :=
    (tok_drop_head h8).2.1
  have h10 := drop_shift h9
  have h11 : st.tokens.drop
      (st.position + 1 + 1 + tsC.length + 1 + 1 + tsB.length + 1 + 1 + 1
        + tsE.length + 1) = ⟨.Semicolon, ";"⟩ :: rest := (tok_drop_head h10).2.1
  have hif : parse_if_stmt f st = (some (cond, thn, some els),
      ⟨st.tokens, st.position + 1 + 1 + tsC.length + 1 + 1 + tsB.length + 1 + 1 + 1
        + tsE.length + 1⟩) := by
    obtain ⟨g, rfl⟩ : ∃ g, f = g + 1 := ⟨f - 1, by omega⟩
    have hc1 := consume_keyword_some hdrop' rfl rfl
    have hc2 := @consume_some ⟨st.tokens, st.position + 1⟩ _ _ _ h1 rfl (by simp)
    have hexprEq := (ih g (by omega)).expr ⟨st.tokens, st.position + 1 + 1⟩ _ hC h2
      (follow_expression_of _ (by simp) (by simp)) (by omega)
    have hc3 := @consume_some ⟨st.tokens, st.position + 1 + 1 + tsC.length⟩ _ _ _ h3
      rfl (by simp)
    have hc4 := @consume_some ⟨st.tokens, st.position + 1 + 1 + tsC.length + 1⟩ _ _ _
      h4 rfl (by simp)
    have hblockEq := (ih g (by omega)).block
      ⟨st.tokens, st.position + 1 + 1 + tsC.length + 1 + 1⟩ _ hB h5 rfl (by omega)
    have hc5 := @consume_some
      ⟨st.tokens, st.position + 1 + 1 + tsC.length + 1 + 1 + tsB.length⟩ _ _ _ h6 rfl
      (by simp)
    have hkwElse : (⟨st.tokens,
        st.position + 1 + 1 + tsC.length + 1 + 1 + tsB.length + 1⟩ : Parser).is_keyword
        "else" = true := is_keyword_true h7 rfl rfl
    have hadv := @advance_of
      ⟨st.tokens, st.position + 1 + 1 + tsC.length + 1 + 1 + tsB.length + 1⟩ _ _ h7
    have hc6 := @consume_some
      ⟨st.tokens, st.position + 1 + 1 + tsC.length + 1 + 1 + tsB.length + 1 + 1⟩ _ _ _
      h8 rfl (by simp)
    have hblockEq2 := (ih g (by omega)).block
      ⟨st.tokens, st.position + 1 + 1 + tsC.length + 1 + 1 + tsB.length + 1 + 1 + 1⟩
      _ hE h9 rfl (by omega)
    have hc7 := @consume_some ⟨st.tokens,
      st.position + 1 + 1 + tsC.length + 1 + 1 + tsB.length + 1 + 1 + 1 + tsE.length⟩
      _ _ _ h10 rfl (by simp)
    rw [parse_if_stmt]
    simp only [hc1, hc2, hexprEq, hc3, hc4, hblockEq, hc5, hkwElse, if_true, hadv,
      hc6, hblockEq2, hc7]
  have hc8 := @consume_some ⟨st.tokens,
    st.position + 1 + 1 + tsC.length + 1 + 1 + tsB.length + 1 + 1 + 1 + tsE.length + 1⟩
    _ _ _ h11 rfl (by simp)
  rw [parse_statement, if_neg (by simp [hkwLet]), if_neg (by simp [hkwRet]),
    if_neg (by simp [hiva]), if_pos (by simp [hkwIf])]
  simp only [hif, hc8]
  simp only [Prod.mk.injEq, Parser.mk.injEq, true_and]
  all_goals omega

/-- Dispatch of a while statement, including the trailing semicolon. -/
theorem stmt_whileS_step (fuel : Nat) (ih : ∀ g, g < fuel → Sound g)
    (tsC tsB : List Token) (cond : Expression) (body : List Statement) (st : Parser)
    (rest : List Token) (hC : DExpr tsC cond) (hB : DBlock tsB body)
    (hdrop : st.tokens.drop st.position = (⟨.Keyword, "while"⟩ :: ⟨.LeftParen, "("⟩ ::
      tsC ++ ⟨.RightParen, ")"⟩ :: ⟨.LeftBracket, "\x7b"⟩ :: tsB ++
      [⟨.RightBracket, "\x7d"⟩, ⟨.Semicolon, ";"⟩]) ++ rest)
    (hfuel : 8 * (tsC.length + tsB.length) + 63 ≤ fuel) :
    parse_statement fuel st = (some (.whileS cond body),
      ⟨st.tokens, st.position + (6 + tsC.length + tsB.length)⟩) := by
  obtain ⟨f, rfl⟩ : ∃ f, fuel = f + 1 := ⟨fuel - 1, by omega⟩
  have hdrop' : st.tokens.drop st.position = ⟨.Keyword, "while"⟩ ::
      (⟨.LeftParen, "("⟩ :: (tsC ++ (⟨.RightParen, ")"⟩ :: (⟨.LeftBracket, "\x7b"⟩ ::
        (tsB ++ (⟨.RightBracket, "\x7d"⟩ :: (⟨.Semicolon, ";"⟩ :: rest))))))) := by
    simpa using hdrop
  have hkwLet : st.is_keyword "let" = false := is_keyword_false hdrop' (by simp)
  have hkwRet : st.is_keyword "return" = false := is_keyword_false hdrop' (by simp)
  have hiva : is_var_affection st = false := is_var_affection_false1 hdrop' (by simp)
  have hkwIf : st.is_keyword "if" = false := is_keyword_false hdrop' (by simp)
  have hkwSw : st.is_keyword "switch" = false := is_keyword_false hdrop' (by simp)
  have hkwWh : st.is_keyword "while" = true := is_keyword_true hdrop' rfl rfl
  have h1 := (tok_drop_head hdrop').2.1
  have h2 : st.tokens.drop (st.position + 1 + 1) = tsC ++ (⟨.RightParen, ")"⟩ ::
      (⟨.LeftBracket, "\x7b"⟩ :: (tsB ++ (⟨.RightBracket, "\x7d"⟩ ::
        (⟨.Semicolon, ";"⟩ :: rest))))) := (tok_drop_head h1).2.1
  have h3 := drop_shift h2
  have h4 := (tok_drop_head h3).2.1
  have h5 : st.tokens.drop (st.position + 1 + 1 + tsC.length + 1 + 1)
      = tsB ++ (⟨.RightBracket, "\x7d"⟩ :: (⟨.Semicolon, ";"⟩ :: rest)) :=
    (tok_drop_head h4).2.1
  have h6 := drop_shift h5
  have h7 : st.tokens.drop (st.position + 1 + 1 + tsC.length + 1 + 1 + tsB.length + 1)
      = ⟨.Semicolon, ";"⟩ :: rest := (tok_drop_head h6).2.1
  have hwh : parse_while_stmt f st = (some (cond, body),
      ⟨st.tokens, st.position + 1 + 1 + tsC.length + 1 + 1 + tsB.length + 1⟩) := by
    obtain ⟨g, rfl⟩ : ∃ g, f = g + 1 := ⟨f - 1, by omega⟩
    have hc1 := consume_keyword_some hdrop' rfl rfl
    have hc2 := @consume_some ⟨st.tokens, st.position + 1⟩ _ _ _ h1 rfl (by simp)
    have hexprEq := (ih g (by omega)).expr ⟨st.tokens, st.position + 1 + 1⟩ _ hC h2
      (follow_expression_of _ (by simp) (by simp)) (by omega)
    have hc3 := @consume_some ⟨st.tokens, st.position + 1 + 1 + tsC.length⟩ _ _ _ h3
      rfl (by simp)
    have hc4 := @consume_some ⟨st.tokens, st.position + 1 + 1 + tsC.length + 1⟩ _ _ _
      h4 rfl (by simp)
    have hblockEq := (ih g (by omega)).block
      ⟨st.tokens, st.position + 1 + 1 + tsC.length + 1 + 1⟩ _ hB h5 rfl (by omega)
    have hc5 := @consume_some
      ⟨st.tokens, st.position + 1 + 1 + tsC.length + 1 + 1 + tsB.length⟩ _ _ _ h6 rfl
      (by simp)
    rw [parse_while_stmt]
    simp only [hc1, hc2, hexprEq, hc3, hc4, hblockEq, hc5]
  have hc6 := @consume_some
    ⟨st.tokens, st.position + 1 + 1 + tsC.length + 1 + 1 + tsB.length + 1⟩ _ _ _ h7
    rfl (by simp)
  rw [parse_statement, if_neg (by simp [hkwLet]), if_neg (by simp [hkwRet]),
    if_neg (by simp [hiva]), if_neg (by simp [hkwIf]), if_neg (by simp [hkwSw]),
    if_pos (by simp [hkwWh])]
  simp only [hwh, hc6]
  simp only [Prod.mk.injEq, Parser.mk.injEq, true_and]
  all_goals omega

/-- Dispatch of a for statement, including the trailing semicolon. -/
theorem stmt_forS_step (fuel : Nat) (ih : ∀ g, g < fuel → Sound g)
    (ts1 ts2 ts3 tsB : List Token) (s1 s2 s3 : Statement) (body : List Statement)
    (st : Parser) (rest : List Token) (h1d : DStmt ts1 s1) (h2d : DStmt ts2 s2)
    (h3d : DStmt ts3 s3) (hB : DBlock tsB body)
    (hdrop : st.tokens.drop st.position = (⟨.Keyword, "for"⟩ :: ⟨.LeftParen, "("⟩ ::
      ts1 ++ ts2 ++ ts3 ++ ⟨.RightParen, ")"⟩ :: ⟨.LeftBracket, "\x7b"⟩ :: tsB ++
      [⟨.RightBracket, "\x7d"⟩, ⟨.Semicolon, ";"⟩]) ++ rest)
    (hfuel : 8 * (ts1.length + ts2.length + ts3.length + tsB.length) + 63 ≤ fuel) :
    parse_statement fuel st = (some (.forS s1 s2 s3 body),
      ⟨st.tokens, st.position
        + (6 + ts1.length + ts2.length + ts3.length + tsB.length)⟩) := by
  obtain ⟨f, rfl⟩ : ∃ f, fuel = f + 1 := ⟨fuel - 1, by omega⟩
  have hdrop' : st.tokens.drop st.position = ⟨.Keyword, "for"⟩ ::
      (⟨.LeftParen, "("⟩ :: (ts1 ++ (ts2 ++ (ts3 ++ (⟨.RightParen, ")"⟩ ::
        (⟨.LeftBracket, "\x7b"⟩ :: (tsB ++ (⟨.RightBracket, "\x7d"⟩ ::
          (⟨.Semicolon, ";"⟩ :: rest))))))))) := by
    simpa using hdrop
  have hkwLet : st.is_keyword "let" = false := is_keyword_false hdrop' (by simp)
  have hkwRet : st.is_keyword "return" = false := is_keyword_false hdrop' (by simp)
  have hiva : is_var_affection st = false := is_var_affection_false1 hdrop' (by simp)
  have hkwIf : st.is_keyword "if" = false := is_keyword_false hdrop' (by simp)
  have hkwSw : st.is_keyword "switch" = false := is_keyword_false hdrop' (by simp)
  have hkwWh : st.is_keyword "while" = false := is_keyword_false hdrop' (by simp)
  have hkwFor : st.is_keyword "for" = true := is_keyword_true hdrop' rfl rfl
  have h1 := (tok_drop_head hdrop').2.1
  have h2 : st.tokens.drop (st.position + 1 + 1) = ts1 ++ (ts2 ++ (ts3 ++
      (⟨.RightParen, ")"⟩ :: (⟨.LeftBracket, "\x7b"⟩ :: (tsB ++
        (⟨.RightBracket, "\x7d"⟩ :: (⟨.Semicolon, ";"⟩ :: rest))))))) :=
    (tok_drop_head h1).2.1
  have h3 := drop_shift h2
  have h4 := drop_shift h3
  have h5 := drop_shift h4
  have h6 := (tok_drop_head h5).2.1
  have h7 : st.tokens.drop
      (st.position + 1 + 1 + ts1.length + ts2.length + ts3.length + 1 + 1)
      = tsB ++ (⟨.RightBracket, "\x7d"⟩ :: (⟨.Semicolon, ";"⟩ :: rest)) :=
    (tok_drop_head h6).2.1
  have h8 := drop_shift h7
  have h9 : st.tokens.drop (st.position + 1 + 1 + ts1.length + ts2.length
      + ts3.length + 1 + 1 + tsB.length + 1) = ⟨.Semicolon, ";"⟩ :: rest :=
    (tok_drop_head h8).2.1
  have hfor : parse_for_stmt f st = (some (s1, s2, s3, body),
      ⟨st.tokens, st.position + 1 + 1 + ts1.length + ts2.length + ts3.length
        + 1 + 1 + tsB.length + 1⟩) := by
    obtain ⟨g, rfl⟩ : ∃ g, f = g + 1 := ⟨f - 1, by omega⟩
    have hc1 := consume_keyword_some hdrop' rfl rfl
    have hc2 := @consume_some ⟨st.tokens, st.position + 1⟩ _ _ _ h1 rfl (by simp)
    have hstmt1 := (ih g (by omega)).stmt ⟨st.tokens, st.position + 1 + 1⟩ _ h1d h2
      (by omega)
    have hstmt2 := (ih g (by omega)).stmt
      ⟨st.tokens, st.position + 1 + 1 + ts1.length⟩ _ h2d h3 (by omega)
    have hstmt3 := (ih g (by omega)).stmt
      ⟨st.tokens, st.position + 1 + 1 + ts1.length + ts2.length⟩ _ h3d h4 (by omega)
    have hc3 := @consume_some
      ⟨st.tokens, st.position + 1 + 1 + ts1.length + ts2.length + ts3.length⟩ _ _ _
      h5 rfl (by simp)
    have hc4 := @consume_some
      ⟨st.tokens, st.position + 1 + 1 + ts1.length + ts2.length + ts3.length + 1⟩
      _ _ _ h6 rfl (by simp)
    have hblockEq := (ih g (by omega)).block ⟨st.tokens,
      st.position + 1 + 1 + ts1.length + ts2.length + ts3.length + 1 + 1⟩ _ hB h7
      rfl (by omega)
    have hc5 := @consume_some ⟨st.tokens, st.position + 1 + 1 + ts1.length
      + ts2.length + ts3.length + 1 + 1 + tsB.length⟩ _ _ _ h8 rfl (by simp)
    rw [parse_for_stmt]
    simp only [hc1, hc2, hstmt1, hstmt2, hstmt3, hc3, hc4, hblockEq, hc5]
  have hc6 := @consume_some ⟨st.tokens, st.position + 1 + 1 + ts1.length
    + ts2.length + ts3.length + 1 + 1 + tsB.length + 1⟩ _ _ _ h9 rfl (by simp)
  rw [parse_statement, if_neg (by simp [hkwLet]), if_neg (by simp [hkwRet]),
    if_neg (by simp [hiva]), if_neg (by simp [hkwIf]), if_neg (by simp [hkwSw]),
    if_neg (by simp [hkwWh]), if_pos (by simp [hkwFor])]
  simp only [hfor, hc6]
  simp only [Prod.mk.injEq, Parser.mk.injEq, true_and]
  all_goals omega

/-- `Option.elim` with `none` and `some` is the identity. -/
theorem option_elim_none_some (o : Option (List Statement)) :
    o.elim none some = o := by cases o <;> rfl

/-- Dispatch of a switch statement, including the trailing semicolon. -/
theorem stmt_switchS_step (fuel : Nat) (ih : ∀ g, g < fuel → Sound g)
    (tsD tsI : List Token) (d : Expression)
    (items : List (Expression × List Statement)) (odflt : Option (List Statement))
    (st : Parser) (rest : List Token) (hD : DExpr tsD d) (hI : DItems tsI items odflt)
    (hdrop : st.tokens.drop st.position = (⟨.Keyword, "switch"⟩ :: ⟨.LeftParen, "("⟩ ::
      tsD ++ ⟨.RightParen, ")"⟩ :: ⟨.LeftBracket, "\x7b"⟩ :: tsI ++
      [⟨.RightBracket, "\x7d"⟩, ⟨.Semicolon, ";"⟩]) ++ rest)
    (hfuel : 8 * (tsD.length + tsI.length) + 63 ≤ fuel) :
    parse_statement fuel st = (some (.switchS d items odflt),
      ⟨st.tokens, st.position + (6 + tsD.length + tsI.length)⟩) := by
  obtain ⟨f, rfl⟩ : ∃ f, fuel = f + 1 := ⟨fuel - 1, by omega⟩
  have hdrop' : st.tokens.drop st.position = ⟨.Keyword, "switch"⟩ ::
      (⟨.LeftParen, "("⟩ :: (tsD ++ (⟨.RightParen, ")"⟩ :: (⟨.LeftBracket, "\x7b"⟩ ::
        (tsI ++ (⟨.RightBracket, "\x7d"⟩ :: (⟨.Semicolon, ";"⟩ :: rest))))))) := by
    simpa using hdrop
  have hkwLet : st.is_keyword "let" = false := is_keyword_false hdrop' (by simp)
  have hkwRet : st.is_keyword "return" = false := is_keyword_false hdrop' (by simp)
  have hiva : is_var_affection st = false := is_var_affection_false1 hdrop' (by simp)
  have hkwIf : st.is_keyword "if" = false := is_keyword_false hdrop' (by simp)
  have hkwSw : st.is_keyword "switch" = true := is_keyword_true hdrop' rfl rfl
  have h1 := (tok_drop_head hdrop').2.1
  have h2 : st.tokens.drop (st.position + 1 + 1) = tsD ++ (⟨.RightParen, ")"⟩ ::
      (⟨.LeftBracket, "\x7b"⟩ :: (tsI ++ (⟨.RightBracket, "\x7d"⟩ ::
        (⟨.Semicolon, ";"⟩ :: rest))))) := (tok_drop_head h1).2.1
  have h3 := drop_shift h2
  have h4 := (tok_drop_head h3).2.1
  have h5 : st.tokens.drop (st.position + 1 + 1 + tsD.length + 1 + 1)
      = tsI ++ (⟨.RightBracket, "\x7d"⟩ :: (⟨.Semicolon, ";"⟩ :: rest)) :=
    (tok_drop_head h4).2.1
  have h6 := drop_shift h5
  have h7 : st.tokens.drop (st.position + 1 + 1 + tsD.length + 1 + 1 + tsI.length + 1)
      = ⟨.Semicolon, ";"⟩ :: rest := (tok_drop_head h6).2.1
  have hsw : parse_switch_stmt f st = (some (d, items, odflt),
      ⟨st.tokens, st.position + 1 + 1 + tsD.length + 1 + 1 + tsI.length + 1⟩) := by
    obtain ⟨g, rfl⟩ : ∃ g, f = g + 1 := ⟨f - 1, by omega⟩
    have hc1 := consume_keyword_some hdrop' rfl rfl
    have hc2 := @consume_some ⟨st.tokens, st.position + 1⟩ _ _ _ h1 rfl (by simp)
    have hexprEq := (ih g (by omega)).expr ⟨st.tokens, st.position + 1 + 1⟩ _ hD h2
      (follow_expression_of _ (by simp) (by simp)) (by omega)
    have hc3 := @consume_some ⟨st.tokens, st.position + 1 + 1 + tsD.length⟩ _ _ _ h3
      rfl (by simp)
    have hc4 := @consume_some ⟨st.tokens, st.position + 1 + 1 + tsD.length + 1⟩ _ _ _
      h4 rfl (by simp)
    have hitemsEq := (ih g (by omega)).items
      ⟨st.tokens, st.position + 1 + 1 + tsD.length + 1 + 1⟩ _ [] none hI h5 rfl
      (by omega)
    have hc5 := @consume_some
      ⟨st.tokens, st.position + 1 + 1 + tsD.length + 1 + 1 + tsI.length⟩ _ _ _ h6 rfl
      (by simp)
    rw [parse_switch_stmt]
    simp only [hc1, hc2, hexprEq, hc3, hc4, hitemsEq, hc5, List.nil_append,
      option_elim_none_some]
  have hc6 := @consume_some
    ⟨st.tokens, st.position + 1 + 1 + tsD.length + 1 + 1 + tsI.length + 1⟩ _ _ _ h7
    rfl (by simp)
  rw [parse_statement, if_neg (by simp [hkwLet]), if_neg (by simp [hkwRet]),
    if_neg (by simp [hiva]), if_neg (by simp [hkwIf]), if_pos (by simp [hkwSw])]
  simp only [hsw, hc6]
  simp only [Prod.mk.injEq, Parser.mk.injEq, true_and]
  all_goals omega

/-- Dispatch of a function declaration (no trailing semicolon). -/
theorem stmt_fnDecl_step (fuel : Nat) (ih : ∀ g, g < fuel → Sound g)
    (name ret : String) (tsP tsB : List Token) (ps : List (String × String))
    (body : List Statement) (st : Parser) (rest : List Token)
    (hP : DParams tsP ps) (hB : DBlock tsB body)
    (hdrop : st.tokens.drop st.position = (⟨.Keyword, "function"⟩ ::
      ⟨.Identifier, name⟩ :: ⟨.LeftParen, "("⟩ :: tsP ++ ⟨.RightParen, ")"⟩ ::
      ⟨.Colon, ":"⟩ :: ⟨.Type, ret⟩ :: ⟨.LeftBracket, "\x7b"⟩ :: tsB ++
      [⟨.RightBracket, "\x7d"⟩]) ++ rest)
    (hfuel : 8 * (tsP.length + tsB.length) + 79 ≤ fuel) :
    parse_statement fuel st = (some (.functionDeclaration name ps ret body),
      ⟨st.tokens, st.position + (8 + tsP.length + tsB.length)⟩) := by
  obtain ⟨f, rfl⟩ : ∃ f, fuel = f + 1 := ⟨fuel - 1, by omega⟩
  have hdrop' : st.tokens.drop st.position = ⟨.Keyword, "function"⟩ ::
      (⟨.Identifier, name⟩ :: (⟨.LeftParen, "("⟩ :: (tsP ++ (⟨.RightParen, ")"⟩ ::
        (⟨.Colon, ":"⟩ :: (⟨.Type, ret⟩ :: (⟨.LeftBracket, "\x7b"⟩ :: (tsB ++
          (⟨.RightBracket, "\x7d"⟩ :: rest))))))))) := by
    simpa using hdrop
  have hkwLet : st.is_keyword "let" = false := is_keyword_false hdrop' (by simp)
  have hkwRet : st.is_keyword "return" = false := is_keyword_false hdrop' (by simp)
  have hiva : is_var_affection st = false := is_var_affection_false1 hdrop' (by simp)
  have hkwIf : st.is_keyword "if" = false := is_keyword_false hdrop' (by simp)
  have hkwSw : st.is_keyword "switch" = false := is_keyword_false hdrop' (by simp)
  have hkwWh : st.is_keyword "while" = false := is_keyword_false hdrop' (by simp)
  have hkwFor : st.is_keyword "for" = false := is_keyword_false hdrop' (by simp)
  have hkwFn : st.is_keyword "function" = true := is_keyword_true hdrop' rfl rfl
  have h1 := (tok_drop_head hdrop').2.1
  have h2 := (tok_drop_head h1).2.1
  have h3 : st.tokens.drop (st.position + 1 + 1 + 1) = tsP ++ (⟨.RightParen, ")"⟩ ::
      (⟨.Colon, ":"⟩ :: (⟨.Type, ret⟩ :: (⟨.LeftBracket, "\x7b"⟩ :: (tsB ++
        (⟨.RightBracket, "\x7d"⟩ :: rest)))))) := (tok_drop_head h2).2.1
  have h4 := drop_shift h3
  have h5 := (tok_drop_head h4).2.1
  have h6 := (tok_drop_head h5).2.1
  have h6b : st.tokens.drop (st.position + 1 + 1 + 1 + tsP.length + 1 + 1 + 1)
      = ⟨.LeftBracket, "\x7b"⟩ :: (tsB ++ (⟨.RightBracket, "\x7d"⟩ :: rest)) :=
    (tok_drop_head h6).2.1
  have h7 : st.tokens.drop (st.position + 1 + 1 + 1 + tsP.length + 1 + 1 + 1 + 1)
      = tsB ++ (⟨.RightBracket, "\x7d"⟩ :: rest) := (tok_drop_head h6b).2.1
  have h8 := drop_shift h7
  have hfn : parser_function_decl f st = (some (name, ps, ret, body),
      ⟨st.tokens,
        st.position + 1 + 1 + 1 + tsP.length + 1 + 1 + 1 + 1 + tsB.length + 1⟩) := by
    obtain ⟨g, rfl⟩ : ∃ g, f = g + 1 := ⟨f - 1, by omega⟩
    have hc1 := consume_keyword_some hdrop' rfl rfl
    have hc2 := @consume_some ⟨st.tokens, st.position + 1⟩ _ _ _ h1 rfl (by simp)
    have hc3 := @consume_some ⟨st.tokens, st.position + 1 + 1⟩ _ _ _ h2 rfl (by simp)
    have hparamsEq := (ih g (by omega)).params
      ⟨st.tokens, st.position + 1 + 1 + 1⟩ _ hP h3 rfl (by omega)
    have hc4 := @consume_some ⟨st.tokens, st.position + 1 + 1 + 1 + tsP.length⟩ _ _ _
      h4 rfl (by simp)
    have hc5 := @consume_some ⟨st.tokens, st.position + 1 + 1 + 1 + tsP.length + 1⟩
      _ _ _ h5 rfl (by simp)
    have hc6 := @consume_some
      ⟨st.tokens, st.position + 1 + 1 + 1 + tsP.length + 1 + 1⟩ _ _ _ h6 rfl (by simp)
    have hc6b := @consume_some
      ⟨st.tokens, st.position + 1 + 1 + 1 + tsP.length + 1 + 1 + 1⟩ _ _ _ h6b rfl
      (by simp)
    have hblockEq := (ih g (by omega)).block
      ⟨st.tokens, st.position + 1 + 1 + 1 + tsP.length + 1 + 1 + 1 + 1⟩ _ hB h7 rfl
      (by omega)
    have hc7 := @consume_some ⟨st.tokens,
      st.position + 1 + 1 + 1 + tsP.length + 1 + 1 + 1 + 1 + tsB.length⟩ _ _ _ h8 rfl
      (by simp)
    rw [parser_function_decl]
    simp only [hc1, hc2, hc3, hparamsEq, hc4, hc5, hc6, hc6b, hblockEq, hc7]
  rw [parse_statement, if_neg (by simp [hkwLet]), if_neg (by simp [hkwRet]),
    if_neg (by simp [hiva]), if_neg (by simp [hkwIf]), if_neg (by simp [hkwSw]),
    if_neg (by simp [hkwWh]), if_neg (by simp [hkwFor]), if_pos (by simp [hkwFn])]
  simp only [hfn]
  simp only [Prod.mk.injEq, Parser.mk.injEq, true_and]
  all_goals omega

/-- Dispatch of an expression statement led by an identifier. -/
theorem stmt_exprStmt_step (fuel : Nat) (ih : ∀ g, g < fuel → Sound g)
    (tsE : List Token) (e : Expression) (st : Parser) (rest : List Token)
    (hE : DExpr tsE e)
    (hhead : (tsE.headD ⟨.EOF, ""⟩).token_type = .Identifier)
    (hsnd : (tsE.tail.headD ⟨.EOF, ""⟩).token_type ≠ .Equals)
    (hdrop : st.tokens.drop st.position = (tsE ++ [⟨.Semicolon, ";"⟩]) ++ rest)
    (hfuel : 8 * tsE.length + 23 ≤ fuel) :
    parse_statement fuel st = (some (.expressionStatement e),
      ⟨st.tokens, st.position + (tsE.length + 1)⟩) := by
  obtain ⟨f, rfl⟩ : ∃ f, fuel = f + 1 := ⟨fuel - 1, by omega⟩
  obtain ⟨t, l, hts, hty⟩ := dexpr_head hE
  subst hts
  simp only [List.headD_cons] at hhead
  simp only [List.tail_cons] at hsnd
  have hdrop' : st.tokens.drop st.position
      = t :: (l ++ (⟨.Semicolon, ";"⟩ :: rest)) := by simpa using hdrop
  have hkwLet : st.is_keyword "let" = false := by
    apply is_keyword_false hdrop'
    simp only [List.headD_cons]
    rintro ⟨hk, _⟩
    rw [hhead] at hk
    exact TokenType.noConfusion hk
  have hkwRet : st.is_keyword "return" = false := by
    apply is_keyword_false hdrop'
    simp only [List.headD_cons]
    rintro ⟨hk, _⟩
    rw [hhead] at hk
    exact TokenType.noConfusion hk
  have hiva : is_var_affection st = false := by
    cases l with
    | nil => exact is_var_affection_false2 hdrop' (by decide)
    | cons t2 l2 =>
      apply is_var_affection_false2 (by simpa using hdrop')
      simpa using hsnd
  have hkwIf : st.is_keyword "if" = false := by
    apply is_keyword_false hdrop'
    simp only [List.headD_cons]
    rintro ⟨hk, _⟩
    rw [hhead] at hk
    exact TokenType.noConfusion hk
  have hkwSw : st.is_keyword "switch" = false := by
    apply is_keyword_false hdrop'
    simp only [List.headD_cons]
    rintro ⟨hk, _⟩
    rw [hhead] at hk
    exact TokenType.noConfusion hk
  have hkwWh : st.is_keyword "while" = false := by
    apply is_keyword_false hdrop'
    simp only [List.headD_cons]
    rintro ⟨hk, _⟩
    rw [hhead] at hk
    exact TokenType.noConfusion hk
  have hkwFor : st.is_keyword "for" = false := by
    apply is_keyword_false hdrop'
    simp only [List.headD_cons]
    rintro ⟨hk, _⟩
    rw [hhead] at hk
    exact TokenType.noConfusion hk
  have hkwFn : st.is_keyword "function" = false := by
    apply is_keyword_false hdrop'
    simp only [List.headD_cons]
    rintro ⟨hk, _⟩
    rw [hhead] at hk
    exact TokenType.noConfusion hk
  have hckId : st.check .Identifier = true :=
    check_true hdrop' hhead (by rw [hhead]; decide)
  have hdropE : st.tokens.drop st.position
      = (t :: l) ++ (⟨.Semicolon, ";"⟩ :: rest) := by simpa using hdrop'
  have hexprEq := (ih f (by omega)).expr st (⟨.Semicolon, ";"⟩ :: rest) hE hdropE
    (follow_expression_of _ (by simp) (by simp)) (by omega)
  have h2 : st.tokens.drop (st.position + (t :: l).length)
      = ⟨.Semicolon, ";"⟩ :: rest := drop_shift hdropE
  have hc2 := @consume_some ⟨st.tokens, st.position + (t :: l).length⟩ _ _ _ h2 rfl
    (by simp)
  rw [parse_statement, if_neg (by simp [hkwLet]), if_neg (by simp [hkwRet]),
    if_neg (by simp [hiva]), if_neg (by simp [hkwIf]), if_neg (by simp [hkwSw]),
    if_neg (by simp [hkwWh]), if_neg (by simp [hkwFor]), if_neg (by simp [hkwFn]),
    if_pos (by simp [hckId])]
  simp only [hexprEq, hc2]
  simp only [Prod.mk.injEq, Parser.mk.injEq, List.length_cons, true_and]
  all_goals omega

/-- Step lemma for `parse_statement`. -/
theorem stmt_step (fuel : Nat) (ih : ∀ g, g < fuel → Sound g)
    {ts : List Token} {s : Statement} (st : Parser) (rest : List Token)
    (hd : DStmt ts s) (hdrop : st.tokens.drop st.position = ts ++ rest)
    (hfuel : 8 * ts.length + 15 ≤ fuel) :
    parse_statement fuel st = (some s, ⟨st.tokens, st.position + ts.length⟩) := by
  cases hd with
  | varDeclNone x ty =>
    simp only [List.length_cons, List.length_nil] at hfuel
    rw [stmt_varDeclNone_step fuel x ty st rest hdrop (by omega)]
    simp only [Prod.mk.injEq, Parser.mk.injEq, List.length_cons, List.length_nil,
      true_and]
    all_goals omega
  | varDeclInit x ty tsE e hE =>
    simp only [List.length_cons, List.length_append, List.length_nil] at hfuel
    rw [stmt_varDeclInit_step fuel ih x ty tsE e st rest hE hdrop (by omega)]
    simp only [Prod.mk.injEq, Parser.mk.injEq, List.length_cons, List.length_append,
      List.length_nil, true_and]
    all_goals omega
  | retNone =>
    simp only [List.length_cons, List.length_nil] at hfuel
    rw [stmt_retNone_step fuel st rest hdrop (by omega)]
    simp only [Prod.mk.injEq, Parser.mk.injEq, List.length_cons, List.length_nil,
      true_and]
    all_goals omega
  | retSome tsE e hE =>
    simp only [List.length_cons, List.length_append, List.length_nil] at hfuel
    rw [stmt_retSome_step fuel ih tsE e st rest hE hdrop (by omega)]
    simp only [Prod.mk.injEq, Parser.mk.injEq, List.length_cons, List.length_append,
      List.length_nil, true_and]
    all_goals omega
  | varAff x tsE e hE =>
    simp only [List.length_cons, List.length_append, List.length_nil] at hfuel
    rw [stmt_varAff_step fuel ih x tsE e st rest hE hdrop (by omega)]
    simp only [Prod.mk.injEq, Parser.mk.injEq, List.length_cons, List.length_append,
      List.length_nil, true_and]
    all_goals omega
  | ifNoElse tsC tsB cond thn hC hB =>
    simp only [List.length_cons, List.length_append, List.length_nil] at hfuel
    rw [stmt_ifNoElse_step fuel ih tsC tsB cond thn st rest hC hB hdrop (by omega)]
    simp only [Prod.mk.injEq, Parser.mk.injEq, List.length_cons, List.length_append,
      List.length_nil, true_and]
    all_goals omega
  | ifElse tsC tsB tsE cond thn els hC hB hE =>
    simp only [List.length_cons, List.length_append, List.length_nil] at hfuel
    rw [stmt_ifElse_step fuel ih tsC tsB tsE cond thn els st rest hC hB hE hdrop
      (by omega)]
    simp only [Prod.mk.injEq, Parser.mk.injEq, List.length_cons, List.length_append,
      List.length_nil, true_and]
    all_goals omega
  | whileS tsC tsB cond body hC hB =>
    simp only [List.length_cons, List.length_append, List.length_nil] at hfuel
    rw [stmt_whileS_step fuel ih tsC tsB cond body st rest hC hB hdrop (by omega)]
    simp only [Prod.mk.injEq, Parser.mk.injEq, List.length_cons, List.length_append,
      List.length_nil, true_and]
    all_goals omega
  | forS ts1 ts2 ts3 tsB s1 s2 s3 body h1d h2d h3d hB =>
    simp only [List.length_cons, List.length_append, List.length_nil] at hfuel
    rw [stmt_forS_step fuel ih ts1 ts2 ts3 tsB s1 s2 s3 body st rest h1d h2d h3d hB
      hdrop (by omega)]
    simp only [Prod.mk.injEq, Parser.mk.injEq, List.length_cons, List.length_append,
      List.length_nil, true_and]
    all_goals omega
  | switchS tsD tsI d items odflt hD hI =>
    simp only [List.length_cons, List.length_append, List.length_nil] at hfuel
    rw [stmt_switchS_step fuel ih tsD tsI d items odflt st rest hD hI hdrop
      (by omega)]
    simp only [Prod.mk.injEq, Parser.mk.injEq, List.length_cons, List.length_append,
      List.length_nil, true_and]
    all_goals omega
  | fnDecl name ret tsP tsB ps body hP hB =>
    simp only [List.length_cons, List.length_append, List.length_nil] at hfuel
    rw [stmt_fnDecl_step fuel ih name ret tsP tsB ps body st rest hP hB hdrop
      (by omega)]
    simp only [Prod.mk.injEq, Parser.mk.injEq, List.length_cons, List.length_append,
      List.length_nil, true_and]
    all_goals omega
  | exprStmt tsE e hE hhead hsnd =>
    simp only [List.length_cons, List.length_append, List.length_nil] at hfuel
    rw [stmt_exprStmt_step fuel ih tsE e st rest hE hhead hsnd hdrop (by omega)]
    simp only [Prod.mk.injEq, Parser.mk.injEq, List.length_cons, List.length_append,
      List.length_nil, true_and]
    all_goals omega

/-- The parser is sound at every fuel: strong induction over the fuel, each
constructor discharged by its step lemma. -/
theorem all_sound : ∀ fuel : Nat, Sound fuel := by
  intro fuel
  induction fuel using Nat.strong_induction_on with
  | _ fuel ih =>
    exact ⟨expr_step fuel ih, eq_step fuel ih, eqChain_step fuel ih,
      comp_step fuel ih, compChain_step fuel ih, term_step fuel ih,
      termChain_step fuel ih, factor_step fuel ih, facChain_step fuel ih,
      unary_step fuel ih, primary_step fuel ih, args1_step fuel ih,
      args_step fuel ih, stmt_step fuel ih, block_step fuel ih,
      items_step fuel ih, params1_step fuel ih, params_step fuel ih⟩

/-- C3 (amended): for every token sequence derivable from the if-statement
production amended with the trailing semicolon the code requires,
`parse_statement` succeeds and returns the corresponding If node, consuming
exactly the production's tokens. -/
theorem c3_if_production_with_semicolon_parses (ts : List Token) (cond : Expression)
    (thn : List Statement) (els : Option (List Statement)) (st : Parser)
    (rest : List Token) (fuel : Nat) (hder : DStmt ts (.ifS cond thn els))
    (hdrop : st.tokens.drop st.position = ts ++ rest)
    (hfuel : 8 * ts.length + 15 ≤ fuel) :
    parse_statement fuel st
      = (some (.ifS cond thn els), ⟨st.tokens, st.position + ts.length⟩) :=
  (all_sound fuel).stmt st rest hder hdrop hfuel

/-- C3 witness: the seven-token sequence `if ( true ) then-block ;` parses to
its If node. -/
theorem c3_if_production_witness :
    parse_statement 79 ⟨[⟨.Keyword, "if"⟩, ⟨.LeftParen, "("⟩, ⟨.Bool, "true"⟩,
        ⟨.RightParen, ")"⟩, ⟨.LeftBracket, "\x7b"⟩, ⟨.RightBracket, "\x7d"⟩,
        ⟨.Semicolon, ";"⟩], 0⟩
      = (some (.ifS (.bool true) [] none),
        ⟨[⟨.Keyword, "if"⟩, ⟨.LeftParen, "("⟩, ⟨.Bool, "true"⟩, ⟨.RightParen, ")"⟩,
          ⟨.LeftBracket, "\x7b"⟩, ⟨.RightBracket, "\x7d"⟩, ⟨.Semicolon, ";"⟩], 7⟩) :=
  c3_if_production_with_semicolon_parses _ (.bool true) [] none _ [] 79
    (DStmt.ifNoElse [⟨.Bool, "true"⟩] [] (.bool true) []
      (DExpr.mk [⟨.Bool, "true"⟩] [] (.bool true) (.bool true)
        (DComp.mk [⟨.Bool, "true"⟩] [] (.bool true) (.bool true)
          (DTerm.mk [⟨.Bool, "true"⟩] [] (.bool true) (.bool true)
            (DFactor.mk [⟨.Bool, "true"⟩] [] (.bool true) (.bool true)
              (DUnary.lift [⟨.Bool, "true"⟩] (.bool true) (DPrim.bool "true"))
              (DFacChain.done (.bool true)))
            (DTermChain.done (.bool true)))
          (DCompChain.done (.bool true)))
        (DEqChain.done (.bool true)))
      DBlock.nil)
    rfl (by decide)

/-- C3 counterexample: the same production without the trailing semicolon —
the spec's grammar — is rejected by `parse_statement`, and a whole program
whose single statement is such an if statement parses to the empty AST. -/
theorem c3_counterexample_missing_semicolon :
    (parse_statement 64 ⟨[⟨.Keyword, "if"⟩, ⟨.LeftParen, "("⟩, ⟨.Bool, "true"⟩,
        ⟨.RightParen, ")"⟩, ⟨.LeftBracket, "\x7b"⟩, ⟨.RightBracket, "\x7d"⟩,
        ⟨.EOF, ""⟩], 0⟩).1 = none
    ∧ parse_program "if (true) \x7b\x7d" = [] :=
  ⟨rfl, rfl⟩

end OwnLang
